import Mathlib

/-! Pacemaker attribute daemon: replication and writer core.

Shallow embedding of `daemons/attrd/attrd_commands.c`.

* The two hash tables (`attributes`, keyed by attribute name, and each
  attribute's `values`, keyed by node name without regard to letter case) are
  association lists.  A lookup returns the first entry whose key matches, a
  pointer into a table is the key of that entry, and iteration follows the list.
* XML messages are records of optional fields (`xmlNode`); integer-valued
  fields hold the integer that `crm_element_value_int` reads.
* Everything the file reaches outside itself is either read from `Env`
  (election state, peer caches, CIB connection, time parsing, local node) or
  appended to a log in `Globals` (CIB requests, cluster messages, election
  starts, removed voters, alerts, peer-cache operations).
-/

namespace Attrd

/-! ## Strings -/

/-- Modelled from the spec: `strcasecmp(a, b) == 0`, the comparison behind
`crm_strcase_equal`, `safe_str_eq` and `safe_str_neq` of lib/common. The
design notes make node-name comparisons, as map keys and in conflict
resolution, insensitive to letter case; the code performs those comparisons
with these helpers (`pacemakerd.c` asks `crm_str_eq` for a case-sensitive
comparison by passing `TRUE`). -/
def strcase_eq (a b : String) : Bool :=
  a.data.map Char.toLower == b.data.map Char.toLower

/-- Modelled from the spec: `safe_str_eq(a, b)`, that is `crm_str_eq(a, b, FALSE)`:
two absent strings are equal, an absent and a present one are not, two present
ones are compared without regard to letter case. -/
def safe_str_eq (a b : Option String) : Bool :=
  match a, b with
  | none, none => true
  | some x, some y => strcase_eq x y
  | _, _ => false

/-- Modelled from the spec: `safe_str_neq(a, b)`, the complement of `safe_str_eq`. -/
def safe_str_neq (a b : Option String) : Bool :=
  match a, b with
  | none, none => false
  | some x, some y => !strcase_eq x y
  | _, _ => true

/-- Modelled from the spec: the operation `UPDATE` of the protocol; the text is
that of `ATTRD_OP_UPDATE` in crm/attrd.h. -/
def ATTRD_OP_UPDATE : String := "update"

/-- Modelled from the spec: the operation `UPDATE_BOTH` of the protocol; the
text is that of `ATTRD_OP_UPDATE_BOTH` in crm/attrd.h. -/
def ATTRD_OP_UPDATE_BOTH : String := "update-both"

/-- Modelled from the spec: the operation `UPDATE_DELAY` of the protocol; the
text is that of `ATTRD_OP_UPDATE_DELAY` in crm/attrd.h. -/
def ATTRD_OP_UPDATE_DELAY : String := "update-delay"

/-- Modelled from the spec: the operation `SYNC_RESPONSE` of the protocol; the
text is that of `ATTRD_OP_SYNC_RESPONSE` in crm/attrd.h. -/
def ATTRD_OP_SYNC_RESPONSE : String := "sync-response"

/-- Modelled from the spec: the operation `SYNC` of the protocol; the text is
that of `ATTRD_OP_SYNC` in crm/attrd.h. -/
def ATTRD_OP_SYNC : String := "sync"

/-- Modelled from the spec: the operation `PEER_REMOVE` of the protocol; the
text is that of `ATTRD_OP_PEER_REMOVE` in crm/attrd.h. -/
def ATTRD_OP_PEER_REMOVE : String := "peer-remove"

/-- Modelled from the spec: the operation `CLEAR_FAILURE` of the protocol; the
text is that of `ATTRD_OP_CLEAR_FAILURE` in crm/attrd.h. -/
def ATTRD_OP_CLEAR_FAILURE : String := "clear-failure"

/-- Value of `ATTRD_PROTOCOL_VERSION` (line 41). -/
def ATTRD_PROTOCOL_VERSION : String := "2"

/-- Modelled from the spec: the well-known attribute-daemon tag `T_ATTRD` of
message types. -/
def T_ATTRD : String := "attrd"

/-- Modelled from the spec: the membership state MEMBER, `CRM_NODE_MEMBER` of
crm/cluster.h. -/
def CRM_NODE_MEMBER : String := "member"

/-- Modelled from the spec: the tag of the STATUS section, `XML_CIB_TAG_STATUS`
of crm/msg_xml.h, which also starts the default set id `status-<uuid>`. -/
def XML_CIB_TAG_STATUS : String := "status"

/-- Modelled from the spec: the CDB operation MODIFY, `CIB_OP_MODIFY` of crm/cib.h. -/
def CIB_OP_MODIFY : String := "cib_modify"

/-- Modelled from the spec: the name of the value field of an NVPAIR,
`XML_NVPAIR_ATTR_VALUE` of crm/msg_xml.h. -/
def XML_NVPAIR_ATTR_VALUE : String := "value"

/-- Modelled from the spec: the flag of a remote node, `crm_remote_node` of
crm/cluster.h, as a bit of a peer's flags. -/
def crm_remote_node : Nat := 1

/-! ## Data model -/

/-- Modelled from the spec: the `attribute_value_t` record of
pacemaker-attrd.h, with the fields of a Value of the data model that the code
uses: one attribute's binding for one node. -/
structure attribute_value_t where
  nodeid : Nat
  is_remote : Int
  nodename : String
  current : Option String
  requested : Option String
  seen : Bool
deriving DecidableEq, Repr

/-- Modelled from the spec: a one-shot deferred-write timer (`mainloop_timer_t`
of lib/common/mainloop.c), as the daemon observes it: its period and whether it
is scheduled. -/
structure mainloop_timer_t where
  period_ms : Int
  running : Bool
deriving DecidableEq, Repr

/-- Modelled from the spec: the `attribute_t` record of pacemaker-attrd.h, with
the fields of an Attribute of the data model that the code uses. `update` is
the call id of the CIB write in flight (0 when there is none). -/
structure attribute_t where
  uuid : Option String
  id : String
  set : Option String
  values : List attribute_value_t
  update : Int
  timeout_ms : Int
  changed : Bool
  unknown_peer_uuids : Bool
  is_private : Int
  timer : Option mainloop_timer_t
  user : Option String
  force_write : Bool
deriving DecidableEq, Repr

/-- An attrd XML element, as the fields the daemon reads and writes. -/
structure xmlNode where
  f_type : Option String := none
  version : Option String := none
  writer : Option String := none
  task : Option String := none
  attr : Option String := none
  set : Option String := none
  key : Option String := none
  user : Option String := none
  host : Option String := none
  host_id : Option Int := none
  value : Option String := none
  dampen : Option String := none
  is_private : Option Int := none
  is_remote : Option Int := none
  is_force_write : Option Int := none
  regex : Option String := none
  resource : Option String := none
  operation : Option String := none
  interval : Option String := none
  crm_task : Option String := none
deriving DecidableEq, Repr

/-- Modelled from the spec: a peer of the membership layer (`crm_node_t` of
crm/cluster.h), with the fields the daemon reads. -/
structure crm_node_t where
  id : Nat
  uname : Option String
  uuid : Option String
  state : Option String
  processes : Nat
  flags : Nat
deriving DecidableEq, Repr

/-- What the daemon reads from its surroundings during one handler, and the
helpers and constants of other files that its code calls. -/
structure Env where
  /-- The local node name, `attrd_cluster->uname`. -/
  uname : String
  /-- Result of `attrd_election_won()`. -/
  election_won : Bool
  /-- Whether `the_cib` is connected (non-NULL). -/
  the_cib : Bool
  /-- Whether the build has `ENABLE_ACL`. -/
  enable_acl : Bool
  /-- The writer name `attrd_xml_add_writer` attaches, if any. -/
  peer_writer : Option String
  /-- The int that `crm_get_msec` yields for a dampening text. -/
  crm_get_msec : String → Int
  /-- Lookup `crm_get_peer_full(id, uname, CRM_GET_PEER_ANY)` in the peer caches. -/
  crm_get_peer_full : Nat → String → Option crm_node_t
  /-- The value `cib_internal_op` returns for the request submitted after `n` earlier ones. -/
  cib_internal_op : Nat → Int
  /-- Modelled from the spec: the tag returned for a request identifies an
  outstanding write, so it is never the 0 that stands for "no write in flight". -/
  cib_internal_op_ne_zero : ∀ n, cib_internal_op n ≠ 0
  /-- Result of `crm_get_cluster_proc()`. -/
  cluster_proc : Nat
  /-- The id that `crm_xml_set_id` stores for a formatted text. -/
  crm_xml_sanitize_id : String → String
  /-- The local node id, `attrd_cluster->nodeid`. -/
  nodeid : Nat
  /-- Result of `attrd_shutting_down()`. -/
  shutting_down : Bool
  /-- Result of `attrd_check_for_new_writer(peer, xml)`: whether the message
  comes from a peer that has just become the writer. -/
  attrd_check_for_new_writer : crm_node_t → xmlNode → Bool
  /-- The library calls `regcomp(.., REG_EXTENDED|REG_NOSUB)` and `regexec`:
  `none` when the pattern does not compile, else the test whether a name
  matches (`regexec` returns 0). -/
  regcomp : String → Option (String → Bool)
  /-- The helper `attrd_failure_regex(&regex, rsc, op, interval_ms)`: `none`
  unless it returns `pcmk_ok`, else the test whether a name matches. -/
  attrd_failure_regex : Option String → Option String → Nat → Option (String → Bool)
  /-- Result of `crm_parse_interval_spec`. -/
  crm_parse_interval_spec : Option String → Nat
  /-- The pattern `ATTRD_RE_CLEAR_ALL`. -/
  ATTRD_RE_CLEAR_ALL : String
  /-- The text of `ATTRD_RE_CLEAR_ONE` formatted with a resource. -/
  ATTRD_RE_CLEAR_ONE : String → String
  /-- The text of `ATTRD_RE_CLEAR_OP` formatted with a resource, an operation
  and an interval in milliseconds. -/
  ATTRD_RE_CLEAR_OP : String → String → Nat → String
  /-- Result of `attrd_value_needs_expansion(value)`. -/
  attrd_value_needs_expansion : String → Bool
  /-- Result of `attrd_expand_value(value, old_value)`. -/
  attrd_expand_value : String → Option String → Int

/-- One `node_state` subtree appended by `build_update_element`. -/
structure update_element where
  node_state_id : String
  transient_attrs_id : String
  attr_set_id : String
  nvpair_id : String
  nvpair_name : String
  nvpair_value : String
  delete_marker : Option String
deriving DecidableEq, Repr

/-- Modelled from the spec: the call options of a CDB request
(`enum cib_call_options` of crm/cib.h), as the three bits `write_attribute`
uses. -/
structure cib_call_options where
  quorum_override : Bool
  mixed_update : Bool
  scope_local : Bool
deriving DecidableEq, Repr

/-- One `cib_internal_op` call together with the id it returned and the
attribute name registered with its callback. -/
structure cib_request where
  op : String
  cib_section : String
  data : List update_element
  flags : cib_call_options
  user : Option String
  call_id : Int
  callback_data : String
deriving DecidableEq, Repr

/-- One `send_cluster_message` call: destination (`none` = all peers), the root
element and its children. -/
structure cluster_message where
  node : Option crm_node_t
  data : xmlNode
  children : List xmlNode
deriving DecidableEq, Repr

/-- One `attrd_send_attribute_alert` call. -/
structure attribute_alert where
  nodename : String
  nodeid : Nat
  attr : String
  value : Option String
deriving DecidableEq, Repr

/-- Calls into the peer caches of the cluster library. -/
inductive peer_cache_op where
  | remote_peer_get (host : String)
  | reap_member (host : String)
  | remote_cache_remove (host : String)
  | get_peer (id : Nat) (host : String)
deriving DecidableEq, Repr

/-- The module-level variable `last_cib_op_done` and the logs of external effects. -/
structure Globals where
  last_cib_op_done : Int
  cib_requests : List cib_request
  sent : List cluster_message
  elections_started : Nat
  voters_removed : List crm_node_t
  lost_updates : List (String × Int)
  alerts : List attribute_alert
  peer_cache_ops : List peer_cache_op
  election_ops : List (crm_node_t × xmlNode)
deriving DecidableEq, Repr

/-- The daemon state: the `attributes` table and the globals. -/
structure State where
  attributes : List attribute_t
  g : Globals
deriving DecidableEq, Repr

/-- State at start-up: empty table, nothing done. -/
def State.init : State :=
  { attributes := [],
    g := { last_cib_op_done := 0, cib_requests := [], sent := [], elections_started := 0,
           voters_removed := [], lost_updates := [], alerts := [], peer_cache_ops := [],
           election_ops := [] } }

/-! ## Hash tables -/

/-- Lookup `g_hash_table_lookup(attributes, name)`: attribute names are compared exactly. -/
def lookup_attribute (attrs : List attribute_t) (name : String) : Option attribute_t :=
  attrs.find? (fun a => a.id == name)

/-- Writes through the pointer to the attribute named `name`. -/
def update_attribute (f : attribute_t → attribute_t) (name : String) :
    List attribute_t → List attribute_t
  | [] => []
  | a :: rest =>
    if a.id == name then f a :: rest else a :: update_attribute f name rest

/-- Insertion `g_hash_table_replace(attributes, a->id, a)`. -/
def replace_attribute (attrs : List attribute_t) (a : attribute_t) : List attribute_t :=
  attrs.filter (fun b => !(b.id == a.id)) ++ [a]

/-- Lookup `g_hash_table_lookup(values, host)`: node names are compared without
regard to letter case (`crm_strcase_equal`). -/
def lookup_value (values : List attribute_value_t) (host : String) :
    Option attribute_value_t :=
  values.find? (fun v => strcase_eq v.nodename host)

/-- Writes through the pointer to the value entry of `host`. -/
def update_value (f : attribute_value_t → attribute_value_t) (host : String) :
    List attribute_value_t → List attribute_value_t
  | [] => []
  | v :: rest =>
    if strcase_eq v.nodename host then f v :: rest else v :: update_value f host rest

/-- Removal `g_hash_table_remove(values, host)`: the table holds at most one
entry per key, and no entry with that key is left. -/
def remove_value (values : List attribute_value_t) (host : String) :
    List attribute_value_t :=
  values.filter (fun v => !strcase_eq v.nodename host)

/-! ## Timers -/

/-- Modelled from the spec: timer creation `mainloop_timer_add`
(lib/common/mainloop.c); a new timer is not scheduled. -/
def mainloop_timer_add (period_ms : Int) : mainloop_timer_t :=
  { period_ms := period_ms, running := false }

/-- Modelled from the spec: the test `mainloop_timer_running`
(lib/common/mainloop.c); false for a NULL timer. -/
def mainloop_timer_running (t : Option mainloop_timer_t) : Bool :=
  match t with
  | some x => x.running
  | none => false

/-- Modelled from the spec: the start of a timer, replacing any pending fire
(`mainloop_timer_start`, lib/common/mainloop.c); no effect on a NULL timer. -/
def mainloop_timer_start (t : Option mainloop_timer_t) : Option mainloop_timer_t :=
  t.map (fun x => { x with running := true })

/-- Modelled from the spec: the cancellation of a timer (`mainloop_timer_stop`,
lib/common/mainloop.c); no effect on a NULL timer. -/
def mainloop_timer_stop (t : Option mainloop_timer_t) : Option mainloop_timer_t :=
  t.map (fun x => { x with running := false })

/-! ## Messages -/

/-- The `int` that a `uint32_t` node id becomes as the argument of
`crm_xml_add_int`. -/
def uint32_as_int (n : Nat) : Int :=
  if n % 4294967296 < 2147483648 then ((n % 4294967296 : Nat) : Int)
  else ((n % 4294967296 : Nat) : Int) - 4294967296

/-- The record `build_attribute_xml` appends (lines 99-118). The dampening is
sent in whole seconds; the parameter is an `unsigned int`. -/
def build_attribute_xml (name : String) (set uuid : Option String) (timeout_ms : Int)
    (user : Option String) (is_private : Int) (peer : String) (peerid : Nat)
    (value : Option String) (is_force_write : Bool) : xmlNode :=
  { attr := some name,
    set := set,
    key := uuid,
    user := user,
    host := some peer,
    host_id := some (uint32_as_int peerid),
    value := value,
    dampen := some (toString ((timeout_ms % 4294967296).toNat / 1000)),
    is_private := some is_private,
    is_force_write := some (if is_force_write then 1 else 0) }

/-- The call `send_attrd_message(node, data)` (lines 53-60), logged. -/
def send_attrd_message (env : Env) (g : Globals) (node : Option crm_node_t)
    (data : xmlNode) (children : List xmlNode) : Globals :=
  { g with sent := g.sent ++
      [{ node := node,
         data := { data with f_type := some T_ATTRD,
                             version := some ATTRD_PROTOCOL_VERSION,
                             writer := env.peer_writer },
         children := children }] }

/-! ## Attribute creation, queries, snapshots, eviction -/

/-- Lines 138-173. The name `a->id` is the message's attribute name, which the
only caller has checked to be present; it is passed as `id`. Returns the new
attribute and the table holding it. -/
def create_attribute (env : Env) (attrs : List attribute_t) (xml : xmlNode) (id : String) :
    attribute_t × List attribute_t :=
  let dampen : Int :=
    match xml.dampen with
    | some value => env.crm_get_msec value
    | none => 0
  let a : attribute_t :=
    { uuid := xml.key,
      id := id,
      set := xml.set,
      values := [],
      update := 0,
      timeout_ms := if dampen > 0 then dampen else 0,
      changed := false,
      unknown_peer_uuids := false,
      is_private := xml.is_private.getD 0,
      timer := if dampen > 0 then some (mainloop_timer_add dampen) else none,
      user := if env.enable_acl then xml.user else none,
      force_write := false }
  (a, replace_attribute attrs a)

/-- One `node` child of a query reply. -/
structure host_value where
  host : Option String
  value : Option String
deriving DecidableEq, Repr

/-- The reply `build_query_reply` assembles (allocation failures aside). -/
structure query_reply where
  f_type : Option String
  version : Option String
  attr : Option String
  nodes : List host_value
deriving DecidableEq, Repr

/-- Lines 393-446. -/
def build_query_reply (env : Env) (attrs : List attribute_t) (attr : String)
    (host : Option String) : query_reply :=
  match lookup_attribute attrs attr with
  | none =>
    { f_type := some T_ATTRD, version := some ATTRD_PROTOCOL_VERSION, attr := none, nodes := [] }
  | some a =>
    let host1 := if safe_str_eq host (some "localhost") then some env.uname else host
    { f_type := some T_ATTRD,
      version := some ATTRD_PROTOCOL_VERSION,
      attr := some attr,
      nodes :=
        match host1 with
        | some h =>
          [{ host := some h,
             value := match lookup_value a.values h with
                      | some v => v.current
                      | none => none }]
        | none => a.values.map (fun v => { host := some v.nodename, value := v.current }) }

/-- The records of lines 632-640: one per value of one attribute. -/
def sync_records (a : attribute_t) : List xmlNode :=
  a.values.map (fun v =>
    build_attribute_xml a.id a.set a.uuid a.timeout_ms a.user a.is_private
      v.nodename v.nodeid v.current false)

/-- Lines 620-645. -/
def attrd_peer_sync (env : Env) (st : State) (peer : Option crm_node_t) : State :=
  let sync : xmlNode := { task := some ATTRD_OP_SYNC_RESPONSE }
  { st with g := send_attrd_message env st.g peer sync (st.attributes.flatMap sync_records) }

/-- Lines 655-675. -/
def attrd_peer_remove (st : State) (host : Option String) (uncache : Bool)
    (_source : Option String) : State :=
  match host with
  | none => st
  | some h =>
    { attributes := st.attributes.map (fun a => { a with values := remove_value a.values h }),
      g := if uncache then
             { st.g with peer_cache_ops := st.g.peer_cache_ops ++
                 [peer_cache_op.remote_cache_remove h, peer_cache_op.reap_member h] }
           else st.g }

/-- Lines 687-719. Returns the entry, the table holding it and the peer-cache
calls made. The clean-up of a duplicate cluster-node entry (lines 698-702)
touches the peer cache only. -/
def attrd_lookup_or_create_value (values : List attribute_value_t) (host : String)
    (xml : xmlNode) : attribute_value_t × List attribute_value_t × List peer_cache_op :=
  let is_remote : Int := xml.is_remote.getD 0
  let ops := if is_remote ≠ 0 then [peer_cache_op.remote_peer_get host] else []
  match lookup_value values host with
  | some v => (v, values, ops)
  | none =>
    let v : attribute_value_t :=
      { nodeid := 0, is_remote := is_remote, nodename := host,
        current := none, requested := none, seen := false }
    (v, values ++ [v], ops)

/-! ## The writer -/

/-- Lines 1087-1122. -/
def build_update_element (env : Env) (a : attribute_t) (nodeid : String)
    (value : Option String) : update_element :=
  let set := env.crm_xml_sanitize_id
    (match a.set with
     | some s => s
     | none => XML_CIB_TAG_STATUS ++ "-" ++ nodeid)
  { node_state_id := nodeid,
    transient_attrs_id := nodeid,
    attr_set_id := set,
    nvpair_id := env.crm_xml_sanitize_id
      (match a.uuid with
       | some u => u
       | none => set ++ "-" ++ a.id),
    nvpair_name := a.id,
    nvpair_value := value.getD "",
    delete_marker := match value with
                     | some _ => none
                     | none => some XML_NVPAIR_ATTR_VALUE }

/-- What one iteration of the loop of lines 1220-1271 did with a value. -/
inductive value_write where
  | no_peer
  | private_update
  | unknown_uuid
  | written (uuid : String)
deriving DecidableEq, Repr

/-- One iteration of the loop of lines 1220-1271. -/
def write_value (env : Env) (a : attribute_t) (v : attribute_value_t) :
    attribute_value_t × value_write :=
  match env.crm_get_peer_full v.nodeid v.nodename with
  | none => (v, value_write.no_peer)
  | some peer =>
    let v1 := if peer.id ≠ 0 ∧ v.nodeid = 0 then { v with nodeid := peer.id } else v
    if a.is_private ≠ 0 then (v1, value_write.private_update)
    else
      match peer.uuid with
      | none => (v1, value_write.unknown_uuid)
      | some uuid => ({ v1 with requested := v1.current }, value_write.written uuid)

/-- Insertion `set_alert_attribute_value` (lines 1124-1139) into the alert table. -/
def set_alert_attribute_value (a : attribute_t) (t : List attribute_alert)
    (v : attribute_value_t) : List attribute_alert :=
  t.filter (fun x => !strcase_eq x.nodename v.nodename) ++
    [{ nodename := v.nodename, nodeid := v.nodeid, attr := a.id, value := v.current }]

/-- Lines 1204-1211: the flags `write_attribute` clears before its loop. -/
def clear_flags (a : attribute_t) : attribute_t :=
  { a with changed := false, unknown_peer_uuids := false, force_write := false }

/-- The values the loop of lines 1220-1271 puts into the request, each with the
durable id of its peer. -/
def written_values (env : Env) (a : attribute_t) : List (String × attribute_value_t) :=
  (a.values.map (write_value env a)).filterMap (fun r =>
    match r.2 with
    | value_write.written uuid => some (uuid, r.1)
    | _ => none)

/-- The attribute as the loop of lines 1220-1271 leaves it. -/
def write_values (env : Env) (a : attribute_t) : attribute_t :=
  { a with
    values := a.values.map (fun v => (write_value env a v).1),
    unknown_peer_uuids :=
      a.values.any (fun v => (write_value env a v).2 == value_write.unknown_uuid) }

/-- The request of lines 1281-1282 for an attribute and its written values. -/
def write_request (env : Env) (a : attribute_t) (written : List (String × attribute_value_t))
    (call_id : Int) : cib_request :=
  { op := CIB_OP_MODIFY,
    cib_section := XML_CIB_TAG_STATUS,
    data := written.map (fun w => build_update_element env a w.1 w.2.current),
    flags := { quorum_override := true,
               mixed_update := written.any (fun w => w.2.current.isNone),
               scope_local := written.any (fun w => w.2.current.isNone) },
    user := a.user,
    call_id := call_id,
    callback_data := a.id }

/-- Lines 1204-1298: the write proper, once `write_attribute` has decided not to defer. -/
def write_attribute_now (env : Env) (g : Globals) (a : attribute_t) :
    attribute_t × Globals :=
  let a1 := clear_flags a
  let written := written_values env a1
  let a2 := write_values env a1
  if written.length ≠ 0 then
    let call_id := env.cib_internal_op g.cib_requests.length
    ({ a2 with update := call_id },
     { g with
       cib_requests := g.cib_requests ++ [write_request env a2 written call_id],
       alerts := g.alerts ++
         written.foldl (fun t w => set_alert_attribute_value a2 t w.2) [] })
  else (a2, g)

/-- Lines 1160-1299. -/
def write_attribute (env : Env) (g : Globals) (a : attribute_t) (ignore_delay : Bool) :
    attribute_t × Globals :=
  if a.is_private = 0 then
    if env.the_cib = false then (a, g)
    else if a.update ≠ 0 ∧ a.update < g.last_cib_op_done then
      write_attribute_now env
        { g with lost_updates := g.lost_updates ++ [(a.id, a.update)] }
        { a with update := 0 }
    else if a.update ≠ 0 then (a, g)
    else if mainloop_timer_running a.timer then
      if ignore_delay then
        write_attribute_now env g { a with timer := mainloop_timer_stop a.timer }
      else (a, g)
    else write_attribute_now env g a
  else write_attribute_now env g a

/-- Lines 910-918. -/
def write_or_elect_attribute (env : Env) (g : Globals) (a : attribute_t) :
    attribute_t × Globals :=
  if env.election_won then write_attribute env g a false
  else (a, { g with elections_started := g.elections_started + 1 })

/-- One iteration of the loop of lines 1069-1084: the attribute is marked as
changed when a peer id was missing (and not everything is written anyway) or a
forced write is pending, and written when everything is written or it is
marked as changed. -/
def write_attributes_step (env : Env) (all ignore_delay : Bool) (g : Globals)
    (a : attribute_t) : attribute_t × Globals :=
  let a1 : attribute_t := { a with
    changed := if (!all ∧ a.unknown_peer_uuids) ∨ a.force_write then true else a.changed }
  if all ∨ a1.changed then
    write_attribute env g a1 (if a1.force_write then true else ignore_delay)
  else (a1, g)

/-- The loop of lines 1069-1084 over the attribute table. -/
def write_attributes_loop (env : Env) (all ignore_delay : Bool) :
    List attribute_t → Globals → List attribute_t × Globals
  | [], g => ([], g)
  | a :: rest, g =>
    let r := write_attributes_step env all ignore_delay g a
    let r2 := write_attributes_loop env all ignore_delay rest r.2
    (r.1 :: r2.1, r2.2)

/-- Lines 1061-1085. -/
def write_attributes (env : Env) (st : State) (all ignore_delay : Bool) : State :=
  let r := write_attributes_loop env all ignore_delay st.attributes st.g
  { attributes := r.1, g := r.2 }

/-- Lines 376-381. -/
def attrd_client_refresh (env : Env) (st : State) : State :=
  write_attributes env st true true

/-! ## The replication engine -/

/-- Lines 807-824 of `attrd_peer_update`: the attribute named `attr` gets the
dampening `dampen` when that differs from the one it has. -/
def update_dampening (env : Env) (st : State) (attr : String) (dampen : Int) : State :=
  match lookup_attribute st.attributes attr with
  | none => st
  | some a =>
    if a.timeout_ms ≠ dampen then
      let a1 : attribute_t := { a with
        timeout_ms := dampen,
        timer := if dampen > 0 then some (mainloop_timer_add dampen) else none }
      let r := write_or_elect_attribute env st.g a1
      { attributes := update_attribute (fun _ => r.1) attr st.attributes, g := r.2 }
    else st

/-- Lines 779-787 of `attrd_peer_update` when the attribute may be created. -/
def lookup_or_create_attribute (env : Env) (st : State) (xml : xmlNode) (attr : String) :
    State :=
  if (lookup_attribute st.attributes attr).isNone then
    { st with attributes := (create_attribute env st.attributes xml attr).2 }
  else st

/-- Lines 765-829 of `attrd_peer_update`: name check, look-up or creation of
the attribute, dampening. Returns the state reached and the attribute name when
the function goes on to the values, `none` when it has returned. -/
def attrd_peer_update_begin (env : Env) (st : State) (xml : xmlNode) :
    State × Option String :=
  match xml.attr with
  | none => (st, none)
  | some attr =>
    let op := xml.task
    let update_both := op.isNone || safe_str_eq op (some ATTRD_OP_UPDATE_BOTH)
    if (lookup_attribute st.attributes attr).isNone ∧
        ¬ (update_both ∨ safe_str_eq op (some ATTRD_OP_UPDATE)) then (st, none)
    else
      let st1 := lookup_or_create_attribute env st xml attr
      if update_both ∨ safe_str_eq op (some ATTRD_OP_UPDATE_DELAY) then
        match xml.dampen with
        | none => (st1, none)
        | some dvalue =>
          if env.crm_get_msec dvalue < 0 then (st1, none)
          else
            (update_dampening env st1 attr (env.crm_get_msec dvalue),
             if update_both then some attr else none)
      else (st1, some attr)

/-- Lines 848-891 of `attrd_peer_update`: the local-owner veto, the change of
the value, or the note that nothing changed. `v` is the entry of `host` in the
values of `a`. -/
def update_one_value (env : Env) (g : Globals) (a : attribute_t) (v : attribute_value_t)
    (xml : xmlNode) (attr host : String) (filter : Bool) : attribute_t × Globals :=
  let value := xml.value
  let is_force_write : Int := xml.is_force_write.getD 0
  if filter ∧ safe_str_neq v.current value ∧ safe_str_eq (some host) (some env.uname) then
    let sync : xmlNode := { task := some ATTRD_OP_SYNC_RESPONSE, writer := env.peer_writer }
    (a, send_attrd_message env g none sync
      [build_attribute_xml attr a.set a.uuid a.timeout_ms a.user a.is_private
        v.nodename v.nodeid v.current false])
  else if safe_str_neq v.current value then
    let a2 : attribute_t := { a with
      values := update_value (fun w => { w with current := value }) host a.values,
      changed := true }
    if a2.timeout_ms ≠ 0 ∧ a2.timer.isSome then
      ({ a2 with timer := mainloop_timer_start a2.timer }, g)
    else write_or_elect_attribute env g a2
  else if is_force_write ≠ 0 ∧ a.timeout_ms ≠ 0 ∧ a.timer.isSome then
    ({ a with force_write := true }, g)
  else (a, g)

/-- Lines 896-907 of `attrd_peer_update`: `a` is the attribute named `attr`
as the function has changed it so far and `g` the globals so far; a node id
carried by the message is remembered for a cluster node whose id is not known,
and the writer then writes out what has changed. -/
def learn_node_id (env : Env) (st : State) (g : Globals) (a : attribute_t) (xml : xmlNode)
    (attr host : String) : State :=
  let learn : Option Int :=
    match lookup_value a.values host with
    | none => none
    | some v => if v.nodeid = 0 ∧ v.is_remote = 0 then xml.host_id else none
  match learn with
  | none => { attributes := update_attribute (fun _ => a) attr st.attributes, g := g }
  | some id =>
    let nodeid := (id % 4294967296).toNat
    let a4 : attribute_t := { a with
      values := update_value (fun w => { w with nodeid := nodeid }) host a.values }
    let st4 : State :=
      { attributes := update_attribute (fun _ => a4) attr st.attributes,
        g := { g with peer_cache_ops := g.peer_cache_ops ++ [peer_cache_op.get_peer nodeid host] } }
    if env.election_won then write_attributes env st4 false false else st4

/-- Lines 844-907 of `attrd_peer_update`: the update of the value of one host
of the attribute named `attr`. -/
def attrd_peer_update_value (env : Env) (st : State) (xml : xmlNode) (attr host : String)
    (filter : Bool) : State :=
  match lookup_attribute st.attributes attr with
  | none => st
  | some a =>
    let lc := attrd_lookup_or_create_value a.values host xml
    let r := update_one_value env
      { st.g with peer_cache_ops := st.g.peer_cache_ops ++ lc.2.2 }
      { a with values := lc.2.1 } lc.1 xml attr host filter
    learn_node_id env st r.2
      { r.1 with values := update_value (fun w => { w with seen := true }) host r.1.values }
      xml attr host

/-- Lines 757-908 for a call that names its host. -/
def attrd_peer_update_host (env : Env) (st : State) (xml : xmlNode) (host : String)
    (filter : Bool) : State :=
  match attrd_peer_update_begin env st xml with
  | (st1, none) => st1
  | (st1, some attr) => attrd_peer_update_value env st1 xml attr host filter

/-- Lines 757-908. Without a host the function calls itself once per host
present in the attribute's values (lines 832-842), after dropping the node id
from the message. -/
def attrd_peer_update (env : Env) (st : State) (xml : xmlNode) (host : Option String)
    (filter : Bool) : State :=
  match host with
  | some h => attrd_peer_update_host env st xml h filter
  | none =>
    match attrd_peer_update_begin env st xml with
    | (st1, none) => st1
    | (st1, some attr) =>
      match lookup_attribute st1.attributes attr with
      | none => st1
      | some a =>
        (a.values.map (fun v => v.nodename)).foldl
          (fun s h => attrd_peer_update_host env s { xml with host_id := none } h filter) st1

/-- Lines 62-69, run by the main loop when the attribute's timer expires: the
one-shot timer is no longer scheduled while its callback runs. -/
def attribute_timer_cb (env : Env) (st : State) (name : String) : State :=
  match lookup_attribute st.attributes name with
  | none => st
  | some a =>
    let r := write_or_elect_attribute env st.g { a with timer := mainloop_timer_stop a.timer }
    { attributes := update_attribute (fun _ => r.1) name st.attributes, g := r.2 }

/-- The kinds of membership event. -/
inductive crm_status_type where
  | crm_status_uname
  | crm_status_nstate
  | crm_status_processes
deriving DecidableEq, Repr

/-- Lines 934-970. -/
def attrd_peer_change_cb (env : Env) (st : State) (kind : crm_status_type)
    (peer : crm_node_t) : State :=
  let r : State × Bool :=
    match kind with
    | crm_status_type.crm_status_uname => (st, false)
    | crm_status_type.crm_status_processes =>
      (st, (peer.processes &&& env.cluster_proc) == 0)
    | crm_status_type.crm_status_nstate =>
      if safe_str_eq peer.state (some CRM_NODE_MEMBER) then
        if env.election_won ∧ ¬ ((peer.flags &&& crm_remote_node) = crm_remote_node) then
          (attrd_peer_sync env st (some peer), false)
        else (st, false)
      else (attrd_peer_remove st peer.uname false (some "loss"), true)
  if r.2 then { r.1 with g := { r.1.g with voters_removed := r.1.g.voters_removed ++ [peer] } }
  else r.1

/-- Lines 989-991 of `attrd_cib_callback`: a negative call id reported with
`pcmk_ok` is itself the error code. -/
def cib_callback_rc (call_id rc : Int) : Int :=
  if rc = 0 ∧ call_id < 0 then call_id else rc

/-- Lines 988-1024 of `attrd_cib_callback`, for the attribute `a` found under
the callback's name and the result `rc1`: the in-flight tag is cleared, on
success the temporary timer of a failed write is removed, every `requested` is
dropped, and on failure of an attribute with values `changed` is set. -/
def cib_callback_done (a : attribute_t) (rc1 : Int) : attribute_t :=
  { a with
    update := 0,
    timer := if rc1 = 0 ∧ a.timer.isSome ∧ a.timeout_ms = 0 then none else a.timer,
    values := a.values.map (fun v => { v with requested := none }),
    changed := if rc1 ≠ 0 ∧ a.values.isEmpty = false then true else a.changed }

/-- Lines 1042-1057 of `attrd_cib_callback`: the timer that delays the next
attempt after a failed write: the attribute's own timer, started if it is not
running, or a new two-second timer, started. -/
def retry_timer (timer : Option mainloop_timer_t) : Option mainloop_timer_t :=
  match timer with
  | some t => if t.running = false then mainloop_timer_start (some t) else some t
  | none => mainloop_timer_start (some (mainloop_timer_add 2000))

/-- Lines 988-1058 of `attrd_cib_callback`, for the attribute `a` found under
the callback's name. -/
def attrd_cib_callback_attr (env : Env) (g : Globals) (a : attribute_t) (call_id rc : Int) :
    attribute_t × Globals :=
  let rc1 := cib_callback_rc call_id rc
  let g1 : Globals := { g with
    last_cib_op_done := if rc1 = 0 then call_id else g.last_cib_op_done }
  let a3 := cib_callback_done a rc1
  if a3.changed ∧ env.election_won then
    if rc1 = 0 then write_attribute env g1 a3 false
    else ({ a3 with timer := retry_timer a3.timer }, g1)
  else (a3, g1)

/-- Lines 972-1059. `name` is the callback's user data. -/
def attrd_cib_callback (env : Env) (st : State) (call_id rc : Int) (name : String) : State :=
  match lookup_attribute st.attributes name with
  | none => st
  | some a =>
    let r := attrd_cib_callback_attr env st.g a call_id rc
    { attributes := update_attribute (fun _ => r.1) name st.attributes, g := r.2 }

/-- Lines 1160-1299 called on the attribute named `name` of the table; a NULL
attribute returns at once (line 1170). -/
def write_attribute_at (env : Env) (st : State) (name : String) (ignore_delay : Bool) :
    State :=
  match lookup_attribute st.attributes name with
  | none => st
  | some a =>
    let r := write_attribute env st.g a ignore_delay
    { attributes := update_attribute (fun _ => r.1) name st.attributes, g := r.2 }

/-! ## Client requests -/

/-- Lines 230-306. A request with a regex and no attribute name is broadcast
once per matching attribute name of the table; any other request with an
attribute name is broadcast once, after the host has been inferred and a
`++`/`+=` value expanded. -/
def attrd_client_update (env : Env) (st : State) (xml : xmlNode) : State :=
  match xml.attr with
  | none =>
    match xml.regex with
    | some regex =>
      match env.regcomp regex with
      | none => st
      | some r_patt =>
        let g1 : Globals := (st.attributes.map (fun a => a.id)).foldl
          (fun g attr =>
            if r_patt attr then send_attrd_message env g none { xml with attr := some attr } []
            else g)
          st.g
        { st with g := g1 }
    | none => st
  | some attr =>
    let xml1 : xmlNode :=
      match xml.host with
      | none => { xml with host := some env.uname, host_id := some (uint32_as_int env.nodeid) }
      | some _ => xml
    let host : String := xml.host.getD env.uname
    let xml2 : xmlNode :=
      match xml1.value with
      | none => xml1
      | some value =>
        if env.attrd_value_needs_expansion value then
          let v := (lookup_attribute st.attributes attr).bind (fun a => lookup_value a.values host)
          let int_value : Int := env.attrd_expand_value value (v.bind (fun w => w.current))
          { xml1 with value := some (toString int_value) }
        else xml1
    { st with g := send_attrd_message env st.g none xml2 [] }

/-- Lines 330-365 of `attrd_client_clear_failure`: the request it hands to
`attrd_client_update`. -/
def clear_failure_request (env : Env) (xml : xmlNode) : xmlNode :=
  let pattern : String :=
    match xml.resource with
    | some rsc =>
      match xml.operation with
      | none => env.ATTRD_RE_CLEAR_ONE rsc
      | some op => env.ATTRD_RE_CLEAR_OP rsc op (env.crm_parse_interval_spec xml.interval)
    | none => env.ATTRD_RE_CLEAR_ALL
  { xml with task := some ATTRD_OP_UPDATE, regex := some pattern, attr := none, value := none }

/-- Lines 314-368. -/
def attrd_client_clear_failure (env : Env) (st : State) (xml : xmlNode) : State :=
  attrd_client_update env st (clear_failure_request env xml)

/-! ## The peer dispatcher -/

/-- Lines 120-136. -/
def clear_attribute_value_seen (st : State) : State :=
  { st with attributes := st.attributes.map (fun a =>
      { a with values := a.values.map (fun v => { v with seen := false }) }) }

/-- Lines 503-538. -/
def attrd_peer_clear_failure (env : Env) (st : State) (xml : xmlNode) : State :=
  match env.attrd_failure_regex xml.resource xml.operation
      (env.crm_parse_interval_spec xml.interval) with
  | none => st
  | some regex =>
    (st.attributes.map (fun a => a.id)).foldl
      (fun s attr =>
        if regex attr then
          attrd_peer_update env s
            { xml with task := some ATTRD_OP_UPDATE, value := none, attr := some attr }
            xml.host false
        else s)
      st

/-- The records of lines 734-748 for one attribute: one per value of the local
node that has not been seen. -/
def current_only_records (env : Env) (a : attribute_t) : List xmlNode :=
  (a.values.filter (fun v =>
      safe_str_eq (some v.nodename) (some env.uname) && v.seen == false)).map (fun v =>
    build_attribute_xml a.id a.set a.uuid a.timeout_ms a.user a.is_private
      v.nodename v.nodeid v.current (a.timeout_ms ≠ 0 && a.timer.isSome))

/-- Lines 721-755. -/
def attrd_current_only_attribute_update (env : Env) (st : State) : State :=
  let sync : xmlNode := { task := some ATTRD_OP_SYNC_RESPONSE }
  let records := st.attributes.flatMap (current_only_records env)
  if records.isEmpty then st
  else { st with g := send_attrd_message env st.g none sync records }

/-- Lines 559-618. `xml` is the root of the message and `children` its child
elements. An election message goes to the election code
(`attrd_handle_election_op`), which is logged. -/
def attrd_peer_message (env : Env) (st : State) (peer : crm_node_t) (xml : xmlNode)
    (children : List xmlNode) : State :=
  if xml.crm_task.isSome then
    { st with g := { st.g with election_ops := st.g.election_ops ++ [(peer, xml)] } }
  else if env.shutting_down then st
  else
    let peer_won := env.attrd_check_for_new_writer peer xml
    let op := xml.task
    if safe_str_eq op (some ATTRD_OP_UPDATE) || safe_str_eq op (some ATTRD_OP_UPDATE_BOTH)
        || safe_str_eq op (some ATTRD_OP_UPDATE_DELAY) then
      attrd_peer_update env st xml xml.host false
    else if safe_str_eq op (some ATTRD_OP_SYNC) then attrd_peer_sync env st (some peer)
    else if safe_str_eq op (some ATTRD_OP_PEER_REMOVE) then
      attrd_peer_remove st xml.host true peer.uname
    else if safe_str_eq op (some ATTRD_OP_CLEAR_FAILURE) then attrd_peer_clear_failure env st xml
    else if safe_str_eq op (some ATTRD_OP_SYNC_RESPONSE)
        && safe_str_neq peer.uname (some env.uname) then
      let st1 := if peer_won then clear_attribute_value_seen st else st
      let st2 := children.foldl (fun s child => attrd_peer_update env s child child.host true) st1
      if peer_won then attrd_current_only_attribute_update env st2 else st2
    else st

/-! ## Executions -/

/-- One handler run to completion on the event loop. -/
inductive Step : State → State → Prop where
  | create (env : Env) (st : State) (xml : xmlNode) (id : String) :
      Step st { st with attributes := (create_attribute env st.attributes xml id).2 }
  | peer_update (env : Env) (st : State) (xml : xmlNode) (host : Option String) (filter : Bool) :
      Step st (attrd_peer_update env st xml host filter)
  | peer_remove (st : State) (host : Option String) (uncache : Bool) (source : Option String) :
      Step st (attrd_peer_remove st host uncache source)
  | peer_sync (env : Env) (st : State) (peer : Option crm_node_t) :
      Step st (attrd_peer_sync env st peer)
  | peer_change (env : Env) (st : State) (kind : crm_status_type) (peer : crm_node_t) :
      Step st (attrd_peer_change_cb env st kind peer)
  | write (env : Env) (st : State) (name : String) (ignore_delay : Bool) :
      Step st (write_attribute_at env st name ignore_delay)
  | write_all (env : Env) (st : State) (all ignore_delay : Bool) :
      Step st (write_attributes env st all ignore_delay)
  | refresh (env : Env) (st : State) :
      Step st (attrd_client_refresh env st)
  | timer (env : Env) (st : State) (name : String) :
      Step st (attribute_timer_cb env st name)
  | cib_callback (env : Env) (st : State) (call_id rc : Int) (name : String) :
      Step st (attrd_cib_callback env st call_id rc name)
  | client_update (env : Env) (st : State) (xml : xmlNode) :
      Step st (attrd_client_update env st xml)
  | client_clear_failure (env : Env) (st : State) (xml : xmlNode) :
      Step st (attrd_client_clear_failure env st xml)
  | peer_message (env : Env) (st : State) (peer : crm_node_t) (xml : xmlNode)
      (children : List xmlNode) :
      Step st (attrd_peer_message env st peer xml children)

/-- States the daemon can be in: reached from start-up by handlers, each in
whatever surroundings it finds. -/
inductive Reachable : State → Prop where
  | init : Reachable State.init
  | step {st st' : State} : Reachable st → Step st st' → Reachable st'

/-! ## Sample surroundings -/

/-- A two-node cluster seen from node `n1`, which has won the election; both
peers are known with their durable ids, and the CIB hands out call ids 1, 2, ...
Its regex library knows the patterns `^text` only, which match the names that
start with `text`; its failure patterns are those of the `fail-count-` names,
without the interval; no value asks for expansion. -/
def env_writer : Env :=
  { uname := "n1",
    election_won := true,
    the_cib := true,
    enable_acl := false,
    peer_writer := some "n1",
    crm_get_msec := fun s => if s = "0" then 0 else if s = "1" then 1000 else -1,
    crm_get_peer_full := fun _ name =>
      if strcase_eq name "n1" then
        some { id := 1, uname := some "n1", uuid := some "1", state := some "member",
               processes := 0, flags := 0 }
      else if strcase_eq name "n2" then
        some { id := 2, uname := some "n2", uuid := some "2", state := some "member",
               processes := 0, flags := 0 }
      else none,
    cib_internal_op := fun n => (n : Int) + 1,
    cib_internal_op_ne_zero := fun n => by
      show (n : Int) + 1 ≠ 0
      omega,
    cluster_proc := 2,
    crm_xml_sanitize_id := fun s => s,
    nodeid := 1,
    shutting_down := false,
    attrd_check_for_new_writer := fun _ _ => false,
    regcomp := fun re =>
      match re.data with
      | '^' :: text => some (fun name => text.isPrefixOf name.data)
      | _ => none,
    attrd_failure_regex := fun rsc _ _ =>
      some (fun name => ("fail-count-" ++ rsc.getD "").data.isPrefixOf name.data),
    crm_parse_interval_spec := fun _ => 0,
    ATTRD_RE_CLEAR_ALL := "^fail-count-",
    ATTRD_RE_CLEAR_ONE := fun rsc => "^fail-count-" ++ rsc,
    ATTRD_RE_CLEAR_OP := fun rsc op _ => "^fail-count-" ++ rsc ++ "#" ++ op,
    attrd_value_needs_expansion := fun _ => false,
    attrd_expand_value := fun _ _ => 0 }

/-- The same cluster seen from `n1` when it has not won the election. -/
def env_peer : Env := { env_writer with election_won := false, peer_writer := some "n2" }


/-- The peer `n2` as the membership layer reports it once its attribute daemon
has left the process group. -/
def peer_n2 : crm_node_t :=
  { id := 2, uname := some "n2", uuid := some "2", state := some "member",
    processes := 0, flags := 0 }

/-- The peer `n2` after it has left the membership. -/
def peer_n2_lost : crm_node_t := { peer_n2 with state := some "lost" }

/-- An `UPDATE` message for attribute `a`, host `h` and value `v`. -/
def update_msg (a h : String) (v : Option String) : xmlNode :=
  { task := some ATTRD_OP_UPDATE, attr := some a, host := some h, value := v }

/-- The table of a non-writer after the update `shoe-size[n2] = 42`. -/
def st_n2_value : State :=
  attrd_peer_update env_peer State.init (update_msg "shoe-size" "n2" (some "42")) (some "n2") false

/-- A private attribute with one value for the local node. -/
def attr_private : attribute_t :=
  { uuid := none, id := "#attrd-protocol", set := none,
    values := [{ nodeid := 1, is_remote := 0, nodename := "n1", current := some "2",
                 requested := none, seen := true }],
    update := 0, timeout_ms := 0, changed := true, unknown_peer_uuids := false,
    is_private := 1, timer := none, user := none, force_write := false }

/-- No in-flight tag is set between two states and no CIB request is added:
every attribute of `st'` has `update` clear or had the same `update` in `st`. -/
def tags_kept (st st' : State) : Prop :=
  st'.g.cib_requests = st.g.cib_requests ∧
  ∀ a' ∈ st'.attributes, a'.update = 0 ∨ ∃ a ∈ st.attributes, a.id = a'.id ∧ a.update = a'.update

/-! ## Frames -/

/-- What a write leaves of a value: its key, its current value, its remote flag,
its `seen` flag, and its node id once that is known. -/
def vframe (v v' : attribute_value_t) : Prop :=
  v'.nodename = v.nodename ∧ v'.current = v.current ∧ v'.is_remote = v.is_remote ∧
  v'.seen = v.seen ∧ (v.nodeid ≠ 0 → v'.nodeid = v.nodeid)

/-- What a write leaves of an attribute: its identity, its dampening, the
period of its timer, and of each value what `vframe` says. -/
def aframe (a a' : attribute_t) : Prop :=
  a'.id = a.id ∧ a'.uuid = a.uuid ∧ a'.set = a.set ∧ a'.user = a.user ∧
  a'.is_private = a.is_private ∧ a'.timeout_ms = a.timeout_ms ∧
  a'.timer.map (fun t => t.period_ms) = a.timer.map (fun t => t.period_ms) ∧
  List.Forall₂ vframe a.values a'.values

/-- A `SYNC_RESPONSE` record as a peer sends it for attribute `a`, host `h` and
value `v`, with the dampening text `d`. -/
def sync_record (a h : String) (v : Option String) (d : String) : xmlNode :=
  { attr := some a, host := some h, host_id := some 1, value := v, dampen := some d,
    is_private := some 0, is_force_write := some 0 }

/-- The writer `n1` after `UPDATE_BOTH shoe-size[n1] = alive` with one second of
dampening: the value is changed and the timer runs. -/
def st_dampened : State :=
  attrd_peer_update env_writer State.init
    { task := some ATTRD_OP_UPDATE_BOTH, attr := some "shoe-size", host := some "n1",
      value := some "alive", dampen := some "1" }
    (some "n1") false

/-- The message `send_attrd_message` logs for the veto of lines 851-865. -/
def veto_message (env : Env) (a : attribute_t) (attr nodename : String) (nodeid : Nat)
    (current : Option String) : cluster_message :=
  { node := none,
    data := { f_type := some T_ATTRD, version := some ATTRD_PROTOCOL_VERSION,
              writer := env.peer_writer, task := some ATTRD_OP_SYNC_RESPONSE },
    children := [build_attribute_xml attr a.set a.uuid a.timeout_ms a.user a.is_private
      nodename nodeid current false] }

/-- The attribute `shoe-size` of a non-writer `n1` after the update
`shoe-size[n1] = alive`: the election has been asked for, nothing is written. -/
def attr_alive : attribute_t :=
  { uuid := none, id := "shoe-size", set := none,
    values := [{ nodeid := 0, is_remote := 0, nodename := "n1", current := some "alive",
                 requested := none, seen := true }],
    update := 0, timeout_ms := 0, changed := true, unknown_peer_uuids := false,
    is_private := 0, timer := none, user := none, force_write := false }

/-- The non-writer `n1` after the update `shoe-size[n1] = alive`. -/
def st_alive : State :=
  attrd_peer_update env_peer State.init (update_msg "shoe-size" "n1" (some "alive"))
    (some "n1") false

/-- An `UPDATE` that sets `shoe-size[n1] = 43`, asks for a forced write and
carries the node id 0. -/
def update_forced : xmlNode :=
  { task := some ATTRD_OP_UPDATE, attr := some "shoe-size", host := some "n1",
    host_id := some 0, value := some "43", is_force_write := some 1 }

/-! ## Invariants -/

/-- The timer of an attribute matches its dampening: the dampening is not
negative, an attribute with dampening has a timer of that period, and a timer
on an attribute without dampening is the two-second timer of the failure
branch of `attrd_cib_callback`. -/
def timer_ok (a : attribute_t) : Prop :=
  0 ≤ a.timeout_ms ∧
  (0 < a.timeout_ms → ∃ t, a.timer = some t ∧ t.period_ms = a.timeout_ms) ∧
  (a.timeout_ms = 0 → ∀ t, a.timer = some t → t.period_ms = 2000)

/-- A value's `requested` is only set while the attribute's write is in flight. -/
def requested_ok (a : attribute_t) : Prop :=
  (∃ v ∈ a.values, v.requested ≠ none) → a.update ≠ 0

/-- No write has been considered lost (the branch of lines 1179-1181 was never taken). -/
def good_log (g : Globals) : Prop :=
  g.lost_updates = []

/-- The logs of `g'` extend those of `g`. -/
def log_le (g g' : Globals) : Prop :=
  (∃ l, g'.lost_updates = g.lost_updates ++ l) ∧ (∃ l, g'.cib_requests = g.cib_requests ++ l)

/-- The invariant of one attribute under the globals `g`. -/
def attr_inv (g : Globals) (a : attribute_t) : Prop :=
  timer_ok a ∧ (good_log g → requested_ok a)

/-- The invariant of a state. -/
def state_inv (st : State) : Prop :=
  ∀ a ∈ st.attributes, attr_inv st.g a

/-! ## Sample executions -/

/-- The surroundings of `env_writer` after the peer caches have lost `n1`. -/
def env_n1_gone : Env :=
  { env_writer with
    crm_get_peer_full := fun _ name =>
      if strcase_eq name "n2" then
        some { id := 2, uname := some "n2", uuid := some "2", state := some "member",
               processes := 0, flags := 0 }
      else none }

/-- The writer has written `shoe-size[n2] = 42` and the CIB has confirmed it;
then `shoe-size[n2]` is deleted, and the delete is in flight. -/
def st_delete_in_flight : State :=
  attrd_peer_update env_writer
    (attrd_cib_callback env_writer
      (attrd_peer_update env_writer State.init (update_msg "shoe-size" "n2" (some "42"))
        (some "n2") false)
      1 0 "shoe-size")
    (update_msg "shoe-size" "n2" none) (some "n2") false

/-- The writer has a write of `shoe-size[n1]` in flight (call 1) when the later
write of `load[n2]` (call 2) is confirmed. -/
def st_overtaken : State :=
  attrd_cib_callback env_writer
    (attrd_peer_update env_writer
      (attrd_peer_update env_writer State.init (update_msg "shoe-size" "n1" (some "1"))
        (some "n1") false)
      (update_msg "load" "n2" (some "7")) (some "n2") false)
    2 0 "load"

/-- The writer has written `shoe-size[n2] = 9` (call 1, confirmed), then
`shoe-size` for `n1` and `n2` (call 2, in flight); `shoe-size[n1]` changes to
`41` meanwhile, and the later write of `load[n2]` (call 3) is confirmed. -/
def st_stale : State :=
  attrd_cib_callback env_writer
    (attrd_peer_update env_writer
      (attrd_peer_update env_writer
        (attrd_peer_update env_writer
          (attrd_cib_callback env_writer
            (attrd_peer_update env_writer State.init (update_msg "shoe-size" "n2" (some "9"))
              (some "n2") false)
            1 0 "shoe-size")
          (update_msg "shoe-size" "n1" (some "40")) (some "n1") false)
        (update_msg "shoe-size" "n1" (some "41")) (some "n1") false)
      (update_msg "load" "n2" (some "7")) (some "n2") false)
    3 0 "load"

/-- The writer `n1` before its connection to the CIB is up. -/
def env_no_cib : Env := { env_writer with the_cib := false }

/-- The writer `n1` after the update `shoe-size[n1] = alive` that it could
not write because the CIB connection was not up: `changed` is still set. -/
def st_unwritten : State :=
  attrd_peer_update env_no_cib State.init (update_msg "shoe-size" "n1" (some "alive"))
    (some "n1") false

/-- The writer has the write of `shoe-size[n2] = 42` in flight (call 1). -/
def st_in_flight : State :=
  attrd_peer_update env_writer State.init (update_msg "shoe-size" "n2" (some "42"))
    (some "n2") false

/-- The writer has the write of `shoe-size[n2] = 42` in flight (call 1) when
`n2` leaves the membership and its value is removed: `shoe-size` is left
without values. -/
def st_orphaned : State :=
  attrd_peer_change_cb env_writer st_in_flight crm_status_type.crm_status_nstate peer_n2_lost

/-- The attribute `create_attribute` makes from a message without a valid
dampening. -/
def attribute_without_dampening (env : Env) (xml : xmlNode) (id : String) : attribute_t :=
  { uuid := xml.key, id := id, set := xml.set, values := [], update := 0, timeout_ms := 0,
    changed := false, unknown_peer_uuids := false, is_private := xml.is_private.getD 0,
    timer := none, user := if env.enable_acl then xml.user else none, force_write := false }

/-- An `UPDATE_BOTH` for `shoe-size[n1] = 42` that carries no dampening. -/
def update_both_no_delay : xmlNode :=
  { task := some ATTRD_OP_UPDATE_BOTH, attr := some "shoe-size", host := some "n1",
    value := some "42" }

/-- An `UPDATE_DELAY` for `shoe-size` whose dampening does not parse. -/
def update_delay_invalid : xmlNode :=
  { task := some ATTRD_OP_UPDATE_DELAY, attr := some "shoe-size", dampen := some "soon" }

/-- The message `send_attrd_message(NULL, xml)` logs for a request `xml`
without child elements. -/
def broadcast (env : Env) (xml : xmlNode) : cluster_message :=
  { node := none,
    data := { xml with f_type := some T_ATTRD, version := some ATTRD_PROTOCOL_VERSION,
                       writer := env.peer_writer },
    children := [] }

/-- A non-writer that holds the failure attributes of two resources for `n2`. -/
def st_failures : State :=
  attrd_peer_update env_peer
    (attrd_peer_update env_peer
      (attrd_peer_update env_peer State.init
        (update_msg "fail-count-web#start_0" "n2" (some "1")) (some "n2") false)
      (update_msg "fail-count-db#start_0" "n2" (some "2")) (some "n2") false)
    (update_msg "fail-count-web#monitor_10000" "n2" (some "3")) (some "n2") false

/-- A client update of every attribute whose name starts with `fail-count-web`. -/
def update_by_regex : xmlNode :=
  { task := some ATTRD_OP_UPDATE, regex := some "^fail-count-web", host := some "n2" }

/-- The attribute `shoe-size` as an `UPDATE` creates it: no value, no dampening. -/
def attr_fresh : attribute_t :=
  { uuid := none, id := "shoe-size", set := none, values := [], update := 0, timeout_ms := 0,
    changed := false, unknown_peer_uuids := false, is_private := 0, timer := none,
    user := none, force_write := false }

/-- A daemon that holds the attribute `shoe-size` without values. -/
def st_fresh : State := { State.init with attributes := [attr_fresh] }

/-- What a table holds for replication: for each attribute its name and, for
each entry of its values, the node name and the current value. -/
def table_summary (attrs : List attribute_t) : List (String × List (String × Option String)) :=
  attrs.map (fun a => (a.id, a.values.map (fun v => (v.nodename, v.current))))

/-- The lists are hash tables: no attribute name occurs twice in the table and
no node name, letter case aside, twice among the values of an attribute. -/
def table_keys_ok (attrs : List attribute_t) : Prop :=
  (attrs.map (fun a => a.id)).Nodup ∧
  ∀ a ∈ attrs, a.values.Pairwise (fun v w => strcase_eq v.nodename w.nodename = false)

/-- The record of lines 637-638 for the value `v` of the attribute `a`. -/
def snapshot_record (a : attribute_t) (v : attribute_value_t) : xmlNode :=
  build_attribute_xml a.id a.set a.uuid a.timeout_ms a.user a.is_private
    v.nodename v.nodeid v.current false

/-- The cluster of `env_writer` seen from node `n2`, which has not won the
election and takes `n1` for the writer. -/
def env_n2 : Env :=
  { env_writer with uname := "n2", nodeid := 2, election_won := false, peer_writer := some "n1" }

/-- The peer `n1` as the membership layer reports it. -/
def peer_n1 : crm_node_t :=
  { id := 1, uname := some "n1", uuid := some "1", state := some "member",
    processes := 2, flags := 0 }

/-- The writer `n1` holds `shoe-size[n1] = 42`. -/
def st_n1_value : State :=
  attrd_peer_update env_writer State.init (update_msg "shoe-size" "n1" (some "42"))
    (some "n1") false

/-- The writer `n1` holds `shoe-size` without values (its only value was that
of `n2`, which has left) and `load[n1] = 7`. -/
def st_partly_empty : State :=
  attrd_peer_update env_writer st_orphaned (update_msg "load" "n1" (some "7")) (some "n1") false

/-- The attribute `y` is the attribute `b` with one more entry, of host `h`
with the current value `c`. -/
def extends_by (b : attribute_t) (h : String) (c : Option String) (y : attribute_t) : Prop :=
  y.id = b.id ∧ y.timeout_ms = b.timeout_ms ∧
  y.values.map (fun v => (v.nodename, v.current))
    = b.values.map (fun v => (v.nodename, v.current)) ++ [(h, c)]

/-- The writer has written the dampened `shoe-size[n1] = alive` (call 1, in
flight) when the value changes to `dead`: the timer runs again. -/
def st_dampened_in_flight : State :=
  attrd_peer_update env_writer (attribute_timer_cb env_writer st_dampened "shoe-size")
    (update_msg "shoe-size" "n1" (some "dead")) (some "n1") false

/-- The same, after the later write of `load[n2]` (call 2) has been confirmed:
call 1 is older than the last call done. -/
def st_dampened_overtaken : State :=
  attrd_cib_callback env_writer
    (attrd_peer_update env_writer st_dampened_in_flight (update_msg "load" "n2" (some "7"))
      (some "n2") false)
    2 0 "load"

/-- The attribute `shoe-size` of `st_dampened`: one second of dampening, the
timer running, the value of `n1` changed and not written. -/
def attr_dampened : attribute_t :=
  { uuid := none, id := "shoe-size", set := none,
    values := [{ nodeid := 0, is_remote := 0, nodename := "n1", current := some "alive",
                 requested := none, seen := true }],
    update := 0, timeout_ms := 1000, changed := true, unknown_peer_uuids := false,
    is_private := 0, timer := some { period_ms := 1000, running := true }, user := none,
    force_write := false }

/-- The attribute `shoe-size` of `st_in_flight`: the write of the value of `n2`
is in flight as call 1. -/
def attr_in_flight : attribute_t :=
  { uuid := none, id := "shoe-size", set := none,
    values := [{ nodeid := 2, is_remote := 0, nodename := "n2", current := some "42",
                 requested := some "42", seen := true }],
    update := 1, timeout_ms := 0, changed := false, unknown_peer_uuids := false,
    is_private := 0, timer := none, user := none, force_write := false }

/-- A sequence of `attrd_cib_callback` invocations, each given by call id,
result and attribute name. -/
def attrd_cib_callbacks (env : Env) (st : State) (cbs : List (Int × Int × String)) : State :=
  cbs.foldl (fun s cb => attrd_cib_callback env s cb.1 cb.2.1 cb.2.2) st

/-- The writer has the writes of `shoe-size[n1]` (call 1) and of `load[n2]`
(call 2) in flight. -/
def st_two_in_flight : State :=
  attrd_peer_update env_writer
    (attrd_peer_update env_writer State.init (update_msg "shoe-size" "n1" (some "1"))
      (some "n1") false)
    (update_msg "load" "n2" (some "7")) (some "n2") false

/-- The attribute `shoe-size` of `st_n1_value`: the value of `n1` is written,
the write (call 1) is in flight. -/
def attr_n1_value : attribute_t :=
  { uuid := none, id := "shoe-size", set := none,
    values := [{ nodeid := 1, is_remote := 0, nodename := "n1", current := some "42",
                 requested := some "42", seen := true }],
    update := 1, timeout_ms := 0, changed := false, unknown_peer_uuids := false,
    is_private := 0, timer := none, user := none, force_write := false }

/-- An `UPDATE_DELAY` that gives `shoe-size` one second of dampening. -/
def update_delay_one : xmlNode :=
  { task := some ATTRD_OP_UPDATE_DELAY, attr := some "shoe-size", dampen := some "1" }

/-- The value entry `w` once an update with the value `value` has been applied
to it (lines 867-871): the current value is replaced when `safe_str_neq` finds
it different, and stays otherwise. -/
def set_current (value : Option String) (w : attribute_value_t) : attribute_value_t :=
  { w with current := if safe_str_neq w.current value then value else w.current }

/-- An `UPDATE` that repeats `shoe-size[n1] = alive` and asks for a forced write. -/
def update_same_forced : xmlNode :=
  { task := some ATTRD_OP_UPDATE, attr := some "shoe-size", host := some "n1",
    value := some "alive", is_force_write := some 1 }

/-- The writer of `st_dampened` after `update_forced`: `shoe-size[n1] = 43`,
changed, the timer running, the node id of `n1` not known. -/
def st_forced_once : State :=
  attrd_peer_update env_writer st_dampened update_forced (some "n1") false

/-- An attribute with a dampening of one and a half seconds. -/
def attr_dampened_1500 : attribute_t :=
  { attr_dampened with timeout_ms := 1500, timer := some { period_ms := 1500, running := true } }

/-! ## The seen flags -/

/-- Node name and `seen` flag of every entry of an attribute's values. -/
def seen_flags (a : attribute_t) : List (String × Bool) :=
  a.values.map (fun v => (v.nodename, v.seen))

/-- The seen flags of a table: for each attribute its name and `seen_flags`. -/
def table_seen (attrs : List attribute_t) : List (String × List (String × Bool)) :=
  attrs.map (fun a => (a.id, seen_flags a))

/-- What lines 846 and 894 do to the seen flags of an attribute for the host
`h`: the entry of `h` is flagged, and an entry that is flagged is there
afterwards also when there was none. -/
def mark_host (h : String) : List (String × Bool) → List (String × Bool)
  | [] => [(h, true)]
  | p :: rest =>
    if strcase_eq p.1 h then (p.1, true) :: rest else p :: mark_host h rest

/-- What a record for the attribute `x` does to the seen flags of a table:
`f` is applied to the flags of `x`, which is there afterwards also when it was
not there before. -/
def mark_attribute (x : String) (f : List (String × Bool) → List (String × Bool)) :
    List (String × List (String × Bool)) → List (String × List (String × Bool))
  | [] => [(x, f [])]
  | e :: rest =>
    if e.1 == x then (e.1, f e.2) :: rest else e :: mark_attribute x f rest

/-- Whether one of the records `cs` names the attribute `x` and a host that is
the node name `n`, letter case aside. -/
def referred_by (cs : List xmlNode) (x n : String) : Bool :=
  cs.any (fun c =>
    c.attr == some x &&
      match c.host with
      | some h => strcase_eq n h
      | none => false)

/-- The records of lines 734-748 for one attribute, with the test of the
`seen` flag replaced by the test that none of the records `cs` refers to the
value. -/
def unreferred_records (env : Env) (cs : List xmlNode) (a : attribute_t) : List xmlNode :=
  (a.values.filter (fun v =>
      safe_str_eq (some v.nodename) (some env.uname) && !referred_by cs a.id v.nodename)).map
    (fun v =>
      build_attribute_xml a.id a.set a.uuid a.timeout_ms a.user a.is_private
        v.nodename v.nodeid v.current (a.timeout_ms ≠ 0 && a.timer.isSome))

/-- The cluster of `env_n2` seen from `n2` when the sender of the message at
hand is taken for a new writer. -/
def env_n2_new_writer : Env := { env_n2 with attrd_check_for_new_writer := fun _ _ => true }

/-- Node `n2` holds its own values `shoe-size[n2] = 42` and `load[n2] = 7`. -/
def st_n2_local : State :=
  attrd_peer_update env_n2
    (attrd_peer_update env_n2 State.init (update_msg "shoe-size" "n2" (some "42")) (some "n2")
      false)
    (update_msg "load" "n2" (some "7")) (some "n2") false

/-- The seen flags are those of hash tables: no attribute name occurs twice and
no node name, letter case aside, twice among the flags of an attribute. -/
def flags_keys_ok (t : List (String × List (String × Bool))) : Prop :=
  (t.map Prod.fst).Nodup ∧ ∀ e ∈ t, e.2.Pairwise (fun p q => strcase_eq p.1 q.1 = false)

/-- The seen flags say which values the records `cs` refer to. -/
def flags_as_referred (cs : List xmlNode) (t : List (String × List (String × Bool))) : Prop :=
  ∀ e ∈ t, ∀ p ∈ e.2, p.2 = referred_by cs e.1 p.1

/-- The loop of lines 607-610 over the records of a `SYNC_RESPONSE`. -/
def sync_response_records (env : Env) (st : State) (children : List xmlNode) : State :=
  children.foldl (fun s child => attrd_peer_update env s child child.host true) st

/-- The writer `n1` holds `shoe-size[n1] = ABC`, written out once. -/
def st_n1_text : State :=
  attrd_peer_update env_writer State.init (update_msg "shoe-size" "n1" (some "ABC"))
    (some "n1") false

/-- The cluster of `env_writer` with an id helper that stores `.` for each `#`
and `:` of the text, as `crm_xml_sanitize_id` of lib/common/xml.c does for the
characters that an XML id may not hold. -/
def env_dotted_ids : Env :=
  { env_writer with
    crm_xml_sanitize_id := fun s =>
      String.mk (s.data.map (fun c => if c = '#' ∨ c = ':' then '.' else c)) }
/-! ## Theorems -/

/-! ## Strings and tables: basic facts -/

theorem strcase_eq_refl (a : String) : strcase_eq a a = true := by
  simp [strcase_eq]

theorem strcase_eq_comm (a b : String) : strcase_eq a b = strcase_eq b a := by
  simp only [strcase_eq, Bool.beq_comm]

theorem strcase_eq_trans {a b c : String} (h1 : strcase_eq a b = true)
    (h2 : strcase_eq b c = true) : strcase_eq a c = true := by
  simp only [strcase_eq, beq_iff_eq] at *
  exact h1.trans h2

theorem strcase_eq_congr_left {a b : String} (h : strcase_eq a b = true) (c : String) :
    strcase_eq a c = strcase_eq b c := by
  simp only [strcase_eq, beq_iff_eq] at h
  simp only [strcase_eq, h]

theorem strcase_eq_congr_right {a b : String} (h : strcase_eq a b = true) (c : String) :
    strcase_eq c a = strcase_eq c b := by
  rw [strcase_eq_comm c a, strcase_eq_comm c b, strcase_eq_congr_left h]

theorem safe_str_neq_eq_not (a b : Option String) :
    safe_str_neq a b = !safe_str_eq a b := by
  cases a <;> cases b <;> rfl

theorem safe_str_neq_self (a : Option String) : safe_str_neq a a = false := by
  cases a <;> simp [safe_str_neq, strcase_eq_refl]

theorem lookup_value_remove_value (values : List attribute_value_t) (p q : String) :
    lookup_value (remove_value values p) q =
      if strcase_eq q p then none else lookup_value values q := by
  induction values with
  | nil => simp [lookup_value, remove_value]
  | cons v rest ih =>
    simp only [lookup_value, remove_value] at ih ⊢
    by_cases hvp : strcase_eq v.nodename p = true
    · rw [List.filter_cons_of_neg (by simpa using hvp), ih]
      by_cases hqp : strcase_eq q p = true
      · simp [hqp]
      · have hvq : strcase_eq v.nodename q = false := by
          rw [strcase_eq_congr_left hvp q, strcase_eq_comm]
          simpa using hqp
        simp [hqp, List.find?_cons, hvq]
    · rw [List.filter_cons_of_pos (by simpa using hvp)]
      by_cases hvq : strcase_eq v.nodename q = true
      · have hqp : strcase_eq q p = false := by
          rw [← strcase_eq_congr_left hvq p]
          simpa using hvp
        simp [List.find?_cons, hvq, hqp]
      · simp only [Bool.not_eq_true] at hvq
        simp only [List.find?_cons, hvq]
        exact ih

theorem mem_remove_value (values : List attribute_value_t) (p : String)
    (v : attribute_value_t) :
    v ∈ remove_value values p ↔ v ∈ values ∧ strcase_eq v.nodename p = false := by
  simp [remove_value]

/-- C4. Eviction removes exactly one key everywhere: `attrd_peer_remove` keeps
the attribute names (and every field but `values`) of each attribute, leaves no
value whose node name matches `p` without regard to letter case, keeps every
other value as it was, and as a map each `values` is the old map with key `p`
removed. -/
theorem attrd_peer_remove_removes_one_key (st : State) (p : String) (uncache : Bool)
    (source : Option String) :
    (attrd_peer_remove st (some p) uncache source).attributes.map (fun a => a.id)
        = st.attributes.map (fun a => a.id) ∧
    List.Forall₂
      (fun a a' =>
        a' = { a with values := a'.values } ∧
        lookup_value a'.values p = none ∧
        (∀ v, v ∈ a'.values ↔ v ∈ a.values ∧ strcase_eq v.nodename p = false) ∧
        (∀ q, lookup_value a'.values q =
            if strcase_eq q p then none else lookup_value a.values q))
      st.attributes (attrd_peer_remove st (some p) uncache source).attributes := by
  constructor
  · simp [attrd_peer_remove, List.map_map, Function.comp_def]
  · simp only [attrd_peer_remove, List.forall₂_map_right_iff]
    apply List.forall₂_same.mpr
    intro a _
    refine ⟨rfl, ?_, ?_, ?_⟩
    · simp [lookup_value_remove_value, strcase_eq_refl]
    · intro v
      exact mem_remove_value a.values p v
    · intro q
      exact lookup_value_remove_value a.values p q

/-! ## C5: membership events -/

/-- C5, amended. For a node-state change to a state other than MEMBER,
`attrd_peer_change_cb` removes the peer's value from every attribute (the table
becomes that of `attrd_peer_remove`) and removes the peer as a voter; for a
process-mask change in which the attribute-daemon process is no longer set it
removes the peer as a voter and leaves the attribute table as it was. -/
theorem attrd_peer_change_cb_on_loss (env : Env) (st : State) (kind : crm_status_type)
    (peer : crm_node_t) (p : String) (hname : peer.uname = some p)
    (hev : (kind = crm_status_type.crm_status_nstate ∧
              safe_str_eq peer.state (some CRM_NODE_MEMBER) = false) ∨
           (kind = crm_status_type.crm_status_processes ∧
              peer.processes &&& env.cluster_proc = 0)) :
    (attrd_peer_change_cb env st kind peer).g.voters_removed = st.g.voters_removed ++ [peer] ∧
    (kind = crm_status_type.crm_status_nstate →
      (attrd_peer_change_cb env st kind peer).attributes
          = (attrd_peer_remove st (some p) false (some "loss")).attributes ∧
      ∀ a ∈ (attrd_peer_change_cb env st kind peer).attributes,
        lookup_value a.values p = none) ∧
    (kind = crm_status_type.crm_status_processes →
      (attrd_peer_change_cb env st kind peer).attributes = st.attributes) := by
  rcases hev with ⟨hk, hs⟩ | ⟨hk, hs⟩
  · subst hk
    have hattrs : (attrd_peer_change_cb env st crm_status_type.crm_status_nstate peer).attributes
        = (attrd_peer_remove st (some p) false (some "loss")).attributes := by
      simp [attrd_peer_change_cb, hs, hname]
    refine ⟨?_, fun _ => ⟨hattrs, ?_⟩, ?_⟩
    · simp [attrd_peer_change_cb, hs, hname, attrd_peer_remove]
    rotate_left
    · intro h
      cases h
    · intro a ha
      rw [hattrs] at ha
      simp only [attrd_peer_remove, List.mem_map] at ha
      obtain ⟨b, _, rfl⟩ := ha
      simp [lookup_value_remove_value, strcase_eq_refl]
  · subst hk
    refine ⟨?_, ?_, fun _ => ?_⟩
    · simp [attrd_peer_change_cb, hs]
    · intro h
      cases h
    · simp [attrd_peer_change_cb, hs]

/-- Witness for C5: `n2` leaves the membership of a table holding `shoe-size[n2]`. -/
theorem attrd_peer_change_cb_on_loss_witness :
    (attrd_peer_change_cb env_peer st_n2_value crm_status_type.crm_status_nstate
        peer_n2_lost).g.voters_removed = st_n2_value.g.voters_removed ++ [peer_n2_lost] ∧
    ∀ a ∈ (attrd_peer_change_cb env_peer st_n2_value crm_status_type.crm_status_nstate
        peer_n2_lost).attributes, lookup_value a.values "n2" = none :=
  have h := attrd_peer_change_cb_on_loss env_peer st_n2_value
    crm_status_type.crm_status_nstate peer_n2_lost "n2" rfl (Or.inl ⟨rfl, by decide⟩)
  ⟨h.1, (h.2.1 rfl).2⟩

/-- Counterexample for C5: the attribute daemon of `n2` leaves the process group
(its process bit is no longer set); `attrd_peer_change_cb` removes the voter
but `shoe-size[n2]` keeps its value. -/
theorem attrd_peer_change_cb_process_loss_keeps_values :
    peer_n2.processes &&& env_peer.cluster_proc = 0 ∧
    (attrd_peer_change_cb env_peer st_n2_value crm_status_type.crm_status_processes
        peer_n2).attributes = st_n2_value.attributes ∧
    ((lookup_attribute (attrd_peer_change_cb env_peer st_n2_value
        crm_status_type.crm_status_processes peer_n2).attributes "shoe-size").bind
      (fun a => lookup_value a.values "n2")).map (fun v => v.current) = some (some "42") := by
  decide

/-! ## The writer: what `write_attribute` leaves alone -/

theorem lookup_attribute_some {attrs : List attribute_t} {name : String} {a : attribute_t}
    (h : lookup_attribute attrs name = some a) : a ∈ attrs ∧ a.id = name := by
  unfold lookup_attribute at h
  exact ⟨List.mem_of_find?_eq_some h, by simpa using List.find?_some h⟩

theorem mem_update_attribute {x b : attribute_t} {name : String} {attrs : List attribute_t}
    (h : b ∈ update_attribute (fun _ => x) name attrs) : b = x ∨ b ∈ attrs := by
  induction attrs with
  | nil => simp [update_attribute] at h
  | cons a rest ih =>
    simp only [update_attribute] at h
    split at h
    · rcases List.mem_cons.mp h with h | h
      · exact Or.inl h
      · exact Or.inr (List.mem_cons_of_mem _ h)
    · rcases List.mem_cons.mp h with h | h
      · exact Or.inr (h ▸ List.mem_cons_self _ _)
      · rcases ih h with h | h
        · exact Or.inl h
        · exact Or.inr (List.mem_cons_of_mem _ h)

theorem mem_replace_attribute {a b : attribute_t} {attrs : List attribute_t}
    (h : b ∈ replace_attribute attrs a) : b = a ∨ b ∈ attrs := by
  simp only [replace_attribute, List.mem_append, List.mem_filter, List.mem_singleton] at h
  rcases h with h | h
  · exact Or.inr h.1
  · exact Or.inl h

theorem write_value_private (env : Env) (a : attribute_t) (v : attribute_value_t)
    (hp : a.is_private ≠ 0) :
    (write_value env a v).1.requested = v.requested ∧
    (write_value env a v).2 ≠ value_write.unknown_uuid ∧
    ∀ uuid, (write_value env a v).2 ≠ value_write.written uuid := by
  unfold write_value
  cases env.crm_get_peer_full v.nodeid v.nodename with
  | none => simp
  | some peer =>
    simp only [hp, ne_eq, not_false_eq_true, ↓reduceIte]
    refine ⟨?_, by simp, by simp⟩
    split <;> rfl

/-- C7. Private attributes are never persisted: for an attribute with
`is_private` set, `write_attribute` with either `ignore_delay` submits no CIB
request (the globals are returned as they were), leaves `update` as it was and
changes no value's `requested`; `attrd_peer_sync` still sends one record per
value of the attribute, and `build_query_reply` still answers with its values. -/
theorem write_attribute_private_not_persisted (env : Env) (g : Globals) (a : attribute_t)
    (ignore_delay : Bool) (hp : a.is_private ≠ 0) :
    (write_attribute env g a ignore_delay).2 = g ∧
    (write_attribute env g a ignore_delay).1.update = a.update ∧
    (write_attribute env g a ignore_delay).1.values.map (fun v => v.requested)
        = a.values.map (fun v => v.requested) ∧
    (∀ (st : State) (peer : Option crm_node_t), a ∈ st.attributes →
      ∃ m ∈ (attrd_peer_sync env st peer).g.sent,
        m.data.task = some ATTRD_OP_SYNC_RESPONSE ∧
        ∀ v ∈ a.values,
          build_attribute_xml a.id a.set a.uuid a.timeout_ms a.user a.is_private
            v.nodename v.nodeid v.current false ∈ m.children) ∧
    (∀ attrs : List attribute_t, lookup_attribute attrs a.id = some a →
      (build_query_reply env attrs a.id none).attr = some a.id ∧
      (build_query_reply env attrs a.id none).nodes
        = a.values.map (fun v => { host := some v.nodename, value := v.current })) := by
  have hw : write_attribute env g a ignore_delay = write_attribute_now env g a := by
    simp [write_attribute, hp]
  have hnone : written_values env (clear_flags a) = [] := by
    unfold written_values
    rw [List.filterMap_eq_nil_iff]
    intro r hr
    obtain ⟨v, _, rfl⟩ := List.mem_map.mp hr
    have h := (write_value_private env (clear_flags a) v hp).2.2
    split
    · rename_i uuid heq
      exact absurd heq (h uuid)
    · rfl
  have hnow : write_attribute_now env g a = (write_values env (clear_flags a), g) := by
    simp [write_attribute_now, hnone]
  rw [hw, hnow]
  refine ⟨rfl, rfl, ?_, ?_, ?_⟩
  · simp only [write_values, clear_flags, List.map_map]
    apply List.map_congr_left
    intro v _
    exact (write_value_private env (clear_flags a) v hp).1
  · intro st peer hmem
    refine ⟨_, by simp only [attrd_peer_sync, send_attrd_message]; exact List.mem_append_right _ (List.mem_singleton_self _), rfl, ?_⟩
    intro v hv
    simp only [List.mem_flatMap]
    exact ⟨a, hmem, List.mem_map.mpr ⟨v, hv, rfl⟩⟩
  · intro attrs hl
    simp [build_query_reply, hl, safe_str_eq]

/-- Witness for C7: the private protocol attribute of the local node, written by the writer. -/
theorem write_attribute_private_not_persisted_witness :
    (write_attribute env_writer State.init.g attr_private true).2 = State.init.g ∧
    (write_attribute env_writer State.init.g attr_private true).1.update = attr_private.update :=
  have h := write_attribute_private_not_persisted env_writer State.init.g attr_private true
    (by decide)
  ⟨h.1, h.2.1⟩

/-! ## C3: the writer-or-elect discipline -/

theorem tags_kept_refl (st : State) : tags_kept st st :=
  ⟨rfl, fun a ha => Or.inr ⟨a, ha, rfl, rfl⟩⟩

theorem tags_kept_trans {s1 s2 s3 : State} (h12 : tags_kept s1 s2) (h23 : tags_kept s2 s3) :
    tags_kept s1 s3 := by
  refine ⟨h23.1.trans h12.1, ?_⟩
  intro c hc
  rcases h23.2 c hc with h0 | ⟨b, hb, hid, hup⟩
  · exact Or.inl h0
  · rcases h12.2 b hb with h0 | ⟨a, ha, hid', hup'⟩
    · exact Or.inl (hup ▸ h0)
    · exact Or.inr ⟨a, ha, hid'.trans hid, hup'.trans hup⟩

theorem write_or_elect_attribute_not_won (env : Env) (g : Globals) (a : attribute_t)
    (h : env.election_won = false) :
    write_or_elect_attribute env g a
      = (a, { g with elections_started := g.elections_started + 1 }) := by
  simp [write_or_elect_attribute, h]

/-- Replacing the attribute found under `name` by one with the same name and
the same `update` keeps the tags. -/
theorem tags_kept_update_attribute {st : State} {name : String} {a x : attribute_t}
    {g : Globals} (hl : lookup_attribute st.attributes name = some a)
    (hid : x.id = a.id) (hup : x.update = a.update ∨ x.update = 0)
    (hg : g.cib_requests = st.g.cib_requests) :
    tags_kept st { attributes := update_attribute (fun _ => x) name st.attributes, g := g } := by
  refine ⟨hg, ?_⟩
  intro b hb
  rcases mem_update_attribute hb with rfl | hb
  · rcases hup with hup | hup
    · exact Or.inr ⟨a, (lookup_attribute_some hl).1, hid.symm, hup.symm⟩
    · exact Or.inl hup
  · exact Or.inr ⟨b, hb, rfl, rfl⟩

theorem lookup_or_create_attribute_tags_kept (env : Env) (st : State) (xml : xmlNode)
    (attr : String) : tags_kept st (lookup_or_create_attribute env st xml attr) := by
  unfold lookup_or_create_attribute
  split
  · refine ⟨rfl, ?_⟩
    intro b hb
    rcases mem_replace_attribute hb with rfl | hb
    · exact Or.inl rfl
    · exact Or.inr ⟨b, hb, rfl, rfl⟩
  · exact tags_kept_refl st

theorem update_dampening_not_won (env : Env) (st : State) (attr : String) (dampen : Int)
    (h : env.election_won = false) : tags_kept st (update_dampening env st attr dampen) := by
  unfold update_dampening
  split
  · exact tags_kept_refl st
  · rename_i a hl
    split
    · simp only [write_or_elect_attribute_not_won env _ _ h]
      exact tags_kept_update_attribute hl rfl (Or.inl rfl) rfl
    · exact tags_kept_refl st

theorem attrd_peer_update_begin_not_won (env : Env) (st : State) (xml : xmlNode)
    (h : env.election_won = false) :
    tags_kept st (attrd_peer_update_begin env st xml).1 := by
  unfold attrd_peer_update_begin
  split
  · exact tags_kept_refl st
  · simp only
    split
    · exact tags_kept_refl st
    · split
      · split
        · exact lookup_or_create_attribute_tags_kept env st xml _
        · split
          · exact lookup_or_create_attribute_tags_kept env st xml _
          · exact tags_kept_trans (lookup_or_create_attribute_tags_kept env st xml _)
              (update_dampening_not_won env _ _ _ h)
      · exact lookup_or_create_attribute_tags_kept env st xml _

theorem update_one_value_not_won (env : Env) (g : Globals) (a : attribute_t)
    (v : attribute_value_t) (xml : xmlNode) (attr host : String) (filter : Bool)
    (h : env.election_won = false) :
    (update_one_value env g a v xml attr host filter).1.id = a.id ∧
    (update_one_value env g a v xml attr host filter).1.update = a.update ∧
    (update_one_value env g a v xml attr host filter).2.cib_requests = g.cib_requests := by
  unfold update_one_value
  simp only [write_or_elect_attribute_not_won env _ _ h]
  split
  · exact ⟨rfl, rfl, rfl⟩
  · split
    · split <;> exact ⟨rfl, rfl, rfl⟩
    · split <;> exact ⟨rfl, rfl, rfl⟩

theorem learn_node_id_not_won (env : Env) (st : State) (g : Globals) (a x : attribute_t)
    (xml : xmlNode) (attr host : String) (h : env.election_won = false)
    (hl : lookup_attribute st.attributes attr = some a) (hid : x.id = a.id)
    (hup : x.update = a.update) (hg : g.cib_requests = st.g.cib_requests) :
    tags_kept st (learn_node_id env st g x xml attr host) := by
  unfold learn_node_id
  simp only [h, Bool.false_eq_true, ↓reduceIte]
  split
  · exact tags_kept_update_attribute hl hid (Or.inl hup) hg
  · exact tags_kept_update_attribute hl hid (Or.inl hup) hg

theorem attrd_peer_update_value_not_won (env : Env) (st : State) (xml : xmlNode)
    (attr host : String) (filter : Bool) (h : env.election_won = false) :
    tags_kept st (attrd_peer_update_value env st xml attr host filter) := by
  unfold attrd_peer_update_value
  split
  · exact tags_kept_refl st
  · rename_i a hl
    have hu := update_one_value_not_won env
      { st.g with peer_cache_ops := st.g.peer_cache_ops ++
          (attrd_lookup_or_create_value a.values host xml).2.2 }
      { a with values := (attrd_lookup_or_create_value a.values host xml).2.1 }
      (attrd_lookup_or_create_value a.values host xml).1 xml attr host filter h
    exact learn_node_id_not_won env st _ a _ xml attr host h hl hu.1 hu.2.1 hu.2.2

theorem attrd_peer_update_host_not_won (env : Env) (st : State) (xml : xmlNode)
    (host : String) (filter : Bool) (h : env.election_won = false) :
    tags_kept st (attrd_peer_update_host env st xml host filter) := by
  unfold attrd_peer_update_host
  have hb := attrd_peer_update_begin_not_won env st xml h
  split
  · rename_i st1 heq
    rw [heq] at hb
    exact hb
  · rename_i st1 attr heq
    rw [heq] at hb
    exact tags_kept_trans hb (attrd_peer_update_value_not_won env st1 xml attr host filter h)

theorem foldl_attrd_peer_update_host_not_won (env : Env) (xml : xmlNode) (filter : Bool)
    (h : env.election_won = false) (hosts : List String) (st : State) :
    tags_kept st
      (hosts.foldl (fun s host => attrd_peer_update_host env s xml host filter) st) := by
  induction hosts generalizing st with
  | nil => exact tags_kept_refl st
  | cons host rest ih =>
    exact tags_kept_trans (attrd_peer_update_host_not_won env st xml host filter h) (ih _)

theorem attrd_peer_update_not_won (env : Env) (st : State) (xml : xmlNode)
    (host : Option String) (filter : Bool) (h : env.election_won = false) :
    tags_kept st (attrd_peer_update env st xml host filter) := by
  unfold attrd_peer_update
  split
  · exact attrd_peer_update_host_not_won env st xml _ filter h
  · have hb := attrd_peer_update_begin_not_won env st xml h
    split
    · rename_i st1 heq
      rw [heq] at hb
      exact hb
    · rename_i st1 attr heq
      rw [heq] at hb
      split
      · exact hb
      · exact tags_kept_trans hb (foldl_attrd_peer_update_host_not_won env _ filter h _ st1)

theorem attribute_timer_cb_not_won (env : Env) (st : State) (name : String)
    (h : env.election_won = false) : tags_kept st (attribute_timer_cb env st name) := by
  unfold attribute_timer_cb
  split
  · exact tags_kept_refl st
  · rename_i a hl
    simp only [write_or_elect_attribute_not_won env _ _ h]
    exact tags_kept_update_attribute hl rfl (Or.inl rfl) rfl

theorem attrd_cib_callback_not_won (env : Env) (st : State) (call_id rc : Int)
    (name : String) (h : env.election_won = false) :
    tags_kept st (attrd_cib_callback env st call_id rc name) := by
  unfold attrd_cib_callback
  split
  · exact tags_kept_refl st
  · rename_i a hl
    simp only [attrd_cib_callback_attr, h, Bool.false_eq_true, and_false, ↓reduceIte]
    exact tags_kept_update_attribute hl rfl (Or.inr rfl) rfl

/-- C3, amended. Writer-or-elect discipline: while `attrd_election_won()` is
false, an inbound `attrd_peer_update`, the dampening timer callback
`attribute_timer_cb` and `attrd_cib_callback` submit no CIB request and set no
attribute's in-flight tag. (`attrd_client_refresh` is not covered: it writes
without consulting the election.) -/
theorem no_write_unless_election_won (env : Env) (st : State)
    (h : env.election_won = false) :
    (∀ (xml : xmlNode) (host : Option String) (filter : Bool),
      tags_kept st (attrd_peer_update env st xml host filter)) ∧
    (∀ name : String, tags_kept st (attribute_timer_cb env st name)) ∧
    (∀ (call_id rc : Int) (name : String),
      tags_kept st (attrd_cib_callback env st call_id rc name)) :=
  ⟨fun xml host filter => attrd_peer_update_not_won env st xml host filter h,
   fun name => attribute_timer_cb_not_won env st name h,
   fun call_id rc name => attrd_cib_callback_not_won env st call_id rc name h⟩

/-- Witness for C3: a daemon that has not won the election takes an update. -/
theorem no_write_unless_election_won_witness :
    tags_kept State.init
      (attrd_peer_update env_peer State.init (update_msg "shoe-size" "n2" (some "42"))
        (some "n2") false) :=
  (no_write_unless_election_won env_peer State.init rfl).1 _ _ _

/-- Counterexample for C3: on a daemon that has not won the election,
`attrd_client_refresh` submits a CIB request for `shoe-size` and sets its
in-flight tag. -/
theorem attrd_client_refresh_writes_without_election :
    env_peer.election_won = false ∧
    st_n2_value.g.cib_requests = [] ∧
    (attrd_client_refresh env_peer st_n2_value).g.cib_requests.map (fun r => r.callback_data)
      = ["shoe-size"] ∧
    (attrd_client_refresh env_peer st_n2_value).attributes.map (fun a => a.update) = [1] ∧
    st_n2_value.attributes.map (fun a => a.update) = [0] := by
  decide

/-! ## Table look-ups after an update -/

theorem lookup_value_update_value (f : attribute_value_t → attribute_value_t)
    (hf : ∀ v, (f v).nodename = v.nodename) (h q : String) (values : List attribute_value_t) :
    lookup_value (update_value f h values) q =
      if strcase_eq q h then (lookup_value values q).map f else lookup_value values q := by
  induction values with
  | nil => simp [lookup_value, update_value]
  | cons v rest ih =>
    simp only [lookup_value] at ih
    by_cases hvh : strcase_eq v.nodename h = true
    · simp only [update_value, hvh, ↓reduceIte, lookup_value, List.find?_cons, hf]
      by_cases hvq : strcase_eq v.nodename q = true
      · have hqh : strcase_eq q h = true := by
          rw [← strcase_eq_congr_left hvq h]
          exact hvh
        simp [hvq, hqh]
      · have hqh : strcase_eq q h = false := by
          rw [strcase_eq_comm, ← strcase_eq_congr_left hvh q]
          simpa using hvq
        simp only [Bool.not_eq_true] at hvq
        simp [hvq, hqh]
    · simp only [Bool.not_eq_true] at hvh
      simp only [update_value, hvh, Bool.false_eq_true, ↓reduceIte, lookup_value,
        List.find?_cons]
      by_cases hvq : strcase_eq v.nodename q = true
      · have hqh : strcase_eq q h = false := by
          rw [← strcase_eq_congr_left hvq h]
          exact hvh
        simp [hvq, hqh]
      · simp only [Bool.not_eq_true] at hvq
        simp only [hvq]
        exact ih

theorem lookup_value_append_singleton (values : List attribute_value_t)
    (v : attribute_value_t) (q : String) :
    lookup_value (values ++ [v]) q =
      match lookup_value values q with
      | some w => some w
      | none => if strcase_eq v.nodename q then some v else none := by
  simp only [lookup_value, List.find?_append]
  cases List.find? (fun v => strcase_eq v.nodename q) values with
  | some w => simp
  | none => cases h : strcase_eq v.nodename q <;> simp [List.find?_cons, h]

theorem lookup_value_congr {h q : String} (hq : strcase_eq h q = true)
    (values : List attribute_value_t) : lookup_value values h = lookup_value values q := by
  unfold lookup_value
  congr 1
  funext v
  exact strcase_eq_congr_right hq v.nodename

theorem lookup_value_some {values : List attribute_value_t} {h : String}
    {v : attribute_value_t} (hl : lookup_value values h = some v) :
    v ∈ values ∧ strcase_eq v.nodename h = true := by
  unfold lookup_value at hl
  refine ⟨List.mem_of_find?_eq_some hl, ?_⟩
  have := List.find?_some hl
  simpa using this

theorem lookup_attribute_update_attribute {x : attribute_t} {name : String}
    (hx : x.id = name) (m : String) (attrs : List attribute_t) :
    lookup_attribute (update_attribute (fun _ => x) name attrs) m =
      if m = name then (lookup_attribute attrs m).map (fun _ => x)
      else lookup_attribute attrs m := by
  induction attrs with
  | nil => simp [lookup_attribute, update_attribute]
  | cons a rest ih =>
    simp only [lookup_attribute] at ih
    by_cases han : a.id = name
    · by_cases hm : m = name
      · simp [update_attribute, lookup_attribute, List.find?_cons, han, hm, hx]
      · have : ¬ name = m := fun h => hm h.symm
        simp [update_attribute, lookup_attribute, List.find?_cons, han, hm, hx, this]
    · by_cases hm : a.id = m
      · have : ¬ m = name := fun h => han (hm.trans h)
        simp [update_attribute, lookup_attribute, List.find?_cons, han, hm, this]
      · simp only [update_attribute, beq_iff_eq, han, ↓reduceIte, lookup_attribute,
          List.find?_cons, hm, beq_eq_false_iff_ne, ne_eq, not_false_eq_true]
        have h1 : (a.id == m) = false := by simpa using hm
        simp only [h1]
        exact ih

theorem lookup_attribute_replace_attribute (a : attribute_t) (m : String)
    (attrs : List attribute_t) :
    lookup_attribute (replace_attribute attrs a) m =
      if m = a.id then some a else lookup_attribute attrs m := by
  induction attrs with
  | nil =>
    by_cases hm : m = a.id
    · simp [lookup_attribute, replace_attribute, List.find?_cons, hm]
    · have hne : ¬ a.id = m := fun h => hm h.symm
      simp [lookup_attribute, replace_attribute, List.find?_cons, hm, hne]
  | cons b rest ih =>
    simp only [lookup_attribute, replace_attribute] at ih ⊢
    by_cases hb : b.id = a.id
    · rw [List.filter_cons_of_neg (by simp [hb]), ih]
      by_cases hm : m = a.id
      · simp [hm]
      · have : ¬ b.id = m := fun h => hm (h.symm.trans hb)
        simp [hm, List.find?_cons, this]
    · rw [List.filter_cons_of_pos (by simp [hb])]
      by_cases hbm : b.id = m
      · have : ¬ m = a.id := fun h => hb (hbm.trans h)
        simp [List.find?_cons, hbm, this]
      · have h1 : (b.id == m) = false := by simpa using hbm
        simp only [List.cons_append, List.find?_cons, h1]
        exact ih

/-! ## Frames of the writer -/

theorem vframe_refl (v : attribute_value_t) : vframe v v :=
  ⟨rfl, rfl, rfl, rfl, fun _ => rfl⟩

theorem vframe_trans {u v w : attribute_value_t} (h1 : vframe u v) (h2 : vframe v w) :
    vframe u w := by
  obtain ⟨a1, a2, a3, a4, a5⟩ := h1
  obtain ⟨b1, b2, b3, b4, b5⟩ := h2
  refine ⟨b1.trans a1, b2.trans a2, b3.trans a3, b4.trans a4, ?_⟩
  intro hu
  have hv : v.nodeid ≠ 0 := by rw [a5 hu]; exact hu
  exact (b5 hv).trans (a5 hu)

theorem forall₂_vframe_refl (values : List attribute_value_t) :
    List.Forall₂ vframe values values :=
  List.forall₂_same.mpr (fun v _ => vframe_refl v)

theorem forall₂_vframe_trans {l1 l2 l3 : List attribute_value_t}
    (h1 : List.Forall₂ vframe l1 l2) (h2 : List.Forall₂ vframe l2 l3) :
    List.Forall₂ vframe l1 l3 := by
  induction h1 generalizing l3 with
  | nil => cases h2; exact List.Forall₂.nil
  | cons hab _ ih =>
    cases h2 with
    | cons hbc hrest => exact List.Forall₂.cons (vframe_trans hab hbc) (ih hrest)

theorem aframe_refl (a : attribute_t) : aframe a a :=
  ⟨rfl, rfl, rfl, rfl, rfl, rfl, rfl, forall₂_vframe_refl _⟩

theorem aframe_trans {a b c : attribute_t} (h1 : aframe a b) (h2 : aframe b c) :
    aframe a c := by
  obtain ⟨a1, a2, a3, a4, a5, a6, a7, a8⟩ := h1
  obtain ⟨b1, b2, b3, b4, b5, b6, b7, b8⟩ := h2
  exact ⟨b1.trans a1, b2.trans a2, b3.trans a3, b4.trans a4, b5.trans a5, b6.trans a6,
    b7.trans a7, forall₂_vframe_trans a8 b8⟩

theorem write_value_vframe (env : Env) (a : attribute_t) (v : attribute_value_t) :
    vframe v (write_value env a v).1 := by
  unfold write_value
  cases env.crm_get_peer_full v.nodeid v.nodename with
  | none => exact vframe_refl v
  | some peer =>
    have h1 : vframe v (if peer.id ≠ 0 ∧ v.nodeid = 0 then { v with nodeid := peer.id } else v) := by
      split
      · rename_i h
        exact ⟨rfl, rfl, rfl, rfl, fun hv => absurd h.2 hv⟩
      · exact vframe_refl v
    simp only
    split
    · exact h1
    · split
      · exact h1
      · exact vframe_trans h1 ⟨rfl, rfl, rfl, rfl, fun _ => rfl⟩

theorem write_attribute_now_aframe (env : Env) (g : Globals) (a : attribute_t) :
    aframe a (write_attribute_now env g a).1 := by
  have hv : List.Forall₂ vframe a.values
      (List.map (fun v => (write_value env (clear_flags a) v).1) a.values) := by
    rw [List.forall₂_map_right_iff]
    exact List.forall₂_same.mpr (fun v _ => write_value_vframe env _ v)
  unfold write_attribute_now
  simp only
  split
  · exact ⟨rfl, rfl, rfl, rfl, rfl, rfl, rfl, hv⟩
  · exact ⟨rfl, rfl, rfl, rfl, rfl, rfl, rfl, hv⟩

theorem write_attribute_aframe (env : Env) (g : Globals) (a : attribute_t)
    (ignore_delay : Bool) : aframe a (write_attribute env g a ignore_delay).1 := by
  unfold write_attribute
  split
  · split
    · exact aframe_refl a
    · split
      · exact aframe_trans (b := { a with update := 0 }) ⟨rfl, rfl, rfl, rfl, rfl, rfl, rfl,
          forall₂_vframe_refl _⟩ (write_attribute_now_aframe env _ _)
      · split
        · exact aframe_refl a
        · split
          · split
            · refine aframe_trans (b := { a with timer := mainloop_timer_stop a.timer })
                ⟨rfl, rfl, rfl, rfl, rfl, rfl, ?_, forall₂_vframe_refl _⟩
                (write_attribute_now_aframe env _ _)
              cases a.timer <;> rfl
            · exact aframe_refl a
          · exact write_attribute_now_aframe env g a
  · exact write_attribute_now_aframe env g a

theorem write_or_elect_attribute_aframe (env : Env) (g : Globals) (a : attribute_t) :
    aframe a (write_or_elect_attribute env g a).1 := by
  unfold write_or_elect_attribute
  split
  · exact write_attribute_aframe env g a false
  · exact aframe_refl a

theorem write_attributes_step_aframe (env : Env) (all ignore_delay : Bool) (g : Globals)
    (a : attribute_t) : aframe a (write_attributes_step env all ignore_delay g a).1 := by
  have key : ∀ (a1 : attribute_t), aframe a a1 → ∀ (c : Prop) [Decidable c] (ign : Bool),
      aframe a (if c then write_attribute env g a1 ign else (a1, g)).1 := by
    intro a1 h c _ ign
    split
    · exact aframe_trans h (write_attribute_aframe env g a1 ign)
    · exact h
  unfold write_attributes_step
  apply key
  exact ⟨rfl, rfl, rfl, rfl, rfl, rfl, rfl, forall₂_vframe_refl _⟩

theorem write_attributes_loop_aframe (env : Env) (all ignore_delay : Bool)
    (attrs : List attribute_t) (g : Globals) :
    List.Forall₂ aframe attrs (write_attributes_loop env all ignore_delay attrs g).1 := by
  induction attrs generalizing g with
  | nil => exact List.Forall₂.nil
  | cons a rest ih =>
    simp only [write_attributes_loop]
    exact List.Forall₂.cons (write_attributes_step_aframe env all ignore_delay g a) (ih _)

theorem lookup_value_forall₂ {l l' : List attribute_value_t} (h : List.Forall₂ vframe l l')
    (q : String) :
    (lookup_value l q = none → lookup_value l' q = none) ∧
    (∀ v, lookup_value l q = some v → ∃ v', lookup_value l' q = some v' ∧ vframe v v') := by
  induction h with
  | nil => simp [lookup_value]
  | @cons v v' rest rest' hab _ ih =>
    simp only [lookup_value] at ih
    simp only [lookup_value, List.find?_cons, hab.1]
    cases hq : strcase_eq v.nodename q with
    | true =>
      simp only [Option.some.injEq, forall_eq', reduceCtorEq, false_implies, true_and]
      exact ⟨v', rfl, hab⟩
    | false => exact ih

theorem lookup_attribute_forall₂ {l l' : List attribute_t} (h : List.Forall₂ aframe l l')
    (name : String) :
    (lookup_attribute l name = none → lookup_attribute l' name = none) ∧
    (∀ a, lookup_attribute l name = some a →
      ∃ a', lookup_attribute l' name = some a' ∧ aframe a a') := by
  induction h with
  | nil => simp [lookup_attribute]
  | @cons a a' rest rest' hab _ ih =>
    simp only [lookup_attribute] at ih
    simp only [lookup_attribute, List.find?_cons, hab.1]
    cases hq : a.id == name with
    | true =>
      simp only [Option.some.injEq, forall_eq', reduceCtorEq, false_implies, true_and]
      exact ⟨a', rfl, hab⟩
    | false => exact ih

/-! ## C1: update, then query -/

theorem attrd_lookup_or_create_value_lookup (values : List attribute_value_t) (host : String)
    (xml : xmlNode) :
    lookup_value (attrd_lookup_or_create_value values host xml).2.1 host
      = some (attrd_lookup_or_create_value values host xml).1 ∧
    (∀ v, lookup_value values host = some v →
      (attrd_lookup_or_create_value values host xml).1 = v) ∧
    (lookup_value values host = none →
      (attrd_lookup_or_create_value values host xml).1.current = none ∧
      (attrd_lookup_or_create_value values host xml).1.nodename = host) := by
  unfold attrd_lookup_or_create_value
  cases hl : lookup_value values host with
  | none =>
    simp only [lookup_value_append_singleton, hl, strcase_eq_refl, ↓reduceIte]
    simp
  | some v => simp [hl]

/-- The value the entry of `host` holds after lines 848-891 without filtering:
the incoming value when that differs (letter case aside) from the current one,
the current one otherwise. -/
theorem update_one_value_lookup (env : Env) (g : Globals) (a : attribute_t)
    (v : attribute_value_t) (xml : xmlNode) (attr host : String)
    (hl : lookup_value a.values host = some v) :
    (update_one_value env g a v xml attr host false).1.id = a.id ∧
    ∃ vr, lookup_value (update_one_value env g a v xml attr host false).1.values host
        = some vr ∧
      vframe { v with current := if safe_str_neq v.current xml.value then xml.value
                                 else v.current } vr := by
  unfold update_one_value
  simp only [Bool.false_eq_true, false_and, ↓reduceIte]
  split
  · have hup : lookup_value
        (update_value (fun w => { w with current := xml.value }) host a.values) host
        = some { v with current := xml.value } := by
      rw [lookup_value_update_value (fun w => { w with current := xml.value })
        (fun _ => rfl), strcase_eq_refl]
      simp [hl]
    split
    · exact ⟨rfl, _, hup, vframe_refl _⟩
    · have hf := write_or_elect_attribute_aframe env g
        { a with
          values := update_value (fun w => { w with current := xml.value }) host a.values,
          changed := true }
      refine ⟨hf.1, ?_⟩
      exact (lookup_value_forall₂ hf.2.2.2.2.2.2.2 host).2 _ hup
  · split
    · exact ⟨rfl, v, hl, vframe_refl v⟩
    · exact ⟨rfl, v, hl, vframe_refl v⟩

theorem learn_node_id_lookup (env : Env) (st : State) (g : Globals) (a0 x : attribute_t)
    (vx : attribute_value_t) (xml : xmlNode) (attr host : String)
    (hl : lookup_attribute st.attributes attr = some a0) (hid : x.id = attr)
    (hv : lookup_value x.values host = some vx) :
    ∃ a' v', lookup_attribute (learn_node_id env st g x xml attr host).attributes attr
        = some a' ∧
      lookup_value a'.values host = some v' ∧
      v'.nodename = vx.nodename ∧ v'.current = vx.current ∧ v'.seen = vx.seen ∧
      (v'.nodeid ≠ 0 ∨ v'.is_remote ≠ 0 ∨ xml.host_id = none ∨
        ∃ id, xml.host_id = some id ∧ id % 4294967296 = 0) := by
  unfold learn_node_id
  simp only [hv]
  split
  · rename_i hlearn
    refine ⟨x, vx, ?_, hv, rfl, rfl, rfl, ?_⟩
    · simp [lookup_attribute_update_attribute hid, hl]
    · split at hlearn
      · exact Or.inr (Or.inr (Or.inl hlearn))
      · rename_i hc
        by_cases h0 : vx.nodeid = 0
        · by_cases h1 : vx.is_remote = 0
          · exact absurd ⟨h0, h1⟩ hc
          · exact Or.inr (Or.inl h1)
        · exact Or.inl h0
  · rename_i id hlearn
    have hid' : xml.host_id = some id := by
      split at hlearn
      · exact hlearn
      · cases hlearn
    have h4 : lookup_value
        (update_value (fun w => { w with nodeid := (id % 4294967296).toNat }) host x.values) host
        = some { vx with nodeid := (id % 4294967296).toNat } := by
      rw [lookup_value_update_value (fun w => { w with nodeid := (id % 4294967296).toNat })
        (fun _ => rfl), strcase_eq_refl]
      simp [hv]
    have hnid : (id % 4294967296).toNat ≠ 0 ∨ ∃ id', xml.host_id = some id' ∧ id' % 4294967296 = 0 := by
      by_cases hz : id % 4294967296 = 0
      · exact Or.inr ⟨id, hid', hz⟩
      · left
        have : 0 ≤ id % 4294967296 := Int.emod_nonneg _ (by norm_num)
        omega
    split
    · have hf := write_attributes_loop_aframe env false false
        (update_attribute (fun _ => ({ x with
          values := update_value (fun w => { w with nodeid := (id % 4294967296).toNat })
            host x.values } : attribute_t)) attr st.attributes)
        { g with peer_cache_ops := g.peer_cache_ops ++
            [peer_cache_op.get_peer (id % 4294967296).toNat host] }
      have hl4 : lookup_attribute
          (update_attribute (fun _ => ({ x with
            values := update_value (fun w => { w with nodeid := (id % 4294967296).toNat })
              host x.values } : attribute_t)) attr st.attributes) attr
          = some { x with
            values := update_value (fun w => { w with nodeid := (id % 4294967296).toNat })
              host x.values } := by
        simp [lookup_attribute_update_attribute (x := ({ x with
          values := update_value (fun w => { w with nodeid := (id % 4294967296).toNat })
            host x.values } : attribute_t)) hid, hl]
      obtain ⟨a', ha', hfa⟩ := (lookup_attribute_forall₂ hf attr).2 _ hl4
      obtain ⟨v', hv', hfv⟩ := (lookup_value_forall₂ hfa.2.2.2.2.2.2.2 host).2 _ h4
      refine ⟨a', v', ha', hv', hfv.1, hfv.2.1, hfv.2.2.2.1, ?_⟩
      rcases hnid with hn | hn
      · left
        rw [hfv.2.2.2.2 hn]
        exact hn
      · exact Or.inr (Or.inr (Or.inr hn))
    · refine ⟨({ x with
          values := update_value (fun w => { w with nodeid := (id % 4294967296).toNat })
            host x.values } : attribute_t),
        { vx with nodeid := (id % 4294967296).toNat }, ?_, h4, rfl, rfl, rfl, ?_⟩
      · simp [lookup_attribute_update_attribute (x := ({ x with
          values := update_value (fun w => { w with nodeid := (id % 4294967296).toNat })
            host x.values } : attribute_t)) hid, hl]
      · rcases hnid with hn | hn
        · exact Or.inl hn
        · exact Or.inr (Or.inr (Or.inr hn))

/-- After lines 844-907 without filtering, the attribute `attr` has an entry
for `host`, marked as seen, whose current value is the incoming one when that
differs (letter case aside) from the one before, and the one before otherwise. -/
theorem attrd_peer_update_value_lookup (env : Env) (st : State) (xml : xmlNode)
    (attr host : String) (a : attribute_t)
    (hl : lookup_attribute st.attributes attr = some a) :
    ∃ a' v', lookup_attribute (attrd_peer_update_value env st xml attr host false).attributes
        attr = some a' ∧
      lookup_value a'.values host = some v' ∧
      v'.current =
        (if safe_str_neq ((lookup_value a.values host).bind (fun v => v.current)) xml.value
         then xml.value else (lookup_value a.values host).bind (fun v => v.current)) ∧
      v'.seen = true ∧
      (v'.nodeid ≠ 0 ∨ v'.is_remote ≠ 0 ∨ xml.host_id = none ∨
        ∃ id, xml.host_id = some id ∧ id % 4294967296 = 0) := by
  unfold attrd_peer_update_value
  simp only [hl]
  obtain ⟨hlc1, hlc2, hlc3⟩ := attrd_lookup_or_create_value_lookup a.values host xml
  have hold : (attrd_lookup_or_create_value a.values host xml).1.current
      = (lookup_value a.values host).bind (fun v => v.current) := by
    cases hq : lookup_value a.values host with
    | none => simpa using (hlc3 hq).1
    | some v => simp [hlc2 v hq]
  generalize attrd_lookup_or_create_value a.values host xml = lc at hlc1 hold ⊢
  obtain ⟨hid, vr, hvr, hfr⟩ := update_one_value_lookup env
    { st.g with peer_cache_ops := st.g.peer_cache_ops ++ lc.2.2 }
    { a with values := lc.2.1 } lc.1 xml attr host hlc1
  generalize update_one_value env
    { st.g with peer_cache_ops := st.g.peer_cache_ops ++ lc.2.2 }
    { a with values := lc.2.1 } lc.1 xml attr host false = r at hid hvr ⊢
  have hseen : lookup_value
      (update_value (fun w => { w with seen := true }) host r.1.values) host
      = some { vr with seen := true } := by
    rw [lookup_value_update_value (fun w => { w with seen := true }) (fun _ => rfl),
      strcase_eq_refl]
    simp [hvr]
  obtain ⟨a', v', ha', hv', _, hcur, hsn, hnid⟩ := learn_node_id_lookup env st r.2 a
    ({ r.1 with values := update_value (fun w => { w with seen := true }) host r.1.values })
    { vr with seen := true } xml attr host hl
    (hid.trans (lookup_attribute_some hl).2) hseen
  refine ⟨a', v', ha', hv', ?_, hsn, hnid⟩
  rw [hcur]
  show vr.current = _
  rw [hfr.2.1, hold]

theorem attrd_peer_update_begin_update (env : Env) (st : State) (xml : xmlNode) (x : String)
    (hop : xml.task = some ATTRD_OP_UPDATE) (hattr : xml.attr = some x) :
    attrd_peer_update_begin env st xml = (lookup_or_create_attribute env st xml x, some x) := by
  have h1 : safe_str_eq (some ATTRD_OP_UPDATE) (some ATTRD_OP_UPDATE_BOTH) = false := by decide
  have h2 : safe_str_eq (some ATTRD_OP_UPDATE) (some ATTRD_OP_UPDATE) = true := by decide
  have h3 : safe_str_eq (some ATTRD_OP_UPDATE) (some ATTRD_OP_UPDATE_DELAY) = false := by decide
  simp [attrd_peer_update_begin, hop, hattr, h1, h2, h3]

theorem lookup_or_create_attribute_lookup (env : Env) (st : State) (xml : xmlNode)
    (x : String) :
    ∃ a, lookup_attribute (lookup_or_create_attribute env st xml x).attributes x = some a ∧
      (∀ b, lookup_attribute st.attributes x = some b → a = b) ∧
      (lookup_attribute st.attributes x = none → a.values = []) := by
  unfold lookup_or_create_attribute
  cases hl : lookup_attribute st.attributes x with
  | none =>
    refine ⟨(create_attribute env st.attributes xml x).1, ?_, ?_, fun _ => rfl⟩
    · simp [create_attribute, lookup_attribute_replace_attribute]
    · intro b hb
      cases hb
  | some a =>
    exact ⟨a, by simp [hl], fun b hb => by cases hb; rfl, fun h => by cases h⟩

/-- C1, amended. Update/query round trip: after `attrd_peer_update` has
processed an `UPDATE` message for attribute `x` and host `h` with value `w`
(filter off), where `h` is not the alias "localhost", `build_query_reply(x, h)`
names `x` and holds exactly one node record, with host `h` and value `w`; when
`safe_str_neq` finds `w` no different from the value stored before (the same
text, letter case aside), the record holds that stored value. -/
theorem update_then_query_round_trip (env : Env) (st : State) (xml : xmlNode)
    (x h : String) (w : Option String)
    (hop : xml.task = some ATTRD_OP_UPDATE) (hattr : xml.attr = some x)
    (hval : xml.value = w) (hlocal : strcase_eq h "localhost" = false) :
    build_query_reply env (attrd_peer_update env st xml (some h) false).attributes x (some h)
      = { f_type := some T_ATTRD, version := some ATTRD_PROTOCOL_VERSION, attr := some x,
          nodes := [{ host := some h,
                      value :=
                        if safe_str_neq
                            ((lookup_attribute st.attributes x).bind
                              (fun a => (lookup_value a.values h).bind (fun v => v.current))) w
                        then w
                        else (lookup_attribute st.attributes x).bind
                              (fun a => (lookup_value a.values h).bind (fun v => v.current)) }] } := by
  obtain ⟨a, ha, hold, hnew⟩ := lookup_or_create_attribute_lookup env st xml x
  obtain ⟨a', v', ha', hv', hcur, _, _⟩ :=
    attrd_peer_update_value_lookup env (lookup_or_create_attribute env st xml x) xml x h a ha
  have hsame : (lookup_attribute st.attributes x).bind
      (fun a => (lookup_value a.values h).bind (fun v => v.current))
      = (lookup_value a.values h).bind (fun v => v.current) := by
    cases hs : lookup_attribute st.attributes x with
    | none => simp [hnew hs, lookup_value]
    | some b => simp [hold b hs]
  rw [hsame, ← hval, ← hcur]
  simp only [attrd_peer_update, attrd_peer_update_host,
    attrd_peer_update_begin_update env st xml x hop hattr]
  simp [build_query_reply, ha', safe_str_eq, hlocal, hv']

/-- Witness for C1: `shoe-size[n1] = 42` on the writer. -/
theorem update_then_query_round_trip_witness :
    build_query_reply env_writer
      (attrd_peer_update env_writer State.init (update_msg "shoe-size" "n1" (some "42"))
        (some "n1") false).attributes "shoe-size" (some "n1")
      = { f_type := some T_ATTRD, version := some ATTRD_PROTOCOL_VERSION,
          attr := some "shoe-size", nodes := [{ host := some "n1", value := some "42" }] } :=
  update_then_query_round_trip env_writer State.init _ "shoe-size" "n1" (some "42")
    rfl rfl rfl (by decide)

/-- Counterexample for C1: an update for the host name "localhost" is stored
under that name, while the query for "localhost" is answered for the local
node `n1`: one record, host `n1`, no value. -/
theorem update_then_query_localhost :
    build_query_reply env_writer
      (attrd_peer_update env_writer State.init (update_msg "shoe-size" "localhost" (some "42"))
        (some "localhost") false).attributes "shoe-size" (some "localhost")
      = { f_type := some T_ATTRD, version := some ATTRD_PROTOCOL_VERSION,
          attr := some "shoe-size", nodes := [{ host := some "n1", value := none }] } := by
  decide

/-! ## C2: the local-owner veto -/

theorem write_attribute_now_sent (env : Env) (g : Globals) (a : attribute_t) :
    (write_attribute_now env g a).2.sent = g.sent := by
  unfold write_attribute_now
  simp only
  split <;> rfl

theorem write_attribute_sent (env : Env) (g : Globals) (a : attribute_t)
    (ignore_delay : Bool) : (write_attribute env g a ignore_delay).2.sent = g.sent := by
  unfold write_attribute
  split
  · split
    · rfl
    · split
      · exact write_attribute_now_sent env _ _
      · split
        · rfl
        · split
          · split
            · exact write_attribute_now_sent env _ _
            · rfl
          · exact write_attribute_now_sent env _ _
  · exact write_attribute_now_sent env _ _

theorem write_attributes_step_sent (env : Env) (all ignore_delay : Bool) (g : Globals)
    (a : attribute_t) : (write_attributes_step env all ignore_delay g a).2.sent = g.sent := by
  have key : ∀ (a1 : attribute_t) (c : Prop) [Decidable c] (ign : Bool),
      (if c then write_attribute env g a1 ign else (a1, g)).2.sent = g.sent := by
    intro a1 c _ ign
    split
    · exact write_attribute_sent env g a1 ign
    · rfl
  unfold write_attributes_step
  apply key

theorem write_attributes_loop_sent (env : Env) (all ignore_delay : Bool)
    (attrs : List attribute_t) (g : Globals) :
    (write_attributes_loop env all ignore_delay attrs g).2.sent = g.sent := by
  induction attrs generalizing g with
  | nil => rfl
  | cons a rest ih =>
    simp only [write_attributes_loop]
    rw [ih, write_attributes_step_sent]

theorem learn_node_id_sent (env : Env) (st : State) (g : Globals) (x : attribute_t)
    (xml : xmlNode) (attr host : String) :
    (learn_node_id env st g x xml attr host).g.sent = g.sent := by
  unfold learn_node_id
  simp only
  split
  · rfl
  · split
    · simp only [write_attributes]
      rw [write_attributes_loop_sent]
    · rfl

theorem learn_node_id_changed (env : Env) (st : State) (g : Globals) (a0 x : attribute_t)
    (xml : xmlNode) (attr host : String)
    (hl : lookup_attribute st.attributes attr = some a0) (hid : x.id = attr)
    (hno : env.election_won = false ∨ xml.host_id = none ∨
      ∃ v, lookup_value x.values host = some v ∧ (v.nodeid ≠ 0 ∨ v.is_remote ≠ 0)) :
    ∃ a', lookup_attribute (learn_node_id env st g x xml attr host).attributes attr = some a' ∧
      a'.changed = x.changed := by
  unfold learn_node_id
  simp only
  split
  · exact ⟨x, by simp [lookup_attribute_update_attribute hid, hl], rfl⟩
  · rename_i id hlearn
    have hwon : env.election_won = false := by
      rcases hno with h | h | ⟨v, hv, hv'⟩
      · exact h
      · cases hq : lookup_value x.values host <;> simp [hq, h] at hlearn
      · simp only [hv] at hlearn
        split at hlearn
        · rename_i hc
          rcases hv' with h | h
          · exact absurd hc.1 h
          · exact absurd hc.2 h
        · cases hlearn
    simp only [hwon, Bool.false_eq_true, ↓reduceIte]
    refine ⟨({ x with
      values := update_value (fun w => { w with nodeid := (id % 4294967296).toNat })
        host x.values } : attribute_t), ?_, rfl⟩
    simp [lookup_attribute_update_attribute (x := ({ x with
      values := update_value (fun w => { w with nodeid := (id % 4294967296).toNat })
        host x.values } : attribute_t)) hid, hl]
      
theorem attrd_peer_update_begin_keep (env : Env) (st : State) (xml : xmlNode) (x : String)
    (a : attribute_t) (hattr : xml.attr = some x)
    (hl : lookup_attribute st.attributes x = some a)
    (hd : xml.task = some ATTRD_OP_UPDATE ∨
      ((xml.task = none ∨ xml.task = some ATTRD_OP_UPDATE_BOTH) ∧
        ∃ d, xml.dampen = some d ∧ env.crm_get_msec d = a.timeout_ms ∧ 0 ≤ a.timeout_ms)) :
    attrd_peer_update_begin env st xml = (st, some x) := by
  rcases hd with hop | ⟨hop, d, hd1, hd2, hd3⟩
  · rw [attrd_peer_update_begin_update env st xml x hop hattr]
    simp [lookup_or_create_attribute, hl]
  · have hboth : (xml.task.isNone || safe_str_eq xml.task (some ATTRD_OP_UPDATE_BOTH)) = true := by
      rcases hop with h | h
      · simp [h]
      · rw [h]
        decide
    have hneg : ¬ a.timeout_ms < 0 := by omega
    simp [attrd_peer_update_begin, hattr, hl, hboth, hd1, hd2, hneg, lookup_or_create_attribute,
      update_dampening]

theorem update_one_value_veto (env : Env) (g : Globals) (a : attribute_t)
    (v : attribute_value_t) (xml : xmlNode) (attr host : String)
    (hv : safe_str_neq v.current xml.value = true)
    (hhost : safe_str_eq (some host) (some env.uname) = true) :
    update_one_value env g a v xml attr host true
      = (a, { g with sent := g.sent ++
          [veto_message env a attr v.nodename v.nodeid v.current] }) := by
  simp [update_one_value, hv, hhost, send_attrd_message, veto_message]

/-- C2, amended. Local-owner veto: when `attrd_peer_update` is called with
filter on for an existing attribute `x`, a host that is the local node's name,
a message that leaves the dampening alone (an `UPDATE`, or one whose dampening
parses to the attribute's own) and a value that differs, letter case aside,
from the stored current value, then the stored current value stays, and exactly
one message is sent: a `SYNC_RESPONSE` broadcast whose single record carries
`x`, the stored node name (the local node's) and the stored current value.
`changed` stays as it was unless the daemon is the writer and learns the node id
of the entry from the message, in which case it writes out what has changed. -/
theorem local_owner_veto (env : Env) (st : State) (xml : xmlNode) (x host : String)
    (a : attribute_t) (hattr : xml.attr = some x)
    (hl : lookup_attribute st.attributes x = some a)
    (hd : xml.task = some ATTRD_OP_UPDATE ∨
      ((xml.task = none ∨ xml.task = some ATTRD_OP_UPDATE_BOTH) ∧
        ∃ d, xml.dampen = some d ∧ env.crm_get_msec d = a.timeout_ms ∧ 0 ≤ a.timeout_ms))
    (hhost : safe_str_eq (some host) (some env.uname) = true)
    (hneq : safe_str_neq ((lookup_value a.values host).bind (fun v => v.current)) xml.value
      = true) :
    ∃ a' v' n id,
      lookup_attribute (attrd_peer_update env st xml (some host) true).attributes x = some a' ∧
      lookup_value a'.values host = some v' ∧
      v'.current = (lookup_value a.values host).bind (fun v => v.current) ∧
      strcase_eq n env.uname = true ∧
      (attrd_peer_update env st xml (some host) true).g.sent = st.g.sent ++
        [veto_message env a x n id ((lookup_value a.values host).bind (fun v => v.current))] ∧
      ((env.election_won = false ∨ xml.host_id = none ∨
          ∃ v, lookup_value a.values host = some v ∧ (v.nodeid ≠ 0 ∨ v.is_remote ≠ 0)) →
        a'.changed = a.changed) := by
  simp only [attrd_peer_update, attrd_peer_update_host,
    attrd_peer_update_begin_keep env st xml x a hattr hl hd]
  unfold attrd_peer_update_value
  simp only [hl]
  obtain ⟨hlc1, hlc2, hlc3⟩ := attrd_lookup_or_create_value_lookup a.values host xml
  have hold : (attrd_lookup_or_create_value a.values host xml).1.current
      = (lookup_value a.values host).bind (fun v => v.current) := by
    cases hq : lookup_value a.values host with
    | none => simpa using (hlc3 hq).1
    | some v => simp [hlc2 v hq]
  generalize attrd_lookup_or_create_value a.values host xml = lc at hlc1 hlc2 hold ⊢
  rw [update_one_value_veto env _ _ lc.1 xml x host (by rw [hold]; exact hneq) hhost]
  have hseen : lookup_value
      (update_value (fun w => { w with seen := true }) host lc.2.1) host
      = some { lc.1 with seen := true } := by
    rw [lookup_value_update_value (fun w => { w with seen := true }) (fun _ => rfl),
      strcase_eq_refl]
    simp [hlc1]
  have hid : ({ a with values := lc.2.1 } : attribute_t).id = x := (lookup_attribute_some hl).2
  obtain ⟨a', v', ha', hv', _, hcur, _, _⟩ := learn_node_id_lookup env st
    { st.g with
      peer_cache_ops := st.g.peer_cache_ops ++ lc.2.2,
      sent := st.g.sent ++ [veto_message env { a with values := lc.2.1 } x
        lc.1.nodename lc.1.nodeid lc.1.current] }
    a
    { a with values := update_value (fun w => { w with seen := true }) host lc.2.1 }
    { lc.1 with seen := true } xml x host hl hid hseen
  refine ⟨a', v', lc.1.nodename, lc.1.nodeid, ha', hv', hcur.trans hold, ?_, ?_, ?_⟩
  · have h1 := (lookup_value_some hlc1).2
    simp only [safe_str_eq] at hhost
    exact strcase_eq_trans h1 hhost
  · rw [learn_node_id_sent, ← hold]
    rfl
  · intro hno
    obtain ⟨a'', ha'', hch⟩ := learn_node_id_changed env st
      { st.g with
        peer_cache_ops := st.g.peer_cache_ops ++ lc.2.2,
        sent := st.g.sent ++ [veto_message env { a with values := lc.2.1 } x
          lc.1.nodename lc.1.nodeid lc.1.current] }
      a
      { a with values := update_value (fun w => { w with seen := true }) host lc.2.1 }
      xml x host hl hid
      (by
        rcases hno with h | h | ⟨v, hv, hv2⟩
        · exact Or.inl h
        · exact Or.inr (Or.inl h)
        · refine Or.inr (Or.inr ⟨{ lc.1 with seen := true }, hseen, ?_⟩)
          rw [hlc2 v hv]
          exact hv2)
    rw [ha'] at ha''
    cases ha''
    exact hch

/-- Witness for C2: the scenario of the design notes. `n1` holds
`shoe-size[n1] = alive` and is told `dead` by a peer's `SYNC_RESPONSE` record. -/
theorem local_owner_veto_witness :
    ∃ a' v' n id,
      lookup_attribute (attrd_peer_update env_peer st_alive
        (sync_record "shoe-size" "n1" (some "dead") "0") (some "n1") true).attributes
        "shoe-size" = some a' ∧
      lookup_value a'.values "n1" = some v' ∧
      v'.current = (lookup_value attr_alive.values "n1").bind (fun v => v.current) ∧
      strcase_eq n env_peer.uname = true ∧
      (attrd_peer_update env_peer st_alive
        (sync_record "shoe-size" "n1" (some "dead") "0") (some "n1") true).g.sent
        = st_alive.g.sent ++ [veto_message env_peer attr_alive "shoe-size" n id
            ((lookup_value attr_alive.values "n1").bind (fun v => v.current))] ∧
      ((env_peer.election_won = false ∨
          (sync_record "shoe-size" "n1" (some "dead") "0").host_id = none ∨
          ∃ v, lookup_value attr_alive.values "n1" = some v ∧
            (v.nodeid ≠ 0 ∨ v.is_remote ≠ 0)) →
        a'.changed = attr_alive.changed) :=
  local_owner_veto env_peer st_alive (sync_record "shoe-size" "n1" (some "dead") "0")
    "shoe-size" "n1" attr_alive rfl (by decide)
    (Or.inr ⟨Or.inl rfl, "0", rfl, by decide, by decide⟩) (by decide) (by decide)

/-- Counterexample for C2. First: the writer `n1` holds `shoe-size[n1] = alive`
with a pending dampened write (`changed` set). A peer's `SYNC_RESPONSE` record
says `dead` and carries dampening 0: the veto is broadcast and the value stays,
but the record also removes the dampening, the attribute is written at once,
and `changed` is cleared. Second: the writer holds `shoe-size[n1] = alive`
unwritten (`changed` set, node id not known); the record leaves the dampening
alone but carries the node id, so after the veto the writer writes out what has
changed, and `changed` is cleared. -/
theorem local_owner_veto_changed_cleared :
    ((lookup_attribute st_dampened.attributes "shoe-size").map (fun a => a.changed)
      = some true ∧
    (lookup_attribute (attrd_peer_update env_writer st_dampened
        (sync_record "shoe-size" "n1" (some "dead") "0") (some "n1") true).attributes
      "shoe-size").map (fun a => (a.changed, a.values.map (fun v => v.current)))
      = some (false, [some "alive"]) ∧
    (attrd_peer_update env_writer st_dampened
        (sync_record "shoe-size" "n1" (some "dead") "0") (some "n1") true).g.sent.length
      = 1) ∧
    ((lookup_attribute st_unwritten.attributes "shoe-size").map
        (fun a => (a.changed, a.timeout_ms)) = some (true, 0) ∧
    (lookup_attribute (attrd_peer_update env_writer st_unwritten
        (sync_record "shoe-size" "n1" (some "dead") "0") (some "n1") true).attributes
      "shoe-size").map (fun a => (a.changed, a.values.map (fun v => v.current)))
      = some (false, [some "alive"]) ∧
    (attrd_peer_update env_writer st_unwritten
        (sync_record "shoe-size" "n1" (some "dead") "0") (some "n1") true).g.sent.length
      = 1) := by
  decide

/-! ## C6: the same update twice -/

theorem update_value_of_fixed (f : attribute_value_t → attribute_value_t) (h : String)
    (values : List attribute_value_t) (v : attribute_value_t)
    (hl : lookup_value values h = some v) (hf : f v = v) :
    update_value f h values = values := by
  induction values with
  | nil => rfl
  | cons w rest ih =>
    simp only [lookup_value, List.find?_cons] at hl
    simp only [update_value]
    cases hq : strcase_eq w.nodename h with
    | true =>
      simp only [hq, Option.some.injEq] at hl
      simp [hl, hf]
    | false =>
      simp only [hq] at hl
      simp [ih hl]

theorem forall₂_update_attribute (R : attribute_t → attribute_t → Prop)
    (hR : ∀ b, R b b) {attrs : List attribute_t} {name : String} {a x : attribute_t}
    (hl : lookup_attribute attrs name = some a) (hax : R a x) :
    List.Forall₂ R attrs (update_attribute (fun _ => x) name attrs) := by
  induction attrs with
  | nil => exact List.Forall₂.nil
  | cons b rest ih =>
    simp only [lookup_attribute, List.find?_cons] at hl
    simp only [update_attribute]
    cases hq : b.id == name with
    | true =>
      simp only [hq, Option.some.injEq] at hl
      simp only [↓reduceIte]
      exact List.Forall₂.cons (hl ▸ hax) (List.forall₂_same.mpr (fun c _ => hR c))
    | false =>
      simp only [hq] at hl
      simp only [Bool.false_eq_true, ↓reduceIte]
      exact List.Forall₂.cons (hR b) (ih hl)

/-- C6, amended. Repeated update: let an `UPDATE` message name its attribute
and its host and carry no node id, or one that is not 0. Processing it with
`attrd_peer_update` (filter off) a second time right after the first submits
no CIB request and leaves every attribute as the first processing left it
(every value, `changed`, the in-flight tag, the timer), except that
`force_write` of an attribute may be set. -/
theorem repeated_update_writes_nothing (env : Env) (st : State) (xml : xmlNode)
    (x h : String) (hop : xml.task = some ATTRD_OP_UPDATE) (hattr : xml.attr = some x)
    (hid : ∀ id, xml.host_id = some id → id % 4294967296 ≠ 0) :
    (attrd_peer_update env (attrd_peer_update env st xml (some h) false) xml (some h)
        false).g.cib_requests
      = (attrd_peer_update env st xml (some h) false).g.cib_requests ∧
    List.Forall₂ (fun a1 a2 => a2 = { a1 with force_write := a2.force_write })
      (attrd_peer_update env st xml (some h) false).attributes
      (attrd_peer_update env (attrd_peer_update env st xml (some h) false) xml (some h)
        false).attributes := by
  obtain ⟨a, ha, _, _⟩ := lookup_or_create_attribute_lookup env st xml x
  obtain ⟨a', v', ha', hv', hcur, hseen, hnid⟩ :=
    attrd_peer_update_value_lookup env (lookup_or_create_attribute env st xml x) xml x h a ha
  have hst1 : attrd_peer_update env st xml (some h) false
      = attrd_peer_update_value env (lookup_or_create_attribute env st xml x) xml x h false := by
    simp only [attrd_peer_update, attrd_peer_update_host,
      attrd_peer_update_begin_update env st xml x hop hattr]
  rw [hst1]
  generalize attrd_peer_update_value env (lookup_or_create_attribute env st xml x) xml x h
    false = st1 at ha' ⊢
  have hsame : safe_str_neq v'.current xml.value = false := by
    rw [hcur]
    split
    · exact safe_str_neq_self _
    · rename_i hn
      simpa using hn
  have hnolearn : ¬ (v'.nodeid = 0 ∧ v'.is_remote = 0) ∨ xml.host_id = none := by
    rcases hnid with h1 | h1 | h1 | ⟨id, h1, h2⟩
    · exact Or.inl (fun hc => h1 hc.1)
    · exact Or.inl (fun hc => h1 hc.2)
    · exact Or.inr h1
    · exact absurd h2 (hid id h1)
  have hst2 : attrd_peer_update env st1 xml (some h) false
      = attrd_peer_update_value env st1 xml x h false := by
    simp only [attrd_peer_update, attrd_peer_update_host,
      attrd_peer_update_begin_update env st1 xml x hop hattr]
    simp [lookup_or_create_attribute, ha']
  rw [hst2]
  unfold attrd_peer_update_value
  simp only [ha']
  have hlc : attrd_lookup_or_create_value a'.values h xml
      = (v', a'.values, if xml.is_remote.getD 0 ≠ 0 then [peer_cache_op.remote_peer_get h]
          else []) := by
    simp [attrd_lookup_or_create_value, hv']
  rw [hlc]
  have hval : ∀ g : Globals, update_one_value env g a' v' xml x h false
      = ({ a' with force_write :=
            if xml.is_force_write.getD 0 ≠ 0 ∧ a'.timeout_ms ≠ 0 ∧ a'.timer.isSome then true
            else a'.force_write }, g) := by
    intro g
    simp only [update_one_value, Bool.false_eq_true, false_and, ↓reduceIte, hsame]
    split <;> simp_all
  simp only [hval]
  rw [update_value_of_fixed (fun w => { w with seen := true }) h a'.values v' hv'
    (by cases v'; simp_all)]
  have hlearn : (match lookup_value a'.values h with
      | none => (none : Option Int)
      | some v => if v.nodeid = 0 ∧ v.is_remote = 0 then xml.host_id else none) = none := by
    rw [hv']
    rcases hnolearn with h1 | h1
    · simp [h1]
    · simp [h1]
  simp only [learn_node_id, hlearn]
  refine ⟨trivial, ?_⟩
  exact forall₂_update_attribute
    (fun a1 a2 => a2 = { a1 with force_write := a2.force_write }) (fun b => rfl) ha' rfl

/-- Witness for C6: `UPDATE shoe-size[n1] = 42` twice on the writer. -/
theorem repeated_update_writes_nothing_witness :
    (attrd_peer_update env_writer
        (attrd_peer_update env_writer State.init (update_msg "shoe-size" "n1" (some "42"))
          (some "n1") false)
        (update_msg "shoe-size" "n1" (some "42")) (some "n1") false).g.cib_requests
      = (attrd_peer_update env_writer State.init (update_msg "shoe-size" "n1" (some "42"))
          (some "n1") false).g.cib_requests :=
  (repeated_update_writes_nothing env_writer State.init
    (update_msg "shoe-size" "n1" (some "42")) "shoe-size" "n1" rfl rfl
    (by intro id h; cases h)).1

/-- Counterexample for C6: the writer holds `shoe-size` with a running
dampening timer. An `UPDATE` that asks for a forced write and carries node id 0
is processed twice: the first processing changes the value and submits nothing
(the timer is running), the second changes no value but notes the forced write
and, the node id still being unknown, writes out the attribute. -/
theorem repeated_update_forced_write :
    (attrd_peer_update env_writer st_dampened update_forced (some "n1")
        false).g.cib_requests.length = 0 ∧
    (attrd_peer_update env_writer
        (attrd_peer_update env_writer st_dampened update_forced (some "n1") false)
        update_forced (some "n1") false).g.cib_requests.length = 1 := by
  decide

/-! ## Invariants of the attribute table -/

theorem log_le_refl (g : Globals) : log_le g g :=
  ⟨⟨[], by simp⟩, ⟨[], by simp⟩⟩

theorem log_le_trans {g1 g2 g3 : Globals} (h12 : log_le g1 g2) (h23 : log_le g2 g3) :
    log_le g1 g3 := by
  obtain ⟨⟨l1, h1⟩, ⟨m1, k1⟩⟩ := h12
  obtain ⟨⟨l2, h2⟩, ⟨m2, k2⟩⟩ := h23
  exact ⟨⟨l1 ++ l2, by rw [h2, h1, List.append_assoc]⟩,
    ⟨m1 ++ m2, by rw [k2, k1, List.append_assoc]⟩⟩

theorem good_log_of_log_le {g g' : Globals} (h : log_le g g') (hg : good_log g') :
    good_log g := by
  obtain ⟨⟨l, h1⟩, _⟩ := h
  unfold good_log at hg ⊢
  rw [h1] at hg
  exact (List.append_eq_nil.mp hg).1

theorem attr_inv_of_log_le {g g' : Globals} {a : attribute_t} (h : log_le g g')
    (ha : attr_inv g a) : attr_inv g' a :=
  ⟨ha.1, fun hg => ha.2 (good_log_of_log_le h hg)⟩

theorem timer_ok_of_same {a a' : attribute_t} (h1 : a'.timeout_ms = a.timeout_ms)
    (h2 : a'.timer.map (fun t => t.period_ms) = a.timer.map (fun t => t.period_ms))
    (ha : timer_ok a) : timer_ok a' := by
  obtain ⟨p1, p2, p3⟩ := ha
  refine ⟨h1 ▸ p1, ?_, ?_⟩
  · intro hpos
    obtain ⟨t, ht, htp⟩ := p2 (h1 ▸ hpos)
    rw [ht] at h2
    cases hq : a'.timer with
    | none => simp [hq] at h2
    | some t' =>
      simp only [hq, Option.map_some', Option.some.injEq] at h2
      exact ⟨t', rfl, by rw [h1, h2, htp]⟩
  · intro hz t' ht'
    rw [ht'] at h2
    cases hq : a.timer with
    | none => simp [hq] at h2
    | some t =>
      simp only [hq, Option.map_some', Option.some.injEq] at h2
      rw [h2]
      exact p3 (h1 ▸ hz) t hq

theorem timer_ok_of_aframe {a a' : attribute_t} (h : aframe a a') (ha : timer_ok a) :
    timer_ok a' :=
  timer_ok_of_same h.2.2.2.2.2.1 h.2.2.2.2.2.2.1 ha

/-- A change of an attribute that keeps the in-flight tag, the dampening and
the timer's period and sets no `requested` keeps the invariant. -/
theorem attr_inv_of_same {g : Globals} {a a' : attribute_t} (ha : attr_inv g a)
    (hup : a'.update = a.update) (h1 : a'.timeout_ms = a.timeout_ms)
    (h2 : a'.timer.map (fun t => t.period_ms) = a.timer.map (fun t => t.period_ms))
    (hreq : (∃ v ∈ a'.values, v.requested ≠ none) → ∃ v ∈ a.values, v.requested ≠ none) :
    attr_inv g a' :=
  ⟨timer_ok_of_same h1 h2 ha.1, fun hg hex => hup ▸ ha.2 hg (hreq hex)⟩

theorem write_value_requested (env : Env) (a : attribute_t) (v : attribute_value_t) :
    (∃ uuid, (write_value env a v).2 = value_write.written uuid) ∨
    (write_value env a v).1.requested = v.requested := by
  unfold write_value
  cases env.crm_get_peer_full v.nodeid v.nodename with
  | none => exact Or.inr rfl
  | some peer =>
    simp only
    split
    · right
      split <;> rfl
    · split
      · right
        split <;> rfl
      · rename_i uuid _
        exact Or.inl ⟨uuid, rfl⟩

theorem written_values_eq_nil (env : Env) (a : attribute_t)
    (h : written_values env a = []) (v : attribute_value_t) (hv : v ∈ a.values) :
    (write_value env a v).1.requested = v.requested := by
  rcases write_value_requested env a v with ⟨uuid, hu⟩ | hsame
  · exfalso
    have hmem : (uuid, (write_value env a v).1) ∈ written_values env a := by
      unfold written_values
      rw [List.mem_filterMap]
      exact ⟨_, List.mem_map.mpr ⟨v, hv, rfl⟩, by rw [hu]⟩
    rw [h] at hmem
    cases hmem
  · exact hsame

theorem write_attribute_now_eq (env : Env) (g : Globals) (a : attribute_t) :
    (written_values env (clear_flags a) = [] ∧
      write_attribute_now env g a = (write_values env (clear_flags a), g)) ∨
    (written_values env (clear_flags a) ≠ [] ∧
      write_attribute_now env g a =
        ({ write_values env (clear_flags a) with
            update := env.cib_internal_op g.cib_requests.length },
         { g with
           cib_requests := g.cib_requests ++
             [write_request env (write_values env (clear_flags a))
               (written_values env (clear_flags a))
               (env.cib_internal_op g.cib_requests.length)],
           alerts := g.alerts ++
             (written_values env (clear_flags a)).foldl
               (fun t w => set_alert_attribute_value (write_values env (clear_flags a)) t w.2)
               [] })) := by
  by_cases h : written_values env (clear_flags a) = []
  · left
    exact ⟨h, by simp [write_attribute_now, h]⟩
  · right
    refine ⟨h, ?_⟩
    have hlen : (written_values env (clear_flags a)).length ≠ 0 := by
      rw [ne_eq, List.length_eq_zero]
      exact h
    simp [write_attribute_now, hlen]

theorem write_attribute_now_inv (env : Env) (g : Globals) (a : attribute_t)
    (ha : requested_ok a) : requested_ok (write_attribute_now env g a).1 := by
  rcases write_attribute_now_eq env g a with ⟨hnil, heq⟩ | ⟨_, heq⟩
  · rw [heq]
    intro hex
    apply ha
    obtain ⟨v', hv', hreq⟩ := hex
    simp only [write_values, clear_flags, List.mem_map] at hv'
    obtain ⟨v, hv, rfl⟩ := hv'
    refine ⟨v, hv, ?_⟩
    rw [← written_values_eq_nil env (clear_flags a) hnil v hv]
    exact hreq
  · rw [heq]
    intro _
    exact env.cib_internal_op_ne_zero _

theorem write_attribute_now_log_le (env : Env) (g : Globals) (a : attribute_t) :
    log_le g (write_attribute_now env g a).2 := by
  rcases write_attribute_now_eq env g a with ⟨_, heq⟩ | ⟨_, heq⟩
  · rw [heq]
    exact log_le_refl g
  · rw [heq]
    exact ⟨⟨[], by simp⟩, ⟨_, rfl⟩⟩

theorem write_attribute_log_le (env : Env) (g : Globals) (a : attribute_t)
    (ignore_delay : Bool) : log_le g (write_attribute env g a ignore_delay).2 := by
  unfold write_attribute
  split
  · split
    · exact log_le_refl g
    · split
      · have h1 : log_le g { g with lost_updates := g.lost_updates ++ [(a.id, a.update)] } :=
          ⟨⟨_, rfl⟩, ⟨[], by simp⟩⟩
        exact log_le_trans h1 (write_attribute_now_log_le env _ _)
      · split
        · exact log_le_refl g
        · split
          · split
            · exact write_attribute_now_log_le env _ _
            · exact log_le_refl g
          · exact write_attribute_now_log_le env _ _
  · exact write_attribute_now_log_le env _ _

theorem write_attribute_cases (env : Env) (g : Globals) (a : attribute_t)
    (ignore_delay : Bool) :
    write_attribute env g a ignore_delay = (a, g) ∨
    write_attribute env g a ignore_delay = write_attribute_now env g a ∨
    write_attribute env g a ignore_delay
      = write_attribute_now env g { a with timer := mainloop_timer_stop a.timer } ∨
    write_attribute env g a ignore_delay
      = write_attribute_now env
          { g with lost_updates := g.lost_updates ++ [(a.id, a.update)] }
          { a with update := 0 } := by
  unfold write_attribute
  split
  · split
    · exact Or.inl rfl
    · split
      · exact Or.inr (Or.inr (Or.inr rfl))
      · split
        · exact Or.inl rfl
        · split
          · split
            · exact Or.inr (Or.inr (Or.inl rfl))
            · exact Or.inl rfl
          · exact Or.inr (Or.inl rfl)
  · exact Or.inr (Or.inl rfl)

theorem write_attribute_inv (env : Env) (g : Globals) (a : attribute_t)
    (ignore_delay : Bool) (ha : attr_inv g a) :
    attr_inv (write_attribute env g a ignore_delay).2 (write_attribute env g a ignore_delay).1 := by
  refine ⟨timer_ok_of_aframe (write_attribute_aframe env g a ignore_delay) ha.1, ?_⟩
  intro hg
  have hg0 : good_log g := good_log_of_log_le (write_attribute_log_le env g a ignore_delay) hg
  have hreq := ha.2 hg0
  rcases write_attribute_cases env g a ignore_delay with h | h | h | h
  · rw [h]
    exact hreq
  · rw [h] at hg ⊢
    exact write_attribute_now_inv env g a hreq
  · rw [h] at hg ⊢
    exact write_attribute_now_inv env g _ hreq
  · rw [h] at hg
    exfalso
    obtain ⟨⟨l, hl⟩, _⟩ := write_attribute_now_log_le env
      { g with lost_updates := g.lost_updates ++ [(a.id, a.update)] } { a with update := 0 }
    unfold good_log at hg
    rw [hg] at hl
    simp at hl

theorem write_or_elect_attribute_log_le (env : Env) (g : Globals) (a : attribute_t) :
    log_le g (write_or_elect_attribute env g a).2 := by
  unfold write_or_elect_attribute
  split
  · exact write_attribute_log_le env g a false
  · exact ⟨⟨[], by simp⟩, ⟨[], by simp⟩⟩

theorem write_or_elect_attribute_inv (env : Env) (g : Globals) (a : attribute_t)
    (ha : attr_inv g a) :
    attr_inv (write_or_elect_attribute env g a).2 (write_or_elect_attribute env g a).1 := by
  unfold write_or_elect_attribute
  split
  · exact write_attribute_inv env g a false ha
  · exact attr_inv_of_log_le ⟨⟨[], by simp⟩, ⟨[], by simp⟩⟩ ha

theorem write_attributes_step_log_le (env : Env) (all ignore_delay : Bool) (g : Globals)
    (a : attribute_t) : log_le g (write_attributes_step env all ignore_delay g a).2 := by
  have key : ∀ (a1 : attribute_t) (c : Prop) [Decidable c] (ign : Bool),
      log_le g (if c then write_attribute env g a1 ign else (a1, g)).2 := by
    intro a1 c _ ign
    split
    · exact write_attribute_log_le env g a1 ign
    · exact log_le_refl g
  unfold write_attributes_step
  apply key

theorem write_attributes_step_inv (env : Env) (all ignore_delay : Bool) (g : Globals)
    (a : attribute_t) (ha : attr_inv g a) :
    attr_inv (write_attributes_step env all ignore_delay g a).2
      (write_attributes_step env all ignore_delay g a).1 := by
  have key : ∀ (a1 : attribute_t), attr_inv g a1 → ∀ (c : Prop) [Decidable c] (ign : Bool),
      attr_inv (if c then write_attribute env g a1 ign else (a1, g)).2
        (if c then write_attribute env g a1 ign else (a1, g)).1 := by
    intro a1 h1 c _ ign
    split
    · exact write_attribute_inv env g a1 ign h1
    · exact h1
  unfold write_attributes_step
  apply key
  exact attr_inv_of_same ha rfl rfl rfl (fun h => h)

theorem write_attributes_loop_log_le (env : Env) (all ignore_delay : Bool)
    (attrs : List attribute_t) (g : Globals) :
    log_le g (write_attributes_loop env all ignore_delay attrs g).2 := by
  induction attrs generalizing g with
  | nil => exact log_le_refl g
  | cons a rest ih =>
    simp only [write_attributes_loop]
    exact log_le_trans (write_attributes_step_log_le env all ignore_delay g a) (ih _)

theorem write_attributes_loop_inv (env : Env) (all ignore_delay : Bool)
    (attrs : List attribute_t) (g : Globals) (h : ∀ a ∈ attrs, attr_inv g a) :
    ∀ a' ∈ (write_attributes_loop env all ignore_delay attrs g).1,
      attr_inv (write_attributes_loop env all ignore_delay attrs g).2 a' := by
  induction attrs generalizing g with
  | nil =>
    intro a' ha'
    simp [write_attributes_loop] at ha'
  | cons a rest ih =>
    simp only [write_attributes_loop]
    intro a' ha'
    rcases List.mem_cons.mp ha' with rfl | hmem
    · exact attr_inv_of_log_le (write_attributes_loop_log_le env all ignore_delay rest _)
        (write_attributes_step_inv env all ignore_delay g a (h a (List.mem_cons_self _ _)))
    · refine ih _ ?_ a' hmem
      intro b hb
      exact attr_inv_of_log_le (write_attributes_step_log_le env all ignore_delay g a)
        (h b (List.mem_cons_of_mem _ hb))

theorem write_attributes_inv (env : Env) (st : State) (all ignore_delay : Bool)
    (h : state_inv st) :
    state_inv (write_attributes env st all ignore_delay) ∧
    log_le st.g (write_attributes env st all ignore_delay).g :=
  ⟨write_attributes_loop_inv env all ignore_delay st.attributes st.g h,
   write_attributes_loop_log_le env all ignore_delay st.attributes st.g⟩

theorem state_inv_update_attribute {st : State} {name : String} {x : attribute_t}
    {g : Globals} (hst : state_inv st) (hle : log_le st.g g) (hx : attr_inv g x) :
    state_inv { attributes := update_attribute (fun _ => x) name st.attributes, g := g } := by
  intro b hb
  rcases mem_update_attribute hb with rfl | hb
  · exact hx
  · exact attr_inv_of_log_le hle (hst b hb)

theorem create_attribute_inv (env : Env) (attrs : List attribute_t) (xml : xmlNode)
    (id : String) (g : Globals) : attr_inv g (create_attribute env attrs xml id).1 := by
  refine ⟨?_, fun _ hex => ?_⟩
  · simp only [create_attribute, timer_ok]
    split
    · rename_i hpos
      refine ⟨le_of_lt hpos, fun _ => ⟨_, rfl, rfl⟩, fun hz => ?_⟩
      omega
    · exact ⟨le_refl _, fun h => absurd h (lt_irrefl _), fun _ t ht => by cases ht⟩
  · obtain ⟨v, hv, _⟩ := hex
    simp [create_attribute] at hv

theorem lookup_or_create_attribute_inv (env : Env) (st : State) (xml : xmlNode)
    (attr : String) (h : state_inv st) :
    state_inv (lookup_or_create_attribute env st xml attr) ∧
    log_le st.g (lookup_or_create_attribute env st xml attr).g := by
  unfold lookup_or_create_attribute
  split
  · refine ⟨?_, log_le_refl _⟩
    intro b hb
    rcases mem_replace_attribute hb with rfl | hb
    · exact create_attribute_inv env st.attributes xml attr st.g
    · exact h b hb
  · exact ⟨h, log_le_refl _⟩

theorem update_dampening_inv (env : Env) (st : State) (attr : String) (dampen : Int)
    (hd : 0 ≤ dampen) (h : state_inv st) :
    state_inv (update_dampening env st attr dampen) ∧
    log_le st.g (update_dampening env st attr dampen).g := by
  unfold update_dampening
  split
  · exact ⟨h, log_le_refl _⟩
  · rename_i a hl
    split
    · have ha := h a (lookup_attribute_some hl).1
      have ha1 : attr_inv st.g { a with
          timeout_ms := dampen,
          timer := if dampen > 0 then some (mainloop_timer_add dampen) else none } := by
        refine ⟨?_, ha.2⟩
        refine ⟨hd, ?_, ?_⟩
        · intro hpos
          exact ⟨mainloop_timer_add dampen, by simp [hpos], rfl⟩
        · intro hz t ht
          simp only at hz
          simp [hz] at ht
      exact ⟨state_inv_update_attribute h (write_or_elect_attribute_log_le env _ _)
        (write_or_elect_attribute_inv env _ _ ha1), write_or_elect_attribute_log_le env _ _⟩
    · exact ⟨h, log_le_refl _⟩

theorem attrd_peer_update_begin_inv (env : Env) (st : State) (xml : xmlNode)
    (h : state_inv st) :
    state_inv (attrd_peer_update_begin env st xml).1 ∧
    log_le st.g (attrd_peer_update_begin env st xml).1.g := by
  unfold attrd_peer_update_begin
  split
  · exact ⟨h, log_le_refl _⟩
  · rename_i attr _
    simp only
    split
    · exact ⟨h, log_le_refl _⟩
    · have h1 := lookup_or_create_attribute_inv env st xml attr h
      split
      · split
        · exact h1
        · split
          · exact h1
          · rename_i hneg
            have h2 := update_dampening_inv env _ attr _ (not_lt.mp hneg) h1.1
            exact ⟨h2.1, log_le_trans h1.2 h2.2⟩
      · exact h1

theorem mem_update_value {f : attribute_value_t → attribute_value_t} {h : String}
    {values : List attribute_value_t} {w : attribute_value_t}
    (hw : w ∈ update_value f h values) : w ∈ values ∨ ∃ v ∈ values, w = f v := by
  induction values with
  | nil => simp [update_value] at hw
  | cons v rest ih =>
    simp only [update_value] at hw
    split at hw
    · rcases List.mem_cons.mp hw with rfl | hw
      · exact Or.inr ⟨v, List.mem_cons_self _ _, rfl⟩
      · exact Or.inl (List.mem_cons_of_mem _ hw)
    · rcases List.mem_cons.mp hw with rfl | hw
      · exact Or.inl (List.mem_cons_self _ _)
      · rcases ih hw with h1 | ⟨u, hu, rfl⟩
        · exact Or.inl (List.mem_cons_of_mem _ h1)
        · exact Or.inr ⟨u, List.mem_cons_of_mem _ hu, rfl⟩

/-- Writing through a value pointer without touching `requested` sets no `requested`. -/
theorem requested_update_value {f : attribute_value_t → attribute_value_t} {h : String}
    {values : List attribute_value_t} (hf : ∀ v, (f v).requested = v.requested)
    (hex : ∃ w ∈ update_value f h values, w.requested ≠ none) :
    ∃ v ∈ values, v.requested ≠ none := by
  obtain ⟨w, hw, hreq⟩ := hex
  rcases mem_update_value hw with h1 | ⟨v, hv, rfl⟩
  · exact ⟨w, h1, hreq⟩
  · exact ⟨v, hv, by rw [← hf v]; exact hreq⟩

theorem requested_lookup_or_create (values : List attribute_value_t) (host : String)
    (xml : xmlNode)
    (hex : ∃ w ∈ (attrd_lookup_or_create_value values host xml).2.1, w.requested ≠ none) :
    ∃ v ∈ values, v.requested ≠ none := by
  unfold attrd_lookup_or_create_value at hex
  cases hl : lookup_value values host with
  | none =>
    simp only [hl] at hex
    obtain ⟨w, hw, hreq⟩ := hex
    rcases List.mem_append.mp hw with h1 | h1
    · exact ⟨w, h1, hreq⟩
    · rw [List.mem_singleton] at h1
      subst h1
      exact absurd rfl hreq
  | some v =>
    simp only [hl] at hex
    exact hex

theorem update_one_value_inv (env : Env) (g : Globals) (a : attribute_t)
    (v : attribute_value_t) (xml : xmlNode) (attr host : String) (filter : Bool)
    (ha : attr_inv g a) :
    attr_inv (update_one_value env g a v xml attr host filter).2
      (update_one_value env g a v xml attr host filter).1 ∧
    log_le g (update_one_value env g a v xml attr host filter).2 := by
  unfold update_one_value
  simp only
  split
  · exact ⟨attr_inv_of_log_le ⟨⟨[], by simp [send_attrd_message]⟩,
      ⟨[], by simp [send_attrd_message]⟩⟩ ha, ⟨[], by simp [send_attrd_message]⟩,
      ⟨[], by simp [send_attrd_message]⟩⟩
  · split
    · have ha2 : attr_inv g { a with
          values := update_value (fun w => { w with current := xml.value }) host a.values,
          changed := true } :=
        attr_inv_of_same ha rfl rfl rfl (requested_update_value (fun _ => rfl))
      split
      · refine ⟨attr_inv_of_same ha2 rfl rfl ?_ (fun h => h), log_le_refl g⟩
        simp only [mainloop_timer_start]
        cases a.timer <;> rfl
      · exact ⟨write_or_elect_attribute_inv env g _ ha2,
          write_or_elect_attribute_log_le env g _⟩
    · split
      · exact ⟨attr_inv_of_same ha rfl rfl rfl (fun h => h), log_le_refl g⟩
      · exact ⟨ha, log_le_refl g⟩

theorem learn_node_id_inv (env : Env) (st : State) (g : Globals) (x : attribute_t)
    (xml : xmlNode) (attr host : String) (hst : state_inv st) (hle : log_le st.g g)
    (hx : attr_inv g x) :
    state_inv (learn_node_id env st g x xml attr host) ∧
    log_le st.g (learn_node_id env st g x xml attr host).g := by
  unfold learn_node_id
  simp only
  split
  · exact ⟨state_inv_update_attribute hst hle hx, hle⟩
  · rename_i id _
    have hle4 : log_le st.g { g with peer_cache_ops := g.peer_cache_ops ++
        [peer_cache_op.get_peer (id % 4294967296).toNat host] } :=
      log_le_trans hle ⟨⟨[], by simp⟩, ⟨[], by simp⟩⟩
    have h4 : state_inv
        { attributes := update_attribute (fun _ => ({ x with
            values := update_value (fun w => { w with nodeid := (id % 4294967296).toNat })
              host x.values } : attribute_t)) attr st.attributes,
          g := { g with peer_cache_ops := g.peer_cache_ops ++
            [peer_cache_op.get_peer (id % 4294967296).toNat host] } } := by
      apply state_inv_update_attribute hst hle4
      exact attr_inv_of_log_le ⟨⟨[], by simp⟩, ⟨[], by simp⟩⟩
        (attr_inv_of_same hx rfl rfl rfl (requested_update_value (fun _ => rfl)))
    split
    · have hw := write_attributes_inv env _ false false h4
      exact ⟨hw.1, log_le_trans hle4 hw.2⟩
    · exact ⟨h4, hle4⟩

theorem attrd_peer_update_value_inv (env : Env) (st : State) (xml : xmlNode)
    (attr host : String) (filter : Bool) (h : state_inv st) :
    state_inv (attrd_peer_update_value env st xml attr host filter) ∧
    log_le st.g (attrd_peer_update_value env st xml attr host filter).g := by
  unfold attrd_peer_update_value
  split
  · exact ⟨h, log_le_refl _⟩
  · rename_i a hl
    have ha := h a (lookup_attribute_some hl).1
    have hle1 : log_le st.g { st.g with peer_cache_ops := st.g.peer_cache_ops ++
        (attrd_lookup_or_create_value a.values host xml).2.2 } :=
      ⟨⟨[], by simp⟩, ⟨[], by simp⟩⟩
    have ha1 : attr_inv { st.g with peer_cache_ops := st.g.peer_cache_ops ++
        (attrd_lookup_or_create_value a.values host xml).2.2 }
        { a with values := (attrd_lookup_or_create_value a.values host xml).2.1 } :=
      attr_inv_of_log_le hle1
        (attr_inv_of_same ha rfl rfl rfl (requested_lookup_or_create a.values host xml))
    obtain ⟨hr, hler⟩ := update_one_value_inv env _ _
      (attrd_lookup_or_create_value a.values host xml).1 xml attr host filter ha1
    simp only
    generalize update_one_value env _ _ (attrd_lookup_or_create_value a.values host xml).1
      xml attr host filter = r at hr hler ⊢
    exact learn_node_id_inv env st r.2 _ xml attr host h (log_le_trans hle1 hler)
      (attr_inv_of_same hr rfl rfl rfl (requested_update_value (fun _ => rfl)))

theorem attrd_peer_update_host_inv (env : Env) (st : State) (xml : xmlNode) (host : String)
    (filter : Bool) (h : state_inv st) :
    state_inv (attrd_peer_update_host env st xml host filter) ∧
    log_le st.g (attrd_peer_update_host env st xml host filter).g := by
  unfold attrd_peer_update_host
  have hb := attrd_peer_update_begin_inv env st xml h
  split
  · rename_i st1 heq
    rw [heq] at hb
    exact hb
  · rename_i st1 attr heq
    rw [heq] at hb
    have hv := attrd_peer_update_value_inv env st1 xml attr host filter hb.1
    exact ⟨hv.1, log_le_trans hb.2 hv.2⟩

theorem foldl_attrd_peer_update_host_inv (env : Env) (xml : xmlNode) (filter : Bool)
    (hosts : List String) (st : State) (h : state_inv st) :
    state_inv (hosts.foldl (fun s host => attrd_peer_update_host env s xml host filter) st) ∧
    log_le st.g
      (hosts.foldl (fun s host => attrd_peer_update_host env s xml host filter) st).g := by
  induction hosts generalizing st with
  | nil => exact ⟨h, log_le_refl _⟩
  | cons host rest ih =>
    have h1 := attrd_peer_update_host_inv env st xml host filter h
    have h2 := ih _ h1.1
    exact ⟨h2.1, log_le_trans h1.2 h2.2⟩

theorem attrd_peer_update_inv (env : Env) (st : State) (xml : xmlNode)
    (host : Option String) (filter : Bool) (h : state_inv st) :
    state_inv (attrd_peer_update env st xml host filter) := by
  unfold attrd_peer_update
  split
  · exact (attrd_peer_update_host_inv env st xml _ filter h).1
  · have hb := attrd_peer_update_begin_inv env st xml h
    split
    · rename_i st1 heq
      rw [heq] at hb
      exact hb.1
    · rename_i st1 attr heq
      rw [heq] at hb
      split
      · exact hb.1
      · exact (foldl_attrd_peer_update_host_inv env _ filter _ st1 hb.1).1

theorem write_attribute_at_inv (env : Env) (st : State) (name : String)
    (ignore_delay : Bool) (h : state_inv st) :
    state_inv (write_attribute_at env st name ignore_delay) := by
  unfold write_attribute_at
  split
  · exact h
  · rename_i a hl
    exact state_inv_update_attribute h (write_attribute_log_le env _ _ _)
      (write_attribute_inv env _ _ _ (h a (lookup_attribute_some hl).1))

theorem attribute_timer_cb_inv (env : Env) (st : State) (name : String)
    (h : state_inv st) : state_inv (attribute_timer_cb env st name) := by
  unfold attribute_timer_cb
  split
  · exact h
  · rename_i a hl
    have ha1 : attr_inv st.g { a with timer := mainloop_timer_stop a.timer } := by
      refine attr_inv_of_same (h a (lookup_attribute_some hl).1) rfl rfl ?_ (fun h => h)
      simp only [mainloop_timer_stop]
      cases a.timer <;> rfl
    exact state_inv_update_attribute h (write_or_elect_attribute_log_le env _ _)
      (write_or_elect_attribute_inv env _ _ ha1)

theorem cib_callback_done_inv (g : Globals) (a : attribute_t) (rc1 : Int)
    (ha : timer_ok a) : attr_inv g (cib_callback_done a rc1) := by
  obtain ⟨t1, t2, t3⟩ := ha
  refine ⟨⟨t1, ?_, ?_⟩, fun _ hex => ?_⟩
  · intro hpos
    have hpos' : 0 < a.timeout_ms := hpos
    have hne : ¬ a.timeout_ms = 0 := by omega
    simp only [cib_callback_done, hne, and_false, ↓reduceIte]
    exact t2 hpos'
  · intro hz t ht
    have hz' : a.timeout_ms = 0 := hz
    simp only [cib_callback_done] at ht
    by_cases hc : rc1 = 0 ∧ a.timer.isSome = true ∧ a.timeout_ms = 0
    · simp [hc] at ht
    · simp only [hc, ↓reduceIte] at ht
      exact t3 hz' t ht
  · obtain ⟨v, hv, hreq⟩ := hex
    simp only [cib_callback_done, List.mem_map] at hv
    obtain ⟨u, _, rfl⟩ := hv
    exact absurd rfl hreq

theorem retry_timer_ok (a : attribute_t) (ha : timer_ok a) :
    timer_ok { a with timer := retry_timer a.timer } := by
  obtain ⟨t1, t2, t3⟩ := ha
  cases ht : a.timer with
  | none =>
    have hz : a.timeout_ms = 0 := by
      by_contra hne
      have hpos : 0 < a.timeout_ms := by omega
      obtain ⟨t, htm, _⟩ := t2 hpos
      rw [ht] at htm
      cases htm
    refine ⟨t1, fun hpos => ?_, fun _ t htm => ?_⟩
    · have hpos' : 0 < a.timeout_ms := hpos
      omega
    · simp only [retry_timer, mainloop_timer_start, mainloop_timer_add, Option.map_some',
        Option.some.injEq] at htm
      rw [← htm]
  | some t =>
    refine timer_ok_of_same (a := a) rfl ?_ ⟨t1, t2, t3⟩
    simp only [retry_timer, ht, mainloop_timer_start]
    split <;> rfl

theorem attrd_cib_callback_attr_inv (env : Env) (g : Globals) (a : attribute_t)
    (call_id rc : Int) (ha : attr_inv g a) :
    attr_inv (attrd_cib_callback_attr env g a call_id rc).2
      (attrd_cib_callback_attr env g a call_id rc).1 ∧
    log_le g (attrd_cib_callback_attr env g a call_id rc).2 := by
  have hle1 : log_le g { g with
      last_cib_op_done := if cib_callback_rc call_id rc = 0 then call_id
        else g.last_cib_op_done } :=
    ⟨⟨[], by simp⟩, ⟨[], by simp⟩⟩
  have ha3 : ∀ g1 : Globals, attr_inv g1 (cib_callback_done a (cib_callback_rc call_id rc)) :=
    fun g1 => cib_callback_done_inv g1 a _ ha.1
  unfold attrd_cib_callback_attr
  simp only
  split
  · split
    · exact ⟨write_attribute_inv env _ _ false (ha3 _),
        log_le_trans hle1 (write_attribute_log_le env _ _ false)⟩
    · refine ⟨⟨retry_timer_ok _ (ha3 g).1, fun _ hex => ?_⟩, hle1⟩
      obtain ⟨v, hv, hreq⟩ := hex
      simp only [cib_callback_done, List.mem_map] at hv
      obtain ⟨u, _, rfl⟩ := hv
      exact absurd rfl hreq
  · exact ⟨ha3 _, hle1⟩

theorem attrd_cib_callback_inv (env : Env) (st : State) (call_id rc : Int) (name : String)
    (h : state_inv st) : state_inv (attrd_cib_callback env st call_id rc name) := by
  unfold attrd_cib_callback
  split
  · exact h
  · rename_i a hl
    have hr := attrd_cib_callback_attr_inv env st.g a call_id rc
      (h a (lookup_attribute_some hl).1)
    exact state_inv_update_attribute h hr.2 hr.1

theorem attrd_peer_remove_inv (st : State) (host : Option String) (uncache : Bool)
    (source : Option String) (h : state_inv st) :
    state_inv (attrd_peer_remove st host uncache source) := by
  unfold attrd_peer_remove
  split
  · exact h
  · rename_i p
    intro b hb
    simp only [List.mem_map] at hb
    obtain ⟨a, ha, rfl⟩ := hb
    have hle : log_le st.g (if uncache = true then
        { st.g with peer_cache_ops := st.g.peer_cache_ops ++
            [peer_cache_op.remote_cache_remove p, peer_cache_op.reap_member p] }
        else st.g) := by
      split
      · exact ⟨⟨[], by simp⟩, ⟨[], by simp⟩⟩
      · exact log_le_refl _
    refine attr_inv_of_log_le hle (attr_inv_of_same (h a ha) rfl rfl rfl ?_)
    rintro ⟨v, hv, hreq⟩
    exact ⟨v, ((mem_remove_value a.values p v).mp hv).1, hreq⟩

theorem attrd_peer_sync_inv (env : Env) (st : State) (peer : Option crm_node_t)
    (h : state_inv st) : state_inv (attrd_peer_sync env st peer) := by
  intro b hb
  exact attr_inv_of_log_le ⟨⟨[], by simp [attrd_peer_sync, send_attrd_message]⟩,
    ⟨[], by simp [attrd_peer_sync, send_attrd_message]⟩⟩ (h b hb)

theorem attrd_peer_change_cb_inv (env : Env) (st : State) (kind : crm_status_type)
    (peer : crm_node_t) (h : state_inv st) :
    state_inv (attrd_peer_change_cb env st kind peer) := by
  have key : ∀ (r : State × Bool), state_inv r.1 →
      state_inv (if r.2 = true then
        { r.1 with g := { r.1.g with voters_removed := r.1.g.voters_removed ++ [peer] } }
        else r.1) := by
    intro r hr
    split
    · intro b hb
      exact attr_inv_of_log_le ⟨⟨[], by simp⟩, ⟨[], by simp⟩⟩ (hr b hb)
    · exact hr
  unfold attrd_peer_change_cb
  apply key
  cases kind with
  | crm_status_uname => exact h
  | crm_status_processes => exact h
  | crm_status_nstate =>
    simp only
    split
    · split
      · exact attrd_peer_sync_inv env st (some peer) h
      · exact h
    · exact attrd_peer_remove_inv st peer.uname false (some "loss") h

theorem state_inv_of_same_attributes (st st' : State) (ha : st'.attributes = st.attributes)
    (hle : log_le st.g st'.g) (h : state_inv st) : state_inv st' := by
  intro b hb
  rw [ha] at hb
  exact attr_inv_of_log_le hle (h b hb)

theorem foldl_send_log_le (env : Env) (xml : xmlNode) (m : String → Bool)
    (names : List String) (g : Globals) :
    log_le g (names.foldl
      (fun g attr =>
        if m attr then send_attrd_message env g none { xml with attr := some attr } []
        else g) g) := by
  induction names generalizing g with
  | nil => exact log_le_refl g
  | cons n rest ih =>
    rw [List.foldl_cons]
    refine log_le_trans ?_ (ih _)
    split
    · exact ⟨⟨[], by simp [send_attrd_message]⟩, ⟨[], by simp [send_attrd_message]⟩⟩
    · exact log_le_refl g

theorem attrd_client_update_inv (env : Env) (st : State) (xml : xmlNode)
    (h : state_inv st) : state_inv (attrd_client_update env st xml) := by
  unfold attrd_client_update
  split
  · split
    · split
      · exact h
      · exact state_inv_of_same_attributes st _ rfl (foldl_send_log_le env xml _ _ st.g) h
    · exact h
  · exact state_inv_of_same_attributes st _ rfl
      ⟨⟨[], by simp [send_attrd_message]⟩, ⟨[], by simp [send_attrd_message]⟩⟩ h

theorem clear_attribute_value_seen_inv (st : State) (h : state_inv st) :
    state_inv (clear_attribute_value_seen st) := by
  intro b hb
  simp only [clear_attribute_value_seen, List.mem_map] at hb
  obtain ⟨a, ha, rfl⟩ := hb
  refine attr_inv_of_same (h a ha) rfl rfl rfl ?_
  rintro ⟨v, hv, hreq⟩
  simp only [List.mem_map] at hv
  obtain ⟨u, hu, rfl⟩ := hv
  exact ⟨u, hu, hreq⟩

theorem attrd_peer_clear_failure_inv (env : Env) (st : State) (xml : xmlNode)
    (h : state_inv st) : state_inv (attrd_peer_clear_failure env st xml) := by
  unfold attrd_peer_clear_failure
  split
  · exact h
  · rename_i regex _
    generalize st.attributes.map (fun a => a.id) = names
    induction names generalizing st with
    | nil => exact h
    | cons n rest ih =>
      rw [List.foldl_cons]
      apply ih
      split
      · exact attrd_peer_update_inv env st _ xml.host false h
      · exact h

theorem attrd_current_only_attribute_update_inv (env : Env) (st : State)
    (h : state_inv st) : state_inv (attrd_current_only_attribute_update env st) := by
  unfold attrd_current_only_attribute_update
  simp only
  split
  · exact h
  · exact state_inv_of_same_attributes st _ rfl
      ⟨⟨[], by simp [send_attrd_message]⟩, ⟨[], by simp [send_attrd_message]⟩⟩ h

theorem foldl_attrd_peer_update_inv (env : Env) (children : List xmlNode) (st : State)
    (h : state_inv st) :
    state_inv (children.foldl
      (fun s child => attrd_peer_update env s child child.host true) st) := by
  induction children generalizing st with
  | nil => exact h
  | cons c rest ih =>
    rw [List.foldl_cons]
    exact ih _ (attrd_peer_update_inv env st c c.host true h)

theorem attrd_peer_message_inv (env : Env) (st : State) (peer : crm_node_t) (xml : xmlNode)
    (children : List xmlNode) (h : state_inv st) :
    state_inv (attrd_peer_message env st peer xml children) := by
  unfold attrd_peer_message
  split
  · exact state_inv_of_same_attributes st _ rfl ⟨⟨[], by simp⟩, ⟨[], by simp⟩⟩ h
  · split
    · exact h
    · simp only
      split
      · exact attrd_peer_update_inv env st xml xml.host false h
      · split
        · exact attrd_peer_sync_inv env st (some peer) h
        · split
          · exact attrd_peer_remove_inv st xml.host true peer.uname h
          · split
            · exact attrd_peer_clear_failure_inv env st xml h
            · split
              · cases hw : env.attrd_check_for_new_writer peer xml with
                | true =>
                  simp only [if_true]
                  exact attrd_current_only_attribute_update_inv env _
                    (foldl_attrd_peer_update_inv env children _
                      (clear_attribute_value_seen_inv st h))
                | false =>
                  simp only [Bool.false_eq_true, if_false]
                  exact foldl_attrd_peer_update_inv env children _ h
              · exact h

theorem step_inv {st st' : State} (hs : Step st st') (h : state_inv st) : state_inv st' := by
  cases hs with
  | create env _ xml id =>
    intro b hb
    rcases mem_replace_attribute hb with rfl | hb
    · exact create_attribute_inv env st.attributes xml id st.g
    · exact h b hb
  | peer_update env _ xml host filter => exact attrd_peer_update_inv env st xml host filter h
  | peer_remove _ host uncache source => exact attrd_peer_remove_inv st host uncache source h
  | peer_sync env _ peer => exact attrd_peer_sync_inv env st peer h
  | peer_change env _ kind peer => exact attrd_peer_change_cb_inv env st kind peer h
  | write env _ name ignore_delay => exact write_attribute_at_inv env st name ignore_delay h
  | write_all env _ all ignore_delay => exact (write_attributes_inv env st all ignore_delay h).1
  | refresh env _ => exact (write_attributes_inv env st true true h).1
  | timer env _ name => exact attribute_timer_cb_inv env st name h
  | cib_callback env _ call_id rc name => exact attrd_cib_callback_inv env st call_id rc name h
  | client_update env _ xml => exact attrd_client_update_inv env st xml h
  | client_clear_failure env _ xml => exact attrd_client_update_inv env st _ h
  | peer_message env _ peer xml children =>
    exact attrd_peer_message_inv env st peer xml children h

theorem reachable_inv {st : State} (hr : Reachable st) : state_inv st := by
  induction hr with
  | init =>
    intro a ha
    simp [State.init] at ha
  | step _ hs ih => exact step_inv hs ih

/-! ## C8, C9, C10 -/

/-- C8, amended. In every reachable state in which no write has been
considered lost, an attribute with a value whose `requested` is non-empty has
its in-flight tag `update` set: `requested` is non-empty only while a write is
in flight. (The converse does not hold: a write of deletes alone sets the tag
and leaves every `requested` empty.) -/
theorem requested_only_while_in_flight (st : State) (hr : Reachable st)
    (hlost : st.g.lost_updates = []) :
    ∀ a ∈ st.attributes, (∃ v ∈ a.values, v.requested ≠ none) → a.update ≠ 0 :=
  fun a ha => (reachable_inv hr a ha).2 hlost

/-- Witness for C8: the writer after `shoe-size[n1] = 1`, the write in flight. -/
theorem requested_only_while_in_flight_witness :
    (attrd_peer_update env_writer State.init (update_msg "shoe-size" "n1" (some "1"))
      (some "n1") false).attributes.map
        (fun a => (a.update, a.values.map (fun v => v.requested))) = [(1, [some "1"])] ∧
    ∀ a ∈ (attrd_peer_update env_writer State.init (update_msg "shoe-size" "n1" (some "1"))
        (some "n1") false).attributes,
      (∃ v ∈ a.values, v.requested ≠ none) → a.update ≠ 0 :=
  ⟨by decide,
   requested_only_while_in_flight _
    (Reachable.step Reachable.init (Step.peer_update env_writer State.init
      (update_msg "shoe-size" "n1" (some "1")) (some "n1") false))
    (by decide)⟩

/-- Counterexample for C8. First state: the delete of `shoe-size[n2]` is in
flight, so `update` is set (call 2) while no value has a `requested`. Second
state: the write of `shoe-size[n1]` (call 1) is considered lost once call 2 has
completed; the refresh clears the tag, finds no peer for `n1` and skips the
value, which keeps its `requested` while `update` is 0. -/
theorem requested_and_in_flight_tag_differ :
    (st_delete_in_flight.attributes.map
      (fun a => (a.id, a.update, a.values.map (fun v => v.requested))))
      = [("shoe-size", 2, [none])] ∧
    ((attrd_client_refresh env_n1_gone st_overtaken).attributes.map
      (fun a => (a.id, a.update, a.values.map (fun v => v.requested))))
      = [("shoe-size", 0, [some "1"]), ("load", 3, [some "7"])] := by
  decide

theorem write_value_snapshot (env : Env) (a : attribute_t) (v : attribute_value_t) :
    (write_value env a v).1.requested = (write_value env a v).1.current ∨
    (write_value env a v).1.requested = v.requested := by
  unfold write_value
  cases env.crm_get_peer_full v.nodeid v.nodename with
  | none => exact Or.inr rfl
  | some peer =>
    simp only
    split
    · right
      split <;> rfl
    · split
      · right
        split <;> rfl
      · exact Or.inl rfl

theorem write_value_written (env : Env) (a : attribute_t) (v : attribute_value_t)
    (uuid : String) (h : (write_value env a v).2 = value_write.written uuid) :
    (write_value env a v).1.requested = (write_value env a v).1.current := by
  unfold write_value at h ⊢
  cases hp : env.crm_get_peer_full v.nodeid v.nodename with
  | none => simp [hp] at h
  | some peer =>
    simp only [hp] at h ⊢
    by_cases hpriv : a.is_private ≠ 0
    · simp [hpriv] at h
    · simp only [hpriv, ↓reduceIte] at h ⊢
      cases hu : peer.uuid with
      | none => simp [hu] at h
      | some u => rfl

theorem write_attribute_now_values (env : Env) (g : Globals) (a : attribute_t) :
    (write_attribute_now env g a).1.values
      = a.values.map (fun v => (write_value env (clear_flags a) v).1) := by
  rcases write_attribute_now_eq env g a with ⟨_, heq⟩ | ⟨_, heq⟩
  · rw [heq]
    rfl
  · rw [heq]
    rfl

/-- C9, amended. Requested snapshot: after any call of `write_attribute`, each
value of the attribute either has `requested` equal to `current` (the values the
call put into its request) or has the `requested` it had before the call (the
values it skipped, or all of them when the call deferred). So when no value had
a `requested` before the call, every value whose `requested` is non-empty
afterwards satisfies `requested = current`. Every value put into a request
carries `requested = current`. -/
theorem write_attribute_requested_snapshot (env : Env) (g : Globals) (a : attribute_t)
    (ignore_delay : Bool) :
    List.Forall₂ (fun v v' => v'.requested = v'.current ∨ v'.requested = v.requested)
      a.values (write_attribute env g a ignore_delay).1.values ∧
    ((∀ v ∈ a.values, v.requested = none) →
      ∀ v' ∈ (write_attribute env g a ignore_delay).1.values,
        v'.requested ≠ none → v'.requested = v'.current) ∧
    (∀ (b : attribute_t) (w : String × attribute_value_t),
      w ∈ written_values env b → w.2.requested = w.2.current) := by
  have hnow : ∀ (g1 : Globals) (a1 : attribute_t), a1.values = a.values →
      List.Forall₂ (fun v v' => v'.requested = v'.current ∨ v'.requested = v.requested)
        a.values (write_attribute_now env g1 a1).1.values := by
    intro g1 a1 h1
    rw [write_attribute_now_values, h1, List.forall₂_map_right_iff]
    exact List.forall₂_same.mpr (fun v _ => write_value_snapshot env _ v)
  have h1 : List.Forall₂ (fun v v' => v'.requested = v'.current ∨ v'.requested = v.requested)
      a.values (write_attribute env g a ignore_delay).1.values := by
    rcases write_attribute_cases env g a ignore_delay with h | h | h | h
    · rw [h]
      exact List.forall₂_same.mpr (fun v _ => Or.inr rfl)
    · rw [h]
      exact hnow g a rfl
    · rw [h]
      exact hnow g _ rfl
    · rw [h]
      exact hnow _ _ rfl
  refine ⟨h1, ?_, ?_⟩
  · intro hnone
    generalize (write_attribute env g a ignore_delay).1.values = vs at h1
    generalize a.values = us at h1 hnone
    intro v' hv' hreq
    induction h1 with
    | nil => cases hv'
    | @cons v w rest rest' hvw _ ih =>
      rcases List.mem_cons.mp hv' with rfl | hmem
      · rcases hvw with hc | hc
        · exact hc
        · rw [hnone v (List.mem_cons_self _ _)] at hc
          exact absurd hc hreq
      · exact ih (fun u hu => hnone u (List.mem_cons_of_mem _ hu)) hmem
  · intro b w hw
    unfold written_values at hw
    rw [List.mem_filterMap] at hw
    obtain ⟨r, hr, hrw⟩ := hw
    obtain ⟨v, _, rfl⟩ := List.mem_map.mp hr
    split at hrw
    · rename_i uuid heq
      simp only [Option.some.injEq] at hrw
      rw [← hrw]
      exact write_value_written env b v uuid heq
    · cases hrw

/-- Counterexample for C9: in `st_stale` the write of `shoe-size` (call 2) is
in flight with `n1` requested as `40` while its value has moved on to `41`, and
call 3 has completed. The peer caches no longer know `n1`. `write_attribute`
considers call 2 lost, skips `n1`, writes `n2` and submits the request: `n1`
keeps `requested = 40` next to `current = 41`. -/
theorem write_attribute_skipped_value_keeps_requested :
    st_stale.g.cib_requests.length = 3 ∧
    (lookup_attribute st_stale.attributes "shoe-size").map
      (fun a =>
        ((write_attribute env_n1_gone st_stale.g a false).2.cib_requests.length,
         (write_attribute env_n1_gone st_stale.g a false).1.values.map
           (fun v => (v.nodename, v.current, v.requested))))
      = some (4, [("n2", some "9", some "9"), ("n1", some "41", some "40")]) := by
  decide

/-- C10. Timer/dampening invariant: in every reachable state every attribute
has a dampening that is not negative, and either has a timer exactly when its
dampening is positive, or has dampening 0 and the two-second timer that the
failure branch of `attrd_cib_callback` installs. -/
theorem timer_iff_dampening (st : State) (hr : Reachable st) :
    ∀ a ∈ st.attributes,
      0 ≤ a.timeout_ms ∧
      ((a.timer.isSome = true ↔ 0 < a.timeout_ms) ∨
       (a.timeout_ms = 0 ∧ ∃ t, a.timer = some t ∧ t.period_ms = 2000)) := by
  intro a ha
  obtain ⟨⟨t1, t2, t3⟩, _⟩ := reachable_inv hr a ha
  refine ⟨t1, ?_⟩
  by_cases hpos : 0 < a.timeout_ms
  · left
    obtain ⟨t, ht, _⟩ := t2 hpos
    simp [ht, hpos]
  · have hz : a.timeout_ms = 0 := by omega
    cases ht : a.timer with
    | none =>
      left
      simp [hpos]
    | some t =>
      right
      exact ⟨hz, t, rfl, t3 hz t ht⟩

/-- Witness for C10: the writer after an `UPDATE_BOTH` with one second of dampening. -/
theorem timer_iff_dampening_witness :
    st_dampened.attributes.map (fun a => (a.timeout_ms, a.timer.map (fun t => t.period_ms)))
      = [(1000, some 1000)] ∧
    ∀ a ∈ st_dampened.attributes,
      0 ≤ a.timeout_ms ∧
      ((a.timer.isSome = true ↔ 0 < a.timeout_ms) ∨
       (a.timeout_ms = 0 ∧ ∃ t, a.timer = some t ∧ t.period_ms = 2000)) :=
  ⟨by decide,
   timer_iff_dampening st_dampened
    (Reachable.step Reachable.init (Step.peer_update env_writer State.init
      { task := some ATTRD_OP_UPDATE_BOTH, attr := some "shoe-size", host := some "n1",
        value := some "alive", dampen := some "1" } (some "n1") false))⟩

/-! ## C11: failure backoff -/

theorem write_attribute_timer_none (env : Env) (g : Globals) (a : attribute_t)
    (ignore_delay : Bool) (h : a.timer = none) :
    (write_attribute env g a ignore_delay).1.timer = none := by
  have hf := (write_attribute_aframe env g a ignore_delay).2.2.2.2.2.2.1
  rw [h] at hf
  cases ht : (write_attribute env g a ignore_delay).1.timer with
  | none => rfl
  | some t => rw [ht] at hf; cases hf

theorem cib_callback_rc_ne_zero {call_id rc : Int} (h : rc ≠ 0 ∨ call_id < 0) :
    cib_callback_rc call_id rc ≠ 0 := by
  unfold cib_callback_rc
  split
  · rename_i hc
    omega
  · rename_i hc
    intro h0
    rcases h with h | h
    · exact h h0
    · exact hc ⟨h0, h⟩

/-- C11, amended. Failure backoff: when `attrd_cib_callback` reports a failed
write (a result other than OK, or a negative call id) for an attribute of the
table that has no dampening and no timer, on a daemon that has won the
election, and the attribute has a value or is marked as changed, then the
attribute gets a started timer of exactly 2000 ms, keeps dampening 0, is marked
as changed and has no write in flight. And whenever an attribute without
dampening gets a callback with result OK and a call id that is not negative,
it has no timer afterwards. -/
theorem failure_backoff (env : Env) (st : State) (call_id rc : Int) (name : String)
    (a : attribute_t) (hl : lookup_attribute st.attributes name = some a)
    (h0 : a.timeout_ms = 0) (ht : a.timer = none) (hrc : rc ≠ 0 ∨ call_id < 0)
    (hwon : env.election_won = true) (hv : a.changed = true ∨ a.values ≠ []) :
    (∃ a', lookup_attribute (attrd_cib_callback env st call_id rc name).attributes name
        = some a' ∧
      a'.timer = some { period_ms := 2000, running := true } ∧ a'.timeout_ms = 0 ∧
      a'.changed = true ∧ a'.update = 0) ∧
    ∀ (env2 : Env) (st2 : State) (a2 : attribute_t) (call_id2 : Int),
      lookup_attribute st2.attributes name = some a2 → a2.timeout_ms = 0 → 0 ≤ call_id2 →
      ∃ a'', lookup_attribute (attrd_cib_callback env2 st2 call_id2 0 name).attributes name
          = some a'' ∧ a''.timer = none := by
  constructor
  · have hne := cib_callback_rc_ne_zero hrc
    have hid := (lookup_attribute_some hl).2
    have hch : (cib_callback_done a (cib_callback_rc call_id rc)).changed = true := by
      simp only [cib_callback_done]
      rcases hv with hv | hv
      · simp [hv]
      · have : a.values.isEmpty = false := by
          cases hvs : a.values with
          | nil => exact absurd hvs hv
          | cons _ _ => rfl
        simp [hne, this]
    have hr : attrd_cib_callback_attr env st.g a call_id rc
        = ({ cib_callback_done a (cib_callback_rc call_id rc) with
              timer := some { period_ms := 2000, running := true } },
           { st.g with last_cib_op_done := st.g.last_cib_op_done }) := by
      simp only [attrd_cib_callback_attr, hch, hwon, hne, and_self, if_true, if_false]
      simp [cib_callback_done, ht, retry_timer, mainloop_timer_start, mainloop_timer_add]
    simp only [attrd_cib_callback, hl, hr]
    rw [lookup_attribute_update_attribute (by simp [cib_callback_done, hid]), if_pos rfl, hl]
    exact ⟨_, rfl, rfl, by simp [cib_callback_done, h0], hch, by simp [cib_callback_done]⟩
  · intro env2 st2 a2 call_id2 hl2 h2 hc2
    have hid := (lookup_attribute_some hl2).2
    have hrc0 : cib_callback_rc call_id2 0 = 0 := by
      unfold cib_callback_rc
      split
      · omega
      · rfl
    have hdone : (cib_callback_done a2 0).timer = none := by
      simp only [cib_callback_done]
      cases hta : a2.timer with
      | none => simp
      | some t => simp [h2]
    have hidr : (attrd_cib_callback_attr env2 st2.g a2 call_id2 0).1.id = name := by
      simp only [attrd_cib_callback_attr, hrc0]
      split
      · simp only [if_true]
        rw [(write_attribute_aframe env2 _ _ false).1]
        simpa [cib_callback_done] using hid
      · simpa [cib_callback_done] using hid
    have htr : (attrd_cib_callback_attr env2 st2.g a2 call_id2 0).1.timer = none := by
      simp only [attrd_cib_callback_attr, hrc0]
      split
      · simp only [if_true]
        exact write_attribute_timer_none env2 _ _ false hdone
      · exact hdone
    simp only [attrd_cib_callback, hl2]
    rw [lookup_attribute_update_attribute hidr]
    simp [hl2, htr]

/-- Witness for C11: the writer's write of `shoe-size[n2] = 42` fails with
-62; the retry (call 2) succeeds. -/
theorem failure_backoff_witness :
    (lookup_attribute (attrd_cib_callback env_writer st_in_flight 1 (-62) "shoe-size").attributes
        "shoe-size").map (fun a => a.timer) = some (some { period_ms := 2000, running := true }) ∧
    (lookup_attribute
        (attrd_cib_callback env_writer
          (attribute_timer_cb env_writer
            (attrd_cib_callback env_writer st_in_flight 1 (-62) "shoe-size") "shoe-size")
          2 0 "shoe-size").attributes
        "shoe-size").map (fun a => a.timer) = some none ∧
    ((∃ a', lookup_attribute (attrd_cib_callback env_writer st_in_flight 1 (-62)
          "shoe-size").attributes "shoe-size" = some a' ∧
      a'.timer = some { period_ms := 2000, running := true } ∧ a'.timeout_ms = 0 ∧
      a'.changed = true ∧ a'.update = 0) ∧
    ∀ (env2 : Env) (st2 : State) (a2 : attribute_t) (call_id2 : Int),
      lookup_attribute st2.attributes "shoe-size" = some a2 → a2.timeout_ms = 0 →
      0 ≤ call_id2 →
      ∃ a'', lookup_attribute (attrd_cib_callback env2 st2 call_id2 0 "shoe-size").attributes
          "shoe-size" = some a'' ∧ a''.timer = none) :=
  ⟨by decide, by decide,
   failure_backoff env_writer st_in_flight 1 (-62) "shoe-size"
    { uuid := none, id := "shoe-size", set := none,
      values := [{ nodeid := 2, is_remote := 0, nodename := "n2", current := some "42",
                   requested := some "42", seen := true }],
      update := 1, timeout_ms := 0, changed := false, unknown_peer_uuids := false,
      is_private := 0, timer := none, user := none, force_write := false }
    (by decide) rfl rfl (by decide) rfl (by decide)⟩

/-- Counterexample for C11. First: the writer's write of `shoe-size[n2] = 42`
is in flight when `n2` leaves the membership, so `shoe-size` has no value left
(and is not marked as changed); the write then fails with -62, and no timer is
installed. Second: after a failed write has installed the two-second timer, a
callback that reports OK with the negative call id -1 is taken as a failure and
leaves the timer installed. -/
theorem failure_backoff_without_values :
    env_writer.election_won = true ∧
    (lookup_attribute st_orphaned.attributes "shoe-size").map
        (fun a => (a.timeout_ms, a.timer, a.values, a.changed)) = some (0, none, [], false) ∧
    (lookup_attribute (attrd_cib_callback env_writer st_orphaned 1 (-62) "shoe-size").attributes
        "shoe-size").map (fun a => a.timer) = some none ∧
    (lookup_attribute
        (attrd_cib_callback env_writer
          (attrd_cib_callback env_writer st_in_flight 1 (-62) "shoe-size")
          (-1) 0 "shoe-size").attributes
        "shoe-size").map (fun a => a.timer) = some (some { period_ms := 2000, running := true }) := by
  decide

/-! ## C12: the mixed-update flag -/

theorem write_value_congr (env : Env) {a b : attribute_t} (hp : b.is_private = a.is_private)
    (v : attribute_value_t) : write_value env b v = write_value env a v := by
  unfold write_value
  rw [hp]

theorem written_values_congr (env : Env) {a b : attribute_t} (hv : b.values = a.values)
    (hp : b.is_private = a.is_private) : written_values env b = written_values env a := by
  unfold written_values
  rw [hv]
  congr 1
  exact List.map_congr_left (fun v _ => write_value_congr env hp v)

theorem write_attribute_now_mixed (env : Env) (g : Globals) (a : attribute_t) :
    ∃ l, (write_attribute_now env g a).2.cib_requests = g.cib_requests ++ l ∧ l.length ≤ 1 ∧
      ∀ r ∈ l,
        (r.flags.mixed_update = true ↔ ∃ w ∈ written_values env a, w.2.current = none) ∧
        (r.flags.mixed_update = true ↔ ∃ e ∈ r.data, e.delete_marker ≠ none) := by
  have hw : written_values env (clear_flags a) = written_values env a :=
    written_values_congr env rfl rfl
  rcases write_attribute_now_eq env g a with ⟨_, h⟩ | ⟨_, h⟩
  · exact ⟨[], by simp [h], by simp, fun r hr => by cases hr⟩
  · refine ⟨_, by rw [h], by simp, fun r hr => ?_⟩
    rw [List.mem_singleton] at hr
    subst hr
    rw [hw]
    simp only [write_request, List.any_eq_true, Option.isNone_iff_eq_none, List.mem_map]
    refine ⟨trivial, ⟨fun ⟨w, hw1, hw2⟩ => ⟨_, ⟨w, hw1, rfl⟩, ?_⟩, fun ⟨e, ⟨w, hw1, he⟩, hd⟩ =>
      ⟨w, hw1, ?_⟩⟩⟩
    · simp [build_update_element, hw2]
    · subst he
      cases hc : w.2.current with
      | none => rfl
      | some c => simp [build_update_element, hc] at hd

/-- C12. Mixed-update flag: a call of `write_attribute` submits at most one CDB
request, and the call options of that request include the mixed-update flag
exactly when one of the values put into the request has no current value, which
is exactly when one of the request's elements carries the delete marker. -/
theorem write_attribute_mixed_update (env : Env) (g : Globals) (a : attribute_t)
    (ignore_delay : Bool) :
    ∃ l, (write_attribute env g a ignore_delay).2.cib_requests = g.cib_requests ++ l ∧
      l.length ≤ 1 ∧
      ∀ r ∈ l,
        (r.flags.mixed_update = true ↔ ∃ w ∈ written_values env a, w.2.current = none) ∧
        (r.flags.mixed_update = true ↔ ∃ e ∈ r.data, e.delete_marker ≠ none) := by
  rcases write_attribute_cases env g a ignore_delay with h | h | h | h
  · exact ⟨[], by simp [h], by simp, fun r hr => by cases hr⟩
  · rw [h]
    exact write_attribute_now_mixed env g a
  · rw [h]
    have hw : written_values env { a with timer := mainloop_timer_stop a.timer }
        = written_values env a := written_values_congr env rfl rfl
    rw [← hw]
    exact write_attribute_now_mixed env g _
  · rw [h]
    have hw : written_values env { a with update := 0 } = written_values env a :=
      written_values_congr env rfl rfl
    rw [← hw]
    exact write_attribute_now_mixed env _ _

/-! ## C13: the CDB payload -/

/-- Counterexample to C13 as stated: with an id helper that stores `.` for `#`,
the element for the attribute `fail-count-web#start_0` (no set, no own id) of
the peer with durable id `1` has the NVPAIR id
`status-1-fail-count-web.start_0`, which is not the id of the set, `-` and the
attribute's name. -/
theorem build_update_element_id_not_literal :
    (build_update_element env_dotted_ids { attr_fresh with id := "fail-count-web#start_0" } "1"
        (some "1")).attr_set_id = "status-1" ∧
    (build_update_element env_dotted_ids { attr_fresh with id := "fail-count-web#start_0" } "1"
        (some "1")).nvpair_id = "status-1-fail-count-web.start_0" ∧
    (build_update_element env_dotted_ids { attr_fresh with id := "fail-count-web#start_0" } "1"
        (some "1")).nvpair_id ≠ "status-1" ++ "-" ++ "fail-count-web#start_0" := by
  decide

/-- C13, amended. CDB payload shape: for an attribute `a`, a peer's durable id
`u` and a value `c`, the element `build_update_element` appends has `u` as the
id of NODE_STATE and of TRANSIENT_NODEATTRS; the id of ATTR_SET is the one
`crm_xml_set_id` stores for `a.set` if that is set, else for `"status-" ++ u`,
and it is that text itself when the helper stores the text as it is; the id of
NVPAIR is the one `crm_xml_set_id` stores for `a.uuid` if that is set, else for
the id of the set, `"-"` and `a.id`, and again that text itself when the helper
stores it as it is; the name of NVPAIR is `a.id`; its value is `c` if present
(and there is no delete marker), else the empty string with a `__delete__`
marker that names the value field. -/
theorem build_update_element_shape (env : Env) (a : attribute_t) (u : String)
    (c : Option String) :
    (build_update_element env a u c).node_state_id = u ∧
    (build_update_element env a u c).transient_attrs_id = u ∧
    (build_update_element env a u c).attr_set_id
      = env.crm_xml_sanitize_id (a.set.getD ("status-" ++ u)) ∧
    (build_update_element env a u c).nvpair_id
      = env.crm_xml_sanitize_id
          (a.uuid.getD ((build_update_element env a u c).attr_set_id ++ "-" ++ a.id)) ∧
    (env.crm_xml_sanitize_id (a.set.getD ("status-" ++ u)) = a.set.getD ("status-" ++ u) →
      (build_update_element env a u c).attr_set_id = a.set.getD ("status-" ++ u)) ∧
    (env.crm_xml_sanitize_id
        (a.uuid.getD ((build_update_element env a u c).attr_set_id ++ "-" ++ a.id))
      = a.uuid.getD ((build_update_element env a u c).attr_set_id ++ "-" ++ a.id) →
      (build_update_element env a u c).nvpair_id
        = a.uuid.getD ((build_update_element env a u c).attr_set_id ++ "-" ++ a.id)) ∧
    (build_update_element env a u c).nvpair_name = a.id ∧
    (∀ x, c = some x → (build_update_element env a u c).nvpair_value = x ∧
      (build_update_element env a u c).delete_marker = none) ∧
    (c = none → (build_update_element env a u c).nvpair_value = "" ∧
      (build_update_element env a u c).delete_marker = some "value") := by
  have hset : (build_update_element env a u c).attr_set_id
      = env.crm_xml_sanitize_id (a.set.getD ("status-" ++ u)) := by
    cases hs : a.set <;> simp [build_update_element, hs, XML_CIB_TAG_STATUS]
  have hid : (build_update_element env a u c).nvpair_id
      = env.crm_xml_sanitize_id
          (a.uuid.getD ((build_update_element env a u c).attr_set_id ++ "-" ++ a.id)) := by
    cases hs : a.uuid <;> simp [build_update_element, hs]
  refine ⟨rfl, rfl, hset, hid, ?_, ?_, rfl, ?_, ?_⟩
  · intro h
    rw [hset, h]
  · intro h
    rw [hid, h]
  · intro x hx
    subst hx
    exact ⟨rfl, rfl⟩
  · intro hc
    subst hc
    exact ⟨rfl, rfl⟩

/-- Witness for C13: with an id helper that stores the text as it is, the
element for `shoe-size` (no set, no own id) of the peer with durable id `1` has
the ATTR_SET id `status-1` and the NVPAIR id `status-1-shoe-size`. -/
theorem build_update_element_shape_witness :
    (build_update_element env_writer attr_fresh "1" (some "42")).attr_set_id = "status-1" ∧
    (build_update_element env_writer attr_fresh "1" (some "42")).nvpair_id
      = "status-1-shoe-size" :=
  ⟨(build_update_element_shape env_writer attr_fresh "1" (some "42")).2.2.2.2.1 (by decide),
   (build_update_element_shape env_writer attr_fresh "1" (some "42")).2.2.2.2.2.1 (by decide)⟩

/-! ## C14: invalid dampening -/

theorem replace_attribute_of_lookup_none {attrs : List attribute_t} {a : attribute_t}
    (h : lookup_attribute attrs a.id = none) : replace_attribute attrs a = attrs ++ [a] := by
  unfold replace_attribute
  congr 1
  rw [List.filter_eq_self]
  intro b hb
  unfold lookup_attribute at h
  rw [List.find?_eq_none] at h
  simpa using h b hb

theorem safe_str_eq_task_distinct {op : Option String} {s t : String}
    (hs : safe_str_eq op (some s) = true) (hst : strcase_eq s t = false) :
    safe_str_eq op (some t) = false := by
  cases op with
  | none => rfl
  | some o =>
    simp only [safe_str_eq] at hs ⊢
    rw [strcase_eq_congr_left hs t]
    exact hst

theorem create_attribute_invalid_dampening (env : Env) (attrs : List attribute_t)
    (xml : xmlNode) (id : String)
    (hd : xml.dampen = none ∨ ∃ d, xml.dampen = some d ∧ env.crm_get_msec d < 0) :
    (create_attribute env attrs xml id).1 = attribute_without_dampening env xml id := by
  rcases hd with hd | ⟨d, hd, hneg⟩
  · simp [create_attribute, attribute_without_dampening, hd]
  · have h1 : ¬ env.crm_get_msec d > 0 := by omega
    simp [create_attribute, attribute_without_dampening, hd, h1]

/-- C14, amended. Invalid dampening: `attrd_peer_update` drops an `UPDATE_BOTH`
or `UPDATE_DELAY` message whose dampening is missing or parses to a negative
value; nothing is sent or written. The attribute table is unchanged when the
message is an `UPDATE_DELAY`, names no attribute or names an attribute of the
table. An `UPDATE_BOTH` that names an attribute the table does not hold has
created that attribute by then, and the attribute stays: it has no value, no
dampening and no timer, and no other attribute is modified. -/
theorem invalid_dampening_dropped (env : Env) (st : State) (xml : xmlNode)
    (host : Option String) (filter : Bool)
    (hop : safe_str_eq xml.task (some ATTRD_OP_UPDATE_BOTH) = true ∨
      safe_str_eq xml.task (some ATTRD_OP_UPDATE_DELAY) = true)
    (hd : xml.dampen = none ∨ ∃ d, xml.dampen = some d ∧ env.crm_get_msec d < 0) :
    attrd_peer_update env st xml host filter =
      match xml.attr with
      | none => st
      | some x =>
        if safe_str_eq xml.task (some ATTRD_OP_UPDATE_BOTH) = true ∧
            lookup_attribute st.attributes x = none then
          { st with attributes := st.attributes ++ [attribute_without_dampening env xml x] }
        else st := by
  have hbegin : attrd_peer_update_begin env st xml =
      ((match xml.attr with
        | none => st
        | some x =>
          if safe_str_eq xml.task (some ATTRD_OP_UPDATE_BOTH) = true ∧
              lookup_attribute st.attributes x = none then
            { st with attributes := st.attributes ++ [attribute_without_dampening env xml x] }
          else st), none) := by
    unfold attrd_peer_update_begin
    cases hx : xml.attr with
    | none => rfl
    | some x =>
      have hsome : xml.task.isNone = false := by
        cases ht : xml.task with
        | none => rw [ht] at hop; simp [safe_str_eq] at hop
        | some _ => rfl
      simp only [hsome, Bool.false_or]
      by_cases hboth : safe_str_eq xml.task (some ATTRD_OP_UPDATE_BOTH) = true
      · -- the attribute is looked up or created, then the dampening is rejected
        have hst1 : lookup_or_create_attribute env st xml x =
            if lookup_attribute st.attributes x = none then
              { st with attributes := st.attributes ++ [attribute_without_dampening env xml x] }
            else st := by
          unfold lookup_or_create_attribute
          cases hl : lookup_attribute st.attributes x with
          | none =>
            have h1 := create_attribute_invalid_dampening env st.attributes xml x hd
            have h2 : (create_attribute env st.attributes xml x).2
                = replace_attribute st.attributes (create_attribute env st.attributes xml x).1 :=
              rfl
            rw [h1] at h2
            rw [replace_attribute_of_lookup_none (by simpa [attribute_without_dampening] using hl)]
              at h2
            simp [h2]
          | some a => simp
        simp only [hboth, hst1, true_or, not_true_eq_false, and_false, if_false, true_and, if_true]
        rcases hd with hd | ⟨d, hd, hneg⟩
        · simp [hd]
        · simp [hd, hneg]
      · have hdelay : safe_str_eq xml.task (some ATTRD_OP_UPDATE_DELAY) = true := by
          rcases hop with h | h
          · exact absurd h hboth
          · exact h
        have hupd : safe_str_eq xml.task (some ATTRD_OP_UPDATE) = false :=
          safe_str_eq_task_distinct hdelay (by decide)
        have hboth' : safe_str_eq xml.task (some ATTRD_OP_UPDATE_BOTH) = false := by
          simpa using hboth
        simp only [hboth', hupd, hdelay, Bool.false_eq_true, or_self, not_false_eq_true,
          and_true, false_and, if_false, or_true, if_true, false_or]
        cases hl : lookup_attribute st.attributes x with
        | none => simp
        | some a =>
          have hst1 : lookup_or_create_attribute env st xml x = st := by
            simp [lookup_or_create_attribute, hl]
          rw [hst1]
          rcases hd with hd | ⟨d, hd, hneg⟩
          · simp [hd]
          · simp [hd, hneg]
  cases host with
  | some h => simp only [attrd_peer_update, attrd_peer_update_host, hbegin]
  | none => simp only [attrd_peer_update, hbegin]

/-- Witness for C14: an `UPDATE_DELAY` with a dampening that does not parse
leaves the writer's state as it was, and an `UPDATE_BOTH` without dampening for
an attribute that exists does so too. -/
theorem invalid_dampening_dropped_witness :
    env_writer.crm_get_msec "soon" < 0 ∧
    attrd_peer_update env_writer st_in_flight update_delay_invalid none false = st_in_flight :=
  ⟨by decide,
   invalid_dampening_dropped env_writer st_in_flight update_delay_invalid none false
    (Or.inr (by decide)) (Or.inr ⟨"soon", rfl, by decide⟩)⟩

/-- Counterexample for C14: an `UPDATE_BOTH` without dampening for `shoe-size`
reaches a daemon whose table is empty; the message is dropped, but the table
holds the attribute `shoe-size` afterwards (without values). -/
theorem invalid_dampening_leaves_attribute :
    update_both_no_delay.task = some ATTRD_OP_UPDATE_BOTH ∧
    update_both_no_delay.dampen = none ∧
    State.init.attributes = [] ∧
    (attrd_peer_update env_writer State.init update_both_no_delay (some "n1") false).attributes
      = [{ uuid := none, id := "shoe-size", set := none, values := [], update := 0,
           timeout_ms := 0, changed := false, unknown_peer_uuids := false, is_private := 0,
           timer := none, user := none, force_write := false }] := by
  decide

/-! ## C15: clear-failure requests -/

theorem attrd_client_update_attributes (env : Env) (st : State) (xml : xmlNode) :
    (attrd_client_update env st xml).attributes = st.attributes := by
  unfold attrd_client_update
  split
  · split
    · split <;> rfl
    · rfl
  · rfl

/-- C15. Clear-failure pattern selection: `attrd_client_clear_failure` hands
`attrd_client_update` the request with the task `UPDATE`, without attribute
name and value, its other fields as the client sent them, and with the regex
`ATTRD_RE_CLEAR_ALL` when the request names no resource, `ATTRD_RE_CLEAR_ONE`
formatted with the resource when it names a resource and no operation, and
`ATTRD_RE_CLEAR_OP` formatted with resource, operation and the parsed interval
when it names both; the attribute table is not modified. -/
theorem clear_failure_pattern (env : Env) (st : State) (xml : xmlNode) :
    attrd_client_clear_failure env st xml
      = attrd_client_update env st (clear_failure_request env xml) ∧
    clear_failure_request env xml
      = { xml with task := some ATTRD_OP_UPDATE, attr := none, value := none,
                   regex := (clear_failure_request env xml).regex } ∧
    (xml.resource = none →
      (clear_failure_request env xml).regex = some env.ATTRD_RE_CLEAR_ALL) ∧
    (∀ rsc, xml.resource = some rsc → xml.operation = none →
      (clear_failure_request env xml).regex = some (env.ATTRD_RE_CLEAR_ONE rsc)) ∧
    (∀ rsc op, xml.resource = some rsc → xml.operation = some op →
      (clear_failure_request env xml).regex
        = some (env.ATTRD_RE_CLEAR_OP rsc op (env.crm_parse_interval_spec xml.interval))) ∧
    (attrd_client_clear_failure env st xml).attributes = st.attributes := by
  refine ⟨rfl, rfl, ?_, ?_, ?_, attrd_client_update_attributes env st _⟩
  · intro h
    simp [clear_failure_request, h]
  · intro rsc h1 h2
    simp [clear_failure_request, h1, h2]
  · intro rsc op h1 h2
    simp [clear_failure_request, h1, h2]


/-! ## C16: updates by regex -/

theorem foldl_send_matches (env : Env) (xml : xmlNode) (m : String → Bool)
    (names : List String) (g : Globals) :
    names.foldl
        (fun g attr =>
          if m attr then send_attrd_message env g none { xml with attr := some attr } []
          else g) g
      = { g with sent := g.sent ++
            (names.filter m).map (fun name => broadcast env { xml with attr := some name }) } := by
  induction names generalizing g with
  | nil => simp
  | cons n rest ih =>
    rw [List.foldl_cons, ih]
    cases hm : m n
    · simp [hm]
    · simp [hm, send_attrd_message, broadcast]

/-- C16. Regex update fan-out: for a client update with a regex and no
attribute name, `attrd_client_update` leaves the attribute table as it is and,
when the regex compiles, sends one broadcast for each attribute name of the
table that the regex matches, in table order, each being the request with that
name as its attribute name, and nothing else; when the regex does not compile
it sends nothing. -/
theorem regex_update_fan_out (env : Env) (st : State) (xml : xmlNode) (re : String)
    (hattr : xml.attr = none) (hre : xml.regex = some re) :
    (attrd_client_update env st xml).attributes = st.attributes ∧
    (attrd_client_update env st xml).g
      = { st.g with sent := st.g.sent ++
            match env.regcomp re with
            | none => []
            | some m =>
              ((st.attributes.map (fun a => a.id)).filter m).map
                (fun name => broadcast env { xml with attr := some name }) } := by
  refine ⟨attrd_client_update_attributes env st xml, ?_⟩
  unfold attrd_client_update
  split
  · split
    · rename_i re' hre'
      rw [hre] at hre'
      cases hre'
      split
      · rename_i hc
        simp [hc]
      · rename_i m hc
        simp only [foldl_send_matches, hc]
    · rename_i hnone
      rw [hre] at hnone
      cases hnone
  · rename_i x hx
    rw [hattr] at hx
    cases hx

/-- Witness for C16: of the three failure attributes, the two of resource `web`
match `^fail-count-web` and are broadcast. -/
theorem regex_update_fan_out_witness :
    st_failures.attributes.map (fun a => a.id)
      = ["fail-count-web#start_0", "fail-count-db#start_0", "fail-count-web#monitor_10000"] ∧
    (attrd_client_update env_peer st_failures update_by_regex).g.sent.map
        (fun m => (m.node, m.data.attr, m.data.value))
      = [(none, some "fail-count-web#start_0", none),
         (none, some "fail-count-web#monitor_10000", none)] ∧
    ((attrd_client_update env_peer st_failures update_by_regex).attributes
        = st_failures.attributes ∧
     (attrd_client_update env_peer st_failures update_by_regex).g
      = { st_failures.g with sent := st_failures.g.sent ++
            match env_peer.regcomp "^fail-count-web" with
            | none => []
            | some m =>
              ((st_failures.attributes.map (fun a => a.id)).filter m).map
                (fun name => broadcast env_peer { update_by_regex with attr := some name }) }) :=
  ⟨by decide, by decide,
   regex_update_fan_out env_peer st_failures update_by_regex "^fail-count-web" rfl rfl⟩

/-! ## C17: query replies -/

/-- C17. Query reply shape: `build_query_reply(attr, host)` only reads the
table. Its reply carries the daemon's message tag and protocol version. When
the table has no attribute `attr`, the reply names no attribute and has no
node record. When it has one, the reply names `attr` and has, if a host is
given, exactly one node record, with that host (the local node name in place
of "localhost") and the current value of the host's entry (none if there is no
entry), and, if no host is given, one node record with node name and current
value for each entry of the attribute's values, in their order. -/
theorem build_query_reply_shape (env : Env) (attrs : List attribute_t) (attr : String)
    (host : Option String) :
    (build_query_reply env attrs attr host).f_type = some T_ATTRD ∧
    (build_query_reply env attrs attr host).version = some ATTRD_PROTOCOL_VERSION ∧
    (lookup_attribute attrs attr = none →
      (build_query_reply env attrs attr host).attr = none ∧
      (build_query_reply env attrs attr host).nodes = []) ∧
    (∀ a, lookup_attribute attrs attr = some a →
      (build_query_reply env attrs attr host).attr = some attr ∧
      (∀ h, host = some h →
        (build_query_reply env attrs attr host).nodes =
          [{ host := some (if strcase_eq h "localhost" then env.uname else h),
             value := (lookup_value a.values
                        (if strcase_eq h "localhost" then env.uname else h)).bind
                      (fun v => v.current) }]) ∧
      (host = none →
        (build_query_reply env attrs attr host).nodes =
          a.values.map (fun v => { host := some v.nodename, value := v.current }))) := by
  refine ⟨?_, ?_, ?_, ?_⟩
  · unfold build_query_reply
    split <;> rfl
  · unfold build_query_reply
    split <;> rfl
  · intro hl
    simp [build_query_reply, hl]
  · intro a hl
    refine ⟨by simp [build_query_reply, hl], ?_, ?_⟩
    · intro h hh
      subst hh
      simp only [build_query_reply, hl, safe_str_eq]
      by_cases hloc : strcase_eq h "localhost" = true
      · simp only [hloc, if_true]
        cases lookup_value a.values env.uname <;> rfl
      · simp only [hloc, if_false]
        simp only [Bool.false_eq_true, if_false]
        cases lookup_value a.values h <;> rfl
    · intro hh
      subst hh
      simp [build_query_reply, hl, safe_str_eq]

/-! ## C19: eviction twice -/

theorem remove_value_idem (values : List attribute_value_t) (p : String) :
    remove_value (remove_value values p) p = remove_value values p := by
  simp [remove_value, List.filter_filter]

/-- C19. `PEER_REMOVE` is idempotent: applying `attrd_peer_remove` for a host
a second time, with whatever flags, leaves the attribute table as the first
application left it; a call that purges the peer caches does that again. -/
theorem attrd_peer_remove_idempotent (st : State) (host : Option String)
    (uncache uncache2 : Bool) (source source2 : Option String) :
    (attrd_peer_remove (attrd_peer_remove st host uncache source) host uncache2
        source2).attributes
      = (attrd_peer_remove st host uncache source).attributes := by
  cases host with
  | none => rfl
  | some p =>
    simp only [attrd_peer_remove, List.map_map]
    apply List.map_congr_left
    intro a _
    simp [remove_value_idem]

/-! ## C20: the value change -/

theorem lookup_or_create_value_other (values : List attribute_value_t) (h q : String)
    (xml : xmlNode) (hq : strcase_eq q h = false) :
    lookup_value (attrd_lookup_or_create_value values h xml).2.1 q = lookup_value values q := by
  unfold attrd_lookup_or_create_value
  cases hl : lookup_value values h with
  | some v => rfl
  | none =>
    simp only
    rw [lookup_value_append_singleton]
    cases lookup_value values q with
    | some w => rfl
    | none =>
      have : strcase_eq h q = false := by rw [strcase_eq_comm]; exact hq
      simp [this]

/-! ## C18: snapshot replay -/

theorem forall₂_append_singleton_left {α β : Type} {R : α → β → Prop} {l : List α} {x : α}
    {l' : List β} (h : List.Forall₂ R (l ++ [x]) l') :
    ∃ l1 x', l' = l1 ++ [x'] ∧ List.Forall₂ R l l1 ∧ R x x' := by
  induction l generalizing l' with
  | nil =>
    cases h with
    | cons hx hnil =>
      cases hnil
      exact ⟨[], _, rfl, List.Forall₂.nil, hx⟩
  | cons a rest ih =>
    cases h with
    | cons ha hrest =>
      obtain ⟨l1, x', rfl, h1, h2⟩ := ih hrest
      exact ⟨_ :: l1, x', rfl, List.Forall₂.cons ha h1, h2⟩

theorem value_summary_of_vframe {l l' : List attribute_value_t}
    (h : List.Forall₂ vframe l l') :
    l'.map (fun v => (v.nodename, v.current)) = l.map (fun v => (v.nodename, v.current)) := by
  induction h with
  | nil => rfl
  | cons hab _ ih =>
    simp only [List.map_cons, ih]
    rw [hab.1, hab.2.1]

theorem table_summary_of_aframe {l l' : List attribute_t} (h : List.Forall₂ aframe l l') :
    table_summary l' = table_summary l := by
  induction h with
  | nil => rfl
  | cons hab _ ih =>
    unfold table_summary at ih ⊢
    simp only [List.map_cons, ih]
    rw [hab.1, value_summary_of_vframe hab.2.2.2.2.2.2.2]

theorem ids_of_aframe {l l' : List attribute_t} (h : List.Forall₂ aframe l l') :
    l'.map (fun a => a.id) = l.map (fun a => a.id) := by
  induction h with
  | nil => rfl
  | cons hab _ ih =>
    simp only [List.map_cons, ih]
    rw [hab.1]

theorem lookup_attribute_append_last {pre : List attribute_t} {b : attribute_t} {x : String}
    (hpre : ∀ c ∈ pre, c.id ≠ x) (hb : b.id = x) :
    lookup_attribute (pre ++ [b]) x = some b := by
  induction pre with
  | nil => simp [lookup_attribute, hb]
  | cons c rest ih =>
    have hc : c.id ≠ x := hpre c (List.mem_cons_self _ _)
    have := ih (fun d hd => hpre d (List.mem_cons_of_mem _ hd))
    simp only [lookup_attribute, List.cons_append, List.find?_cons] at this ⊢
    have hc' : (c.id == x) = false := by simpa using hc
    rw [hc']
    exact this

theorem update_attribute_append_last (f : attribute_t → attribute_t) {pre : List attribute_t}
    {b : attribute_t} {x : String} (hpre : ∀ c ∈ pre, c.id ≠ x) (hb : b.id = x) :
    update_attribute f x (pre ++ [b]) = pre ++ [f b] := by
  induction pre with
  | nil => simp [update_attribute, hb]
  | cons c rest ih =>
    have hc : c.id ≠ x := hpre c (List.mem_cons_self _ _)
    simp [update_attribute, hc, ih (fun d hd => hpre d (List.mem_cons_of_mem _ hd))]

theorem lookup_value_eq_none_iff (l : List attribute_value_t) (q : String) :
    lookup_value l q = none ↔ ∀ n ∈ l.map (fun v => v.nodename), strcase_eq n q = false := by
  unfold lookup_value
  rw [List.find?_eq_none]
  simp

theorem update_value_summary (f : attribute_value_t → attribute_value_t) (h : String)
    (l : List attribute_value_t)
    (hf : ∀ v, ((f v).nodename, (f v).current) = (v.nodename, v.current)) :
    (update_value f h l).map (fun v => (v.nodename, v.current))
      = l.map (fun v => (v.nodename, v.current)) := by
  induction l with
  | nil => rfl
  | cons v rest ih =>
    unfold update_value
    split
    · simp [hf v]
    · simp [ih]

theorem update_value_append_last (f : attribute_value_t → attribute_value_t) {h : String}
    {l : List attribute_value_t} {v : attribute_value_t}
    (hl : lookup_value l h = none) (hv : strcase_eq v.nodename h = true) :
    update_value f h (l ++ [v]) = l ++ [f v] := by
  induction l with
  | nil => simp [update_value, hv]
  | cons w rest ih =>
    rw [lookup_value_eq_none_iff] at hl
    have hw : strcase_eq w.nodename h = false := hl _ (by simp)
    have hrest : lookup_value rest h = none := by
      rw [lookup_value_eq_none_iff]
      intro n hn
      exact hl n (by simp at hn ⊢; exact Or.inr hn)
    simp [update_value, hw, ih hrest]

theorem forall₂_aframe_refl (l : List attribute_t) : List.Forall₂ aframe l l := by
  induction l with
  | nil => exact List.Forall₂.nil
  | cons a rest ih => exact List.Forall₂.cons (aframe_refl a) ih

theorem forall₂_aframe_trans {l1 l2 l3 : List attribute_t}
    (h1 : List.Forall₂ aframe l1 l2) (h2 : List.Forall₂ aframe l2 l3) :
    List.Forall₂ aframe l1 l3 := by
  induction h1 generalizing l3 with
  | nil => cases h2; exact List.Forall₂.nil
  | cons hab _ ih =>
    cases h2 with
    | cons hbc hrest => exact List.Forall₂.cons (aframe_trans hab hbc) (ih hrest)

theorem extends_by_of_aframe {b y y' : attribute_t} {h : String} {c : Option String}
    (hy : extends_by b h c y) (hf : aframe y y') : extends_by b h c y' :=
  ⟨hf.1.trans hy.1, hf.2.2.2.2.2.1.trans hy.2.1,
    (value_summary_of_vframe hf.2.2.2.2.2.2.2).trans hy.2.2⟩

theorem attrd_lookup_or_create_value_new (values : List attribute_value_t) (host : String)
    (xml : xmlNode) (h : lookup_value values host = none) :
    attrd_lookup_or_create_value values host xml
      = ({ nodeid := 0, is_remote := xml.is_remote.getD 0, nodename := host,
           current := none, requested := none, seen := false },
         values ++ [{ nodeid := 0, is_remote := xml.is_remote.getD 0, nodename := host,
                      current := none, requested := none, seen := false }],
         if xml.is_remote.getD 0 ≠ 0 then [peer_cache_op.remote_peer_get host] else []) := by
  unfold attrd_lookup_or_create_value
  simp [h]

theorem update_one_value_new_host (env : Env) (g : Globals) (b : attribute_t)
    (v0 : attribute_value_t) (xml : xmlNode) (x h : String) (filter : Bool)
    (hv0 : v0.nodename = h) (hc0 : v0.current = none)
    (hnew : lookup_value b.values h = none)
    (hveto : filter = false ∨ safe_str_eq (some h) (some env.uname) = false) :
    extends_by b h xml.value
      (update_one_value env g { b with values := b.values ++ [v0] } v0 xml x h filter).1 := by
  have hnv : ¬ (filter = true ∧ safe_str_neq v0.current xml.value = true ∧
      safe_str_eq (some h) (some env.uname) = true) := by
    rintro ⟨h1, _, h3⟩
    rcases hveto with hv | hv
    · rw [hv] at h1; cases h1
    · rw [hv] at h3; cases h3
  have hrefl : strcase_eq v0.nodename h = true := by rw [hv0]; exact strcase_eq_refl h
  unfold update_one_value
  simp only []
  rw [if_neg hnv]
  by_cases hne : safe_str_neq v0.current xml.value = true
  · rw [if_pos hne]
    have ha2 : extends_by b h xml.value
        { b with
          values := update_value (fun w => { w with current := xml.value }) h (b.values ++ [v0]),
          changed := true } := by
      refine ⟨rfl, rfl, ?_⟩
      simp only
      rw [update_value_append_last _ hnew hrefl]
      simp [hv0]
    split
    · exact ⟨ha2.1, ha2.2.1, ha2.2.2⟩
    · exact extends_by_of_aframe ha2 (write_or_elect_attribute_aframe env g _)
  · rw [if_neg hne]
    have hval : xml.value = none := by
      rw [hc0] at hne
      cases hx : xml.value with
      | none => rfl
      | some _ => rw [hx] at hne; simp [safe_str_neq] at hne
    have ha : extends_by b h xml.value { b with values := b.values ++ [v0] } := by
      refine ⟨rfl, rfl, ?_⟩
      simp [hv0, hc0, hval]
    split
    · exact ⟨ha.1, ha.2.1, ha.2.2⟩
    · exact ha

theorem extends_by_update_value {b y : attribute_t} {h : String} {c : Option String}
    (f : attribute_value_t → attribute_value_t)
    (hf : ∀ v, ((f v).nodename, (f v).current) = (v.nodename, v.current)) (q : String)
    (hy : extends_by b h c y) :
    extends_by b h c { y with values := update_value f q y.values } := by
  refine ⟨hy.1, hy.2.1, ?_⟩
  simp only
  rw [update_value_summary f q y.values hf]
  exact hy.2.2

theorem write_attributes_append_last (env : Env) (g : Globals) (all ignore_delay : Bool)
    (pre : List attribute_t) (a : attribute_t) :
    ∃ pre' b',
      (write_attributes env { attributes := pre ++ [a], g := g } all ignore_delay).attributes
        = pre' ++ [b'] ∧
      List.Forall₂ aframe pre pre' ∧ aframe a b' := by
  have hf := write_attributes_loop_aframe env all ignore_delay (pre ++ [a]) g
  obtain ⟨pre', b', heq, h1, h2⟩ := forall₂_append_singleton_left hf
  exact ⟨pre', b', heq, h1, h2⟩

theorem learn_node_id_append_last (env : Env) (s : State) (g : Globals) (b y : attribute_t)
    (xml : xmlNode) (x h : String) (c : Option String) (pre : List attribute_t)
    (b0 : attribute_t) (hs : s.attributes = pre ++ [b0]) (hb0 : b0.id = x)
    (hpre : ∀ d ∈ pre, d.id ≠ x) (hy : extends_by b h c y) :
    ∃ pre' b', (learn_node_id env s g y xml x h).attributes = pre' ++ [b'] ∧
      List.Forall₂ aframe pre pre' ∧ extends_by b h c b' := by
  unfold learn_node_id
  simp only [hs]
  split
  · exact ⟨pre, y, by simp [update_attribute_append_last _ hpre hb0],
      forall₂_aframe_refl pre, hy⟩
  · rename_i id _
    have hy4 := extends_by_update_value
      (fun w => { w with nodeid := (id % 4294967296).toNat }) (fun _ => rfl) h hy
    rw [update_attribute_append_last _ hpre hb0]
    split
    · obtain ⟨pre', b', heq, h1, h2⟩ :=
        write_attributes_append_last env _ false false pre _
      exact ⟨pre', b', heq, h1, extends_by_of_aframe hy4 h2⟩
    · exact ⟨pre, _, rfl, forall₂_aframe_refl pre, hy4⟩

theorem attrd_peer_update_value_new_host (env : Env) (s : State) (xml : xmlNode)
    (x h : String) (filter : Bool) (pre : List attribute_t) (b : attribute_t)
    (hs : s.attributes = pre ++ [b]) (hb : b.id = x) (hpre : ∀ d ∈ pre, d.id ≠ x)
    (hnew : lookup_value b.values h = none)
    (hveto : filter = false ∨ safe_str_eq (some h) (some env.uname) = false) :
    ∃ pre' b', (attrd_peer_update_value env s xml x h filter).attributes = pre' ++ [b'] ∧
      List.Forall₂ aframe pre pre' ∧ extends_by b h xml.value b' := by
  have hl : lookup_attribute s.attributes x = some b := by
    rw [hs]
    exact lookup_attribute_append_last hpre hb
  unfold attrd_peer_update_value
  simp only [hl, attrd_lookup_or_create_value_new b.values h xml hnew]
  have hr := update_one_value_new_host env
    { s.g with peer_cache_ops := s.g.peer_cache_ops ++
        if xml.is_remote.getD 0 ≠ 0 then [peer_cache_op.remote_peer_get h] else [] }
    b { nodeid := 0, is_remote := xml.is_remote.getD 0, nodename := h,
        current := none, requested := none, seen := false }
    xml x h filter rfl rfl hnew hveto
  generalize update_one_value env _ _ _ xml x h filter = r at hr ⊢
  have hseen := extends_by_update_value
    (fun w => { w with seen := true }) (fun _ => rfl) h hr
  exact learn_node_id_append_last env s r.2 b _ xml x h xml.value pre b hs hb hpre hseen

theorem attrd_peer_update_begin_create (env : Env) (s : State) (xml : xmlNode) (x d : String)
    (htask : xml.task = none) (hattr : xml.attr = some x) (hdamp : xml.dampen = some d)
    (hd : 0 ≤ env.crm_get_msec d) (hl : lookup_attribute s.attributes x = none) :
    ∃ nb, attrd_peer_update_begin env s xml
        = ({ s with attributes := s.attributes ++ [nb] }, some x) ∧
      nb.id = x ∧ nb.values = [] ∧ nb.timeout_ms = env.crm_get_msec d := by
  have hid : (create_attribute env s.attributes xml x).1.id = x := rfl
  have hvals : (create_attribute env s.attributes xml x).1.values = [] := rfl
  have htm : (create_attribute env s.attributes xml x).1.timeout_ms = env.crm_get_msec d := by
    simp only [create_attribute, hdamp]
    split
    · rfl
    · omega
  have h2 : (create_attribute env s.attributes xml x).2
      = s.attributes ++ [(create_attribute env s.attributes xml x).1] := by
    have : (create_attribute env s.attributes xml x).2
        = replace_attribute s.attributes (create_attribute env s.attributes xml x).1 := rfl
    rw [this]
    exact replace_attribute_of_lookup_none (by rw [hid]; exact hl)
  refine ⟨(create_attribute env s.attributes xml x).1, ?_, hid, hvals, htm⟩
  have hpre : ∀ c ∈ s.attributes, c.id ≠ x := by
    intro c hc
    unfold lookup_attribute at hl
    rw [List.find?_eq_none] at hl
    simpa using hl c hc
  have hst1 : lookup_or_create_attribute env s xml x
      = { s with attributes := s.attributes ++ [(create_attribute env s.attributes xml x).1] } := by
    simp [lookup_or_create_attribute, hl, h2]
  have hdamp2 : update_dampening env
      { s with attributes := s.attributes ++ [(create_attribute env s.attributes xml x).1] }
      x (env.crm_get_msec d)
      = { s with attributes := s.attributes ++ [(create_attribute env s.attributes xml x).1] } := by
    unfold update_dampening
    simp only [lookup_attribute_append_last hpre hid, htm, ne_eq, not_true_eq_false, if_false]
  unfold attrd_peer_update_begin
  have hneg : ¬ env.crm_get_msec d < 0 := by omega
  simp only [hattr, htask, hl, hst1, hdamp, hdamp2, hneg, Option.isNone_none, Bool.true_or,
    Option.isNone_none, true_or, not_true_eq_false, and_false, if_false, if_true]

theorem sync_records_eq (a : attribute_t) :
    sync_records a = a.values.map (snapshot_record a) := rfl

theorem pre_ids_of_aframe {pre pre' : List attribute_t} {x : String}
    (hf : List.Forall₂ aframe pre pre') (hpre : ∀ d ∈ pre, d.id ≠ x) :
    ∀ d ∈ pre', d.id ≠ x := by
  intro d hd
  have hids := ids_of_aframe hf
  have : d.id ∈ pre'.map (fun a => a.id) := List.mem_map_of_mem _ hd
  rw [hids, List.mem_map] at this
  obtain ⟨c, hc, hcd⟩ := this
  rw [← hcd]
  exact hpre c hc

theorem foldl_snapshot_existing (env : Env) (a : attribute_t) (d : String)
    (hdt : ∀ v, (snapshot_record a v).dampen = some d) (hd : 0 ≤ env.crm_get_msec d) :
    ∀ (vs : List attribute_value_t) (s : State) (pre : List attribute_t) (b : attribute_t),
      s.attributes = pre ++ [b] → b.id = a.id → (∀ c ∈ pre, c.id ≠ a.id) →
      b.timeout_ms = env.crm_get_msec d →
      (∀ v ∈ vs, strcase_eq v.nodename env.uname = false) →
      vs.Pairwise (fun v w => strcase_eq v.nodename w.nodename = false) →
      (∀ v ∈ vs, lookup_value b.values v.nodename = none) →
      ∃ pre' b',
        ((vs.map (snapshot_record a)).foldl
          (fun s child => attrd_peer_update env s child child.host true) s).attributes
          = pre' ++ [b'] ∧
        List.Forall₂ aframe pre pre' ∧ b'.id = a.id ∧
        b'.values.map (fun v => (v.nodename, v.current))
          = b.values.map (fun v => (v.nodename, v.current))
            ++ vs.map (fun v => (v.nodename, v.current)) := by
  intro vs
  induction vs with
  | nil =>
    intro s pre b hs hb _ _ _ _ _
    exact ⟨pre, b, hs, forall₂_aframe_refl pre, hb, by simp⟩
  | cons v rest ih =>
    intro s pre b hs hb hpre htm hloc hpw hnew
    have hl : lookup_attribute s.attributes a.id = some b := by
      rw [hs]
      exact lookup_attribute_append_last hpre hb
    have hbegin : attrd_peer_update_begin env s (snapshot_record a v) = (s, some a.id) :=
      attrd_peer_update_begin_keep env s (snapshot_record a v) a.id b rfl hl
        (Or.inr ⟨Or.inl rfl, d, hdt v, htm.symm, by rw [htm]; exact hd⟩)
    have hstep : attrd_peer_update env s (snapshot_record a v) (snapshot_record a v).host true
        = attrd_peer_update_value env s (snapshot_record a v) a.id v.nodename true := by
      show attrd_peer_update env s (snapshot_record a v) (some v.nodename) true = _
      simp only [attrd_peer_update, attrd_peer_update_host, hbegin]
    obtain ⟨pre1, b1, hs1, hf1, hb1, htm1, hsum1⟩ :=
      attrd_peer_update_value_new_host env s (snapshot_record a v) a.id v.nodename true pre b
        hs hb hpre (hnew v (List.mem_cons_self _ _))
        (Or.inr (by
          simp only [safe_str_eq]
          exact hloc v (List.mem_cons_self _ _)))
    have hval : (snapshot_record a v).value = v.current := rfl
    rw [hval] at hsum1
    have hnew1 : ∀ w ∈ rest, lookup_value b1.values w.nodename = none := by
      intro w hw
      rw [lookup_value_eq_none_iff]
      intro n hn
      have hnames : b1.values.map (fun u => u.nodename)
          = b.values.map (fun u => u.nodename) ++ [v.nodename] := by
        have := congrArg (List.map Prod.fst) hsum1
        simpa [List.map_map, Function.comp] using this
      rw [hnames, List.mem_append] at hn
      rcases hn with hn | hn
      · exact (lookup_value_eq_none_iff b.values w.nodename).1
          (hnew w (List.mem_cons_of_mem _ hw)) n hn
      · rw [List.mem_singleton] at hn
        subst hn
        exact (List.pairwise_cons.1 hpw).1 w hw
    obtain ⟨pre2, b2, hs2, hf2, hb2, hsum2⟩ := ih _ pre1 b1 hs1 (hb1.trans hb)
      (pre_ids_of_aframe hf1 hpre) (htm1.trans htm)
      (fun w hw => hloc w (List.mem_cons_of_mem _ hw)) (List.pairwise_cons.1 hpw).2 hnew1
    refine ⟨pre2, b2, ?_, forall₂_aframe_trans hf1 hf2, hb2, ?_⟩
    · rw [List.map_cons, List.foldl_cons, hstep]
      exact hs2
    · rw [hsum2, hsum1]
      simp

theorem lookup_attribute_eq_none_iff (l : List attribute_t) (x : String) :
    lookup_attribute l x = none ↔ ∀ c ∈ l, c.id ≠ x := by
  unfold lookup_attribute
  rw [List.find?_eq_none]
  simp

theorem table_summary_ids (l : List attribute_t) :
    (table_summary l).map Prod.fst = l.map (fun a => a.id) := by
  simp [table_summary, List.map_map, Function.comp]

theorem foldl_snapshot_attribute (env : Env) (a : attribute_t) (s : State)
    (hnew : lookup_attribute s.attributes a.id = none)
    (hdamp : ∀ v ∈ a.values, ∀ d, (snapshot_record a v).dampen = some d →
      0 ≤ env.crm_get_msec d)
    (hloc : ∀ v ∈ a.values, strcase_eq v.nodename env.uname = false)
    (hpw : a.values.Pairwise (fun v w => strcase_eq v.nodename w.nodename = false)) :
    table_summary ((sync_records a).foldl
        (fun s child => attrd_peer_update env s child child.host true) s).attributes
      = table_summary s.attributes
        ++ table_summary ([a].filter (fun a => !a.values.isEmpty)) := by
  rw [sync_records_eq]
  cases hv : a.values with
  | nil => simp [table_summary, hv]
  | cons v rest =>
    rw [hv] at hdamp hloc hpw
    have hd := hdamp v (List.mem_cons_self _ _) _ rfl
    have hpre : ∀ c ∈ s.attributes, c.id ≠ a.id := (lookup_attribute_eq_none_iff _ _).1 hnew
    obtain ⟨nb, hbegin, hnb, hnbv, hnbt⟩ := attrd_peer_update_begin_create env s
      (snapshot_record a v) a.id _ rfl rfl rfl hd hnew
    have hstep : attrd_peer_update env s (snapshot_record a v) (snapshot_record a v).host true
        = attrd_peer_update_value env { s with attributes := s.attributes ++ [nb] }
            (snapshot_record a v) a.id v.nodename true := by
      show attrd_peer_update env s (snapshot_record a v) (some v.nodename) true = _
      simp only [attrd_peer_update, attrd_peer_update_host, hbegin]
    obtain ⟨pre1, b1, hs1, hf1, hb1, htm1, hsum1⟩ :=
      attrd_peer_update_value_new_host env { s with attributes := s.attributes ++ [nb] }
        (snapshot_record a v) a.id v.nodename true s.attributes nb rfl hnb hpre
        (by rw [hnbv]; rfl)
        (Or.inr (by
          simp only [safe_str_eq]
          exact hloc v (List.mem_cons_self _ _)))
    have hval : (snapshot_record a v).value = v.current := rfl
    rw [hval, hnbv] at hsum1
    simp only [List.map_nil, List.nil_append] at hsum1
    have hnew1 : ∀ w ∈ rest, lookup_value b1.values w.nodename = none := by
      intro w hw
      rw [lookup_value_eq_none_iff]
      intro n hn
      have hnames : b1.values.map (fun u => u.nodename) = [v.nodename] := by
        have := congrArg (List.map Prod.fst) hsum1
        simpa [List.map_map, Function.comp] using this
      rw [hnames, List.mem_singleton] at hn
      subst hn
      exact (List.pairwise_cons.1 hpw).1 w hw
    obtain ⟨pre2, b2, hs2, hf2, hb2, hsum2⟩ :=
      foldl_snapshot_existing env a _ (fun _ => rfl) hd rest _ pre1 b1 hs1 (hb1.trans hnb)
        (pre_ids_of_aframe hf1 hpre) (htm1.trans hnbt)
        (fun w hw => hloc w (List.mem_cons_of_mem _ hw)) (List.pairwise_cons.1 hpw).2 hnew1
    rw [List.map_cons, List.foldl_cons, hstep, hs2]
    have hpre2 : table_summary pre2 = table_summary s.attributes :=
      table_summary_of_aframe (forall₂_aframe_trans hf1 hf2)
    have hsplit : table_summary (pre2 ++ [b2])
        = table_summary pre2 ++ [(b2.id, b2.values.map (fun v => (v.nodename, v.current)))] := by
      simp [table_summary]
    rw [hsplit, hpre2, hb2, hsum2, hsum1]
    simp [table_summary, hv]

theorem foldl_snapshot_table (env : Env) :
    ∀ (T : List attribute_t) (s : State),
      (T.map (fun a => a.id)).Nodup →
      (∀ a ∈ T, lookup_attribute s.attributes a.id = none) →
      (∀ a ∈ T, ∀ v ∈ a.values, ∀ d, (snapshot_record a v).dampen = some d →
        0 ≤ env.crm_get_msec d) →
      (∀ a ∈ T, ∀ v ∈ a.values, strcase_eq v.nodename env.uname = false) →
      (∀ a ∈ T, a.values.Pairwise (fun v w => strcase_eq v.nodename w.nodename = false)) →
      table_summary ((T.flatMap sync_records).foldl
          (fun s child => attrd_peer_update env s child child.host true) s).attributes
        = table_summary s.attributes
          ++ table_summary (T.filter (fun a => !a.values.isEmpty)) := by
  intro T
  induction T with
  | nil =>
    intro s _ _ _ _ _
    simp [table_summary]
  | cons a rest ih =>
    intro s hnd hnew hdamp hloc hpw
    rw [List.flatMap_cons, List.foldl_append]
    have ha := foldl_snapshot_attribute env a s (hnew a (List.mem_cons_self _ _))
      (hdamp a (List.mem_cons_self _ _)) (hloc a (List.mem_cons_self _ _))
      (hpw a (List.mem_cons_self _ _))
    have hnd' : a.id ∉ rest.map (fun a => a.id) ∧ (rest.map (fun a => a.id)).Nodup :=
      List.nodup_cons.1 hnd
    have hnew' : ∀ c ∈ rest, lookup_attribute
        ((sync_records a).foldl
          (fun s child => attrd_peer_update env s child child.host true) s).attributes c.id
        = none := by
      intro c hc
      rw [lookup_attribute_eq_none_iff]
      intro e he heq
      have hmem : e.id ∈ (table_summary ((sync_records a).foldl
          (fun s child => attrd_peer_update env s child child.host true) s).attributes).map
          Prod.fst := by
        rw [table_summary_ids]
        exact List.mem_map_of_mem _ he
      rw [ha, List.map_append, table_summary_ids, table_summary_ids, List.mem_append] at hmem
      rcases hmem with hmem | hmem
      · rw [List.mem_map] at hmem
        obtain ⟨e0, he0, he0id⟩ := hmem
        exact (lookup_attribute_eq_none_iff _ _).1 (hnew c (List.mem_cons_of_mem _ hc)) e0 he0
          (he0id.trans heq)
      · rw [List.mem_map] at hmem
        obtain ⟨e0, he0, he0id⟩ := hmem
        have : e0 = a := by
          have := List.mem_of_mem_filter he0
          simpa using this
        subst this
        have hid : e0.id = c.id := he0id.trans heq
        exact hnd'.1 (by
          rw [hid]
          exact List.mem_map_of_mem (fun a => a.id) hc)
    rw [ih _ hnd'.2 hnew' (fun c hc => hdamp c (List.mem_cons_of_mem _ hc))
      (fun c hc => hloc c (List.mem_cons_of_mem _ hc))
      (fun c hc => hpw c (List.mem_cons_of_mem _ hc)), ha]
    simp only [table_summary, List.filter_cons, List.filter_nil, List.append_assoc]
    cases a.values.isEmpty <;> simp

theorem attrd_current_only_attribute_update_attributes (env : Env) (st : State) :
    (attrd_current_only_attribute_update env st).attributes = st.attributes := by
  unfold attrd_current_only_attribute_update
  simp only
  split <;> rfl

theorem sync_response_replay (env : Env) (st : State) (peer : crm_node_t) (xml : xmlNode)
    (T : List attribute_t) (htask : xml.task = some ATTRD_OP_SYNC_RESPONSE)
    (hcrm : xml.crm_task = none) (hempty : st.attributes = [])
    (hkeys : table_keys_ok T)
    (hlocal : ∀ a ∈ T, ∀ v ∈ a.values, strcase_eq v.nodename env.uname = false)
    (hdamp : ∀ c ∈ T.flatMap sync_records, ∀ d, c.dampen = some d → 0 ≤ env.crm_get_msec d)
    (hpeer : safe_str_neq peer.uname (some env.uname) = true)
    (hup : env.shutting_down = false) :
    table_summary (attrd_peer_message env st peer xml (T.flatMap sync_records)).attributes
      = table_summary (T.filter (fun a => !a.values.isEmpty)) := by
  have hfold : ∀ s : State, s.attributes = [] →
      table_summary ((T.flatMap sync_records).foldl
        (fun s child => attrd_peer_update env s child child.host true) s).attributes
      = table_summary (T.filter (fun a => !a.values.isEmpty)) := by
    intro s hs
    rw [foldl_snapshot_table env T s hkeys.1 (fun a _ => by rw [hs]; rfl)
      (fun a ha v hv d hd => hdamp _
        (List.mem_flatMap.2 ⟨a, ha, by rw [sync_records_eq]; exact List.mem_map_of_mem _ hv⟩)
        d hd)
      hlocal hkeys.2, hs]
    simp [table_summary]
  have h1 : safe_str_eq (some ATTRD_OP_SYNC_RESPONSE) (some ATTRD_OP_UPDATE) = false := by
    decide
  have h2 : safe_str_eq (some ATTRD_OP_SYNC_RESPONSE) (some ATTRD_OP_UPDATE_BOTH) = false := by
    decide
  have h3 : safe_str_eq (some ATTRD_OP_SYNC_RESPONSE) (some ATTRD_OP_UPDATE_DELAY) = false := by
    decide
  have h4 : safe_str_eq (some ATTRD_OP_SYNC_RESPONSE) (some ATTRD_OP_SYNC) = false := by
    decide
  have h5 : safe_str_eq (some ATTRD_OP_SYNC_RESPONSE) (some ATTRD_OP_PEER_REMOVE) = false := by
    decide
  have h6 : safe_str_eq (some ATTRD_OP_SYNC_RESPONSE) (some ATTRD_OP_CLEAR_FAILURE) = false := by
    decide
  have h7 : safe_str_eq (some ATTRD_OP_SYNC_RESPONSE) (some ATTRD_OP_SYNC_RESPONSE) = true := by
    decide
  unfold attrd_peer_message
  simp only [hcrm, htask, hup, h1, h2, h3, h4, h5, h6, h7, hpeer, Option.isSome_none,
    Bool.false_eq_true, if_false, Bool.or_self, Bool.and_self, if_true]
  split
  · rw [attrd_current_only_attribute_update_attributes]
    exact hfold _ (by simp [clear_attribute_value_seen, hempty])
  · exact hfold _ hempty

/-- C18, amended. Snapshot replay: the `SYNC_RESPONSE` that `attrd_peer_sync`
sends for a table `T` (a hash table: no key twice) has exactly one record for
each value of each attribute of `T`, in table order, with the attribute's
name, the value's node name and its current value. When a daemon with an empty
table, whose node name is not among the node names of `T`, which is not
shutting down and which reads the dampening of every record as a time that is
not negative, processes that message from another node in
`attrd_peer_message`, it holds afterwards exactly the attributes of `T` that
have a value, in the same order, each with the same node names and current
values. -/
theorem snapshot_replay (envS env : Env) (stT st : State) (target : Option crm_node_t)
    (peer : crm_node_t) (hkeys : table_keys_ok stT.attributes)
    (hempty : st.attributes = [])
    (hlocal : ∀ a ∈ stT.attributes, ∀ v ∈ a.values, strcase_eq v.nodename env.uname = false)
    (hdamp : ∀ c ∈ stT.attributes.flatMap sync_records, ∀ d ∈ c.dampen,
      0 ≤ env.crm_get_msec d)
    (hpeer : safe_str_neq peer.uname (some env.uname) = true)
    (hup : env.shutting_down = false) :
    ∃ m, (attrd_peer_sync envS stT target).g.sent = stT.g.sent ++ [m] ∧
      m.node = target ∧ m.data.task = some ATTRD_OP_SYNC_RESPONSE ∧
      m.children.map (fun c => (c.attr, c.host, c.value))
        = stT.attributes.flatMap
            (fun a => a.values.map (fun v => (some a.id, some v.nodename, v.current))) ∧
      table_summary (attrd_peer_message env st peer m.data m.children).attributes
        = table_summary (stT.attributes.filter (fun a => !a.values.isEmpty)) := by
  refine ⟨_, rfl, rfl, rfl, ?_, ?_⟩
  · simp only [List.map_flatMap, sync_records, List.map_map]
    rfl
  · exact sync_response_replay env st peer _ stT.attributes rfl rfl hempty hkeys hlocal hdamp
      hpeer hup

/-- Witness for C18: the writer `n1` holds `shoe-size[n1] = 42` and sends its
snapshot to `n2`, whose table is empty; `n2` then holds the same. -/
theorem snapshot_replay_witness :
    table_summary st_n1_value.attributes = [("shoe-size", [("n1", some "42")])] ∧
    ∃ m, (attrd_peer_sync env_writer st_n1_value (some peer_n2)).g.sent
        = st_n1_value.g.sent ++ [m] ∧
      m.node = some peer_n2 ∧ m.data.task = some ATTRD_OP_SYNC_RESPONSE ∧
      m.children.map (fun c => (c.attr, c.host, c.value))
        = st_n1_value.attributes.flatMap
            (fun a => a.values.map (fun v => (some a.id, some v.nodename, v.current))) ∧
      table_summary (attrd_peer_message env_n2 State.init peer_n1 m.data m.children).attributes
        = table_summary (st_n1_value.attributes.filter (fun a => !a.values.isEmpty)) :=
  ⟨by decide,
   snapshot_replay env_writer env_n2 st_n1_value State.init (some peer_n2) peer_n1
    (by unfold table_keys_ok; decide) rfl (by decide) (by decide) (by decide) rfl⟩

/-- Counterexample for C18: the writer `n1` holds `shoe-size` without values
and `load[n1] = 7`; its snapshot has one record, and `n2`, whose table is
empty, holds `load` only after processing it, not `shoe-size`. -/
theorem snapshot_replay_drops_empty_attribute :
    table_summary st_partly_empty.attributes = [("shoe-size", []), ("load", [("n1", some "7")])] ∧
    (attrd_peer_sync env_writer st_partly_empty (some peer_n2)).g.sent.map
        (fun m => (m.data.task, m.children.map (fun c => (c.attr, c.host, c.value))))
      = [(some ATTRD_OP_SYNC_RESPONSE, [(some "load", some "n1", some "7")])] ∧
    (attrd_peer_sync env_writer st_partly_empty (some peer_n2)).g.sent.map
        (fun m => table_summary
          (attrd_peer_message env_n2 State.init peer_n1 m.data m.children).attributes)
      = [[("load", [("n1", some "7")])]] := by
  decide

/-! ## C21: writes and the running timer -/

theorem write_attribute_now_flags (env : Env) (g : Globals) (a : attribute_t) :
    (write_attribute_now env g a).1.timer = a.timer ∧
    (write_attribute_now env g a).1.changed = false ∧
    (write_attribute_now env g a).1.force_write = false := by
  rcases write_attribute_now_eq env g a with ⟨_, h⟩ | ⟨_, h⟩ <;> rw [h] <;>
    exact ⟨rfl, rfl, rfl⟩

theorem mainloop_timer_stop_not_running (t : Option mainloop_timer_t) :
    mainloop_timer_running (mainloop_timer_stop t) = false := by
  cases t <;> rfl

/-- C21, amended. Write deferred while the dampening timer runs: for an
attribute that is not private and whose timer is running, `write_attribute`
without `ignore_delay` returns with attribute and globals as they were (no
request, no flag cleared), unless the attribute has a write in flight that is
older than the last one done; with `ignore_delay`, when the attribute has no
write in flight and the CIB is connected, it stops the timer and goes on with
the write: the timer is not running afterwards and `changed` and `force_write`
are cleared. -/
theorem write_deferred_while_timer_runs (env : Env) (g : Globals) (a : attribute_t)
    (hp : a.is_private = 0) (hrun : mainloop_timer_running a.timer = true) :
    (¬ (a.update ≠ 0 ∧ a.update < g.last_cib_op_done) →
      write_attribute env g a false = (a, g)) ∧
    (a.update = 0 → env.the_cib = true →
      write_attribute env g a true
        = write_attribute_now env g { a with timer := mainloop_timer_stop a.timer } ∧
      (write_attribute env g a true).1.timer = mainloop_timer_stop a.timer ∧
      mainloop_timer_running (write_attribute env g a true).1.timer = false ∧
      (write_attribute env g a true).1.changed = false ∧
      (write_attribute env g a true).1.force_write = false) := by
  constructor
  · intro hlost
    unfold write_attribute
    simp only [hp, if_true, hlost, if_false, hrun]
    split
    · rfl
    · split
      · rfl
      · simp
  · intro hup hcib
    have h : write_attribute env g a true
        = write_attribute_now env g { a with timer := mainloop_timer_stop a.timer } := by
      unfold write_attribute
      simp [hp, hcib, hup, hrun]
    have hf := write_attribute_now_flags env g { a with timer := mainloop_timer_stop a.timer }
    rw [h]
    refine ⟨rfl, hf.1, ?_, hf.2.1, hf.2.2⟩
    rw [hf.1]
    exact mainloop_timer_stop_not_running a.timer

/-- Witness for C21: the dampened `shoe-size` of the writer, timer running and
nothing in flight, is not written without `ignore_delay` and is written with it. -/
theorem write_deferred_while_timer_runs_witness :
    lookup_attribute st_dampened.attributes "shoe-size" = some attr_dampened ∧
    (write_attribute env_writer st_dampened.g attr_dampened false).2.cib_requests.length = 0 ∧
    (write_attribute env_writer st_dampened.g attr_dampened true).2.cib_requests.length = 1 ∧
    ((¬ (attr_dampened.update ≠ 0 ∧ attr_dampened.update < st_dampened.g.last_cib_op_done) →
        write_attribute env_writer st_dampened.g attr_dampened false
          = (attr_dampened, st_dampened.g)) ∧
      (attr_dampened.update = 0 → env_writer.the_cib = true →
        write_attribute env_writer st_dampened.g attr_dampened true
          = write_attribute_now env_writer st_dampened.g
              { attr_dampened with timer := mainloop_timer_stop attr_dampened.timer } ∧
        (write_attribute env_writer st_dampened.g attr_dampened true).1.timer
          = mainloop_timer_stop attr_dampened.timer ∧
        mainloop_timer_running
          (write_attribute env_writer st_dampened.g attr_dampened true).1.timer = false ∧
        (write_attribute env_writer st_dampened.g attr_dampened true).1.changed = false ∧
        (write_attribute env_writer st_dampened.g attr_dampened true).1.force_write = false)) :=
  ⟨by decide, by decide, by decide,
   write_deferred_while_timer_runs env_writer st_dampened.g attr_dampened (by decide)
    (by decide)⟩

/-- Counterexample for C21. First: in `st_dampened_overtaken` the timer of
`shoe-size` runs and its write in flight (call 1) is older than the last call
done (2); `write_attribute` without `ignore_delay` takes the write for lost and
writes at once: a third request is submitted and `changed` is cleared. Second:
in `st_dampened_in_flight` the timer runs and call 1 is in flight;
`write_attribute` with `ignore_delay` returns without stopping the timer and
without a request. -/
theorem write_despite_running_timer :
    ((lookup_attribute st_dampened_overtaken.attributes "shoe-size").map
        (fun a => (a.is_private, mainloop_timer_running a.timer, a.changed, a.update))
      = some (0, true, true, 1) ∧
    st_dampened_overtaken.g.last_cib_op_done = 2 ∧
    st_dampened_overtaken.g.cib_requests.length = 2 ∧
    (write_attribute_at env_writer st_dampened_overtaken "shoe-size"
        false).g.cib_requests.length = 3 ∧
    (lookup_attribute (write_attribute_at env_writer st_dampened_overtaken "shoe-size"
        false).attributes "shoe-size").map (fun a => a.changed) = some false) ∧
    ((lookup_attribute st_dampened_in_flight.attributes "shoe-size").map
        (fun a => (a.is_private, mainloop_timer_running a.timer, a.update))
      = some (0, true, 1) ∧
    write_attribute_at env_writer st_dampened_in_flight "shoe-size" true
      = st_dampened_in_flight) := by
  decide

/-! ## C22: one write in flight -/

/-- C22. At most one write in flight: for an attribute that is not private and
whose in-flight tag is set and not older than `last_cib_op_done`,
`write_attribute` with either `ignore_delay` returns attribute and globals as
they were: no request is submitted, and tag, flags, timer and values are
untouched. -/
theorem at_most_one_write_in_flight (env : Env) (g : Globals) (a : attribute_t)
    (ignore_delay : Bool) (hp : a.is_private = 0) (hup : a.update ≠ 0)
    (hold : ¬ a.update < g.last_cib_op_done) :
    write_attribute env g a ignore_delay = (a, g) := by
  unfold write_attribute
  have hlost : ¬ (a.update ≠ 0 ∧ a.update < g.last_cib_op_done) := fun h => hold h.2
  rw [if_pos hp]
  by_cases hc : env.the_cib = false
  · rw [if_pos hc]
  · rw [if_neg hc, if_neg hlost, if_pos hup]

/-- Witness for C22: `shoe-size` of the writer with call 1 in flight and no
call done yet. -/
theorem at_most_one_write_in_flight_witness :
    lookup_attribute st_in_flight.attributes "shoe-size" = some attr_in_flight ∧
    st_in_flight.g.last_cib_op_done = 0 ∧
    write_attribute env_writer st_in_flight.g attr_in_flight true
      = (attr_in_flight, st_in_flight.g) :=
  ⟨by decide, by decide,
   at_most_one_write_in_flight env_writer st_in_flight.g attr_in_flight true (by decide)
    (by decide) (by decide)⟩

/-! ## C23: the callback of a failed write -/

/-- C23, amended. Callback on failure: when `attrd_cib_callback` reports a
result other than OK (or a negative call id) for an attribute of the table,
the attribute has no write in flight afterwards, no value has a `requested`,
node names and current values are as before, and `changed` is set if the
attribute has at least one value; without values `changed` stays as it was. -/
theorem callback_failure_marks_retry (env : Env) (st : State) (call_id rc : Int)
    (name : String) (a : attribute_t) (hl : lookup_attribute st.attributes name = some a)
    (hrc : rc ≠ 0 ∨ call_id < 0) :
    ∃ a', lookup_attribute (attrd_cib_callback env st call_id rc name).attributes name
        = some a' ∧
      a'.update = 0 ∧ (∀ v ∈ a'.values, v.requested = none) ∧
      a'.values.map (fun v => (v.nodename, v.current))
        = a.values.map (fun v => (v.nodename, v.current)) ∧
      a'.changed = (a.changed || !a.values.isEmpty) := by
  have hne := cib_callback_rc_ne_zero hrc
  have hid := (lookup_attribute_some hl).2
  have hdone : ∀ t, ({ cib_callback_done a (cib_callback_rc call_id rc) with timer := t }
      : attribute_t).update = 0 ∧
      (∀ v ∈ ({ cib_callback_done a (cib_callback_rc call_id rc) with timer := t }
        : attribute_t).values, v.requested = none) ∧
      ({ cib_callback_done a (cib_callback_rc call_id rc) with timer := t }
        : attribute_t).values.map (fun v => (v.nodename, v.current))
        = a.values.map (fun v => (v.nodename, v.current)) ∧
      ({ cib_callback_done a (cib_callback_rc call_id rc) with timer := t }
        : attribute_t).changed = (a.changed || !a.values.isEmpty) := by
    intro t
    refine ⟨rfl, ?_, ?_, ?_⟩
    · intro v hv
      simp only [cib_callback_done, List.mem_map] at hv
      obtain ⟨u, _, rfl⟩ := hv
      rfl
    · simp [cib_callback_done, List.map_map, Function.comp]
    · simp only [cib_callback_done, hne, ne_eq, not_false_eq_true, true_and]
      cases a.values <;> cases a.changed <;> simp
  have hr : attrd_cib_callback_attr env st.g a call_id rc
      = ({ cib_callback_done a (cib_callback_rc call_id rc) with
            timer := (attrd_cib_callback_attr env st.g a call_id rc).1.timer },
         (attrd_cib_callback_attr env st.g a call_id rc).2) := by
    unfold attrd_cib_callback_attr
    simp only [hne, if_false]
    split <;> rfl
  simp only [attrd_cib_callback, hl]
  rw [hr, lookup_attribute_update_attribute (by simpa [cib_callback_done] using hid),
    if_pos rfl, hl]
  exact ⟨_, rfl, hdone _⟩

/-- Witness for C23: the writer's write of `shoe-size[n2] = 42` fails with -62. -/
theorem callback_failure_marks_retry_witness :
    ∃ a', lookup_attribute
        (attrd_cib_callback env_writer st_in_flight 1 (-62) "shoe-size").attributes "shoe-size"
        = some a' ∧
      a'.update = 0 ∧ (∀ v ∈ a'.values, v.requested = none) ∧
      a'.values.map (fun v => (v.nodename, v.current))
        = attr_in_flight.values.map (fun v => (v.nodename, v.current)) ∧
      a'.changed = (attr_in_flight.changed || !attr_in_flight.values.isEmpty) :=
  callback_failure_marks_retry env_writer st_in_flight 1 (-62) "shoe-size" attr_in_flight
    (by decide) (Or.inl (by decide))

/-- Counterexample for C23: the writer's write of `shoe-size[n2] = 42` is in
flight when `n2` leaves the membership, which removes the only value; the
write then fails with -62, and `changed` is still false afterwards. -/
theorem callback_failure_without_values :
    (lookup_attribute st_orphaned.attributes "shoe-size").map
        (fun a => (a.update, a.values, a.changed)) = some (1, [], false) ∧
    (lookup_attribute (attrd_cib_callback env_writer st_orphaned 1 (-62) "shoe-size").attributes
        "shoe-size").map (fun a => (a.update, a.changed)) = some (0, false) := by
  decide

/-! ## C24: the last call done -/

theorem write_attribute_now_last_done (env : Env) (g : Globals) (a : attribute_t) :
    (write_attribute_now env g a).2.last_cib_op_done = g.last_cib_op_done := by
  rcases write_attribute_now_eq env g a with ⟨_, h⟩ | ⟨_, h⟩ <;> rw [h]

theorem write_attribute_last_done (env : Env) (g : Globals) (a : attribute_t)
    (ignore_delay : Bool) :
    (write_attribute env g a ignore_delay).2.last_cib_op_done = g.last_cib_op_done := by
  rcases write_attribute_cases env g a ignore_delay with h | h | h | h <;> rw [h]
  · exact write_attribute_now_last_done env g a
  · exact write_attribute_now_last_done env g _
  · exact write_attribute_now_last_done env _ _

theorem attrd_cib_callback_attr_id (env : Env) (g : Globals) (a : attribute_t)
    (call_id rc : Int) : (attrd_cib_callback_attr env g a call_id rc).1.id = a.id := by
  unfold attrd_cib_callback_attr
  simp only
  split
  · split
    · exact (write_attribute_aframe env _ _ false).1
    · rfl
  · rfl

theorem attrd_cib_callback_last_done (env : Env) (st : State) (call_id rc : Int)
    (name : String) :
    (attrd_cib_callback env st call_id rc name).g.last_cib_op_done
      = if (lookup_attribute st.attributes name).isSome ∧ cib_callback_rc call_id rc = 0
        then call_id else st.g.last_cib_op_done := by
  unfold attrd_cib_callback
  cases hl : lookup_attribute st.attributes name with
  | none => simp
  | some a =>
    simp only [Option.isSome_some, true_and]
    unfold attrd_cib_callback_attr
    simp only
    split
    · split
      · rename_i h0
        rw [write_attribute_last_done]
      · rename_i h0
        simp [h0]
    · rfl

theorem attrd_cib_callback_isSome (env : Env) (st : State) (call_id rc : Int)
    (name m : String) :
    (lookup_attribute (attrd_cib_callback env st call_id rc name).attributes m).isSome
      = (lookup_attribute st.attributes m).isSome := by
  unfold attrd_cib_callback
  cases hl : lookup_attribute st.attributes name with
  | none => rfl
  | some a =>
    simp only
    rw [lookup_attribute_update_attribute
      ((attrd_cib_callback_attr_id env st.g a call_id rc).trans (lookup_attribute_some hl).2)]
    split
    · rename_i hm
      subst hm
      simp [hl]
    · rfl

/-- C24, amended. `last_cib_op_done` after a sequence of `attrd_cib_callback`
invocations is the call id of the last one among them that reported success
(result OK, call id not negative) for an attribute of the table, and what it
was before if there is none. It is the call id of the most recent success,
not the greatest one. -/
theorem last_cib_op_done_is_last_success (env : Env) :
    ∀ (cbs : List (Int × Int × String)) (st : State),
      (attrd_cib_callbacks env st cbs).g.last_cib_op_done
        = (((cbs.filter (fun cb =>
              decide (cib_callback_rc cb.1 cb.2.1 = 0)
                && (lookup_attribute st.attributes cb.2.2).isSome)).map
              (fun cb => cb.1)).getLast?).getD st.g.last_cib_op_done := by
  intro cbs
  induction cbs with
  | nil =>
    intro st
    rfl
  | cons cb rest ih =>
    intro st
    have hstep : attrd_cib_callbacks env st (cb :: rest)
        = attrd_cib_callbacks env (attrd_cib_callback env st cb.1 cb.2.1 cb.2.2) rest := rfl
    rw [hstep, ih, attrd_cib_callback_last_done]
    simp only [attrd_cib_callback_isSome, List.filter_cons]
    by_cases hc : cib_callback_rc cb.1 cb.2.1 = 0
    · cases hs : (lookup_attribute st.attributes cb.2.2).isSome
      · simp [hc]
      · simp only [hc, decide_True, Bool.and_self, if_true, List.map_cons, and_self]
        rw [List.getLast?_cons]
        rfl
    · simp [hc]

/-- Counterexample for C24: the writer has calls 1 (`shoe-size`) and 2 (`load`)
in flight; call 2 is confirmed first, then call 1. `last_cib_op_done` is 2
after the first callback and 1 after the second: it has decreased and is not
the greatest call id confirmed. -/
theorem last_cib_op_done_decreases :
    st_two_in_flight.attributes.map (fun a => (a.id, a.update))
      = [("shoe-size", 1), ("load", 2)] ∧
    (attrd_cib_callbacks env_writer st_two_in_flight [(2, 0, "load")]).g.last_cib_op_done
      = 2 ∧
    (attrd_cib_callbacks env_writer st_two_in_flight
        [(2, 0, "load"), (1, 0, "shoe-size")]).g.last_cib_op_done = 1 := by
  decide

/-! ## C25: selection by write_attributes -/

theorem write_attributes_step_eq (env : Env) (all ignore_delay : Bool) (g : Globals)
    (a : attribute_t) :
    write_attributes_step env all ignore_delay g a
      = if all = true ∨ a.changed = true ∨ a.unknown_peer_uuids = true ∨ a.force_write = true
        then
          write_attribute env g
            { a with changed :=
                if (!all ∧ a.unknown_peer_uuids) ∨ a.force_write then true else a.changed }
            (if a.force_write then true else ignore_delay)
        else (a, g) := by
  unfold write_attributes_step
  simp only
  by_cases hsel : all = true ∨ a.changed = true ∨ a.unknown_peer_uuids = true ∨
      a.force_write = true
  · rw [if_pos hsel]
    have h1 : (all = true ∨
        (if (!all ∧ a.unknown_peer_uuids) ∨ a.force_write then true else a.changed) = true) := by
      rcases hsel with h | h | h | h
      · exact Or.inl h
      · right
        split
        · rfl
        · exact h
      · cases hall : all
        · right
          simp [h]
        · exact Or.inl rfl
      · right
        simp [h]
    rw [if_pos h1]
  · rw [if_neg hsel]
    have hall : all = false := by
      cases hh : all
      · rfl
      · exact absurd (Or.inl hh) hsel
    have hch : a.changed = false := by
      cases hh : a.changed
      · rfl
      · exact absurd (Or.inr (Or.inl hh)) hsel
    have hun : a.unknown_peer_uuids = false := by
      cases hh : a.unknown_peer_uuids
      · rfl
      · exact absurd (Or.inr (Or.inr (Or.inl hh))) hsel
    have hfw : a.force_write = false := by
      cases hh : a.force_write
      · rfl
      · exact absurd (Or.inr (Or.inr (Or.inr hh))) hsel
    simp only [hall, hch, hun, hfw]
    simp only [Bool.false_eq_true, or_self, if_false, and_false, Bool.not_false, and_self]
    cases a
    simp_all

theorem write_attributes_loop_selected (env : Env) (all ignore_delay : Bool) :
    ∀ (attrs : List attribute_t) (g : Globals),
      List.Forall₂
        (fun a a' =>
          ((all = true ∨ a.changed = true ∨ a.unknown_peer_uuids = true ∨
              a.force_write = true) →
            ∃ g1, a' = (write_attribute env g1
              { a with changed :=
                  if (!all ∧ a.unknown_peer_uuids) ∨ a.force_write then true else a.changed }
              (if a.force_write then true else ignore_delay)).1) ∧
          (¬ (all = true ∨ a.changed = true ∨ a.unknown_peer_uuids = true ∨
              a.force_write = true) → a' = a))
        attrs (write_attributes_loop env all ignore_delay attrs g).1 := by
  intro attrs
  induction attrs with
  | nil =>
    intro g
    exact List.Forall₂.nil
  | cons a rest ih =>
    intro g
    simp only [write_attributes_loop]
    refine List.Forall₂.cons ⟨?_, ?_⟩ (ih _)
    · intro hsel
      refine ⟨g, ?_⟩
      rw [write_attributes_step_eq, if_pos hsel]
    · intro hsel
      rw [write_attributes_step_eq, if_neg hsel]

/-- C25. Selection by `write_attributes`: the function goes through the table
in order, handing the globals from one attribute to the next. For an attribute
`a` it calls `write_attribute` exactly when `all` holds or `a` has `changed`,
`unknown_peer_uuids` or `force_write` set on entry to its iteration (having
then set `changed` when a peer id was missing and not everything is written, or
a forced write is pending; a forced write ignores the delay), and otherwise
leaves `a` and the globals as they are. So in the table afterwards every
selected attribute is what a call of `write_attribute` returned for it and
every other attribute is unchanged. -/
theorem write_attributes_selection (env : Env) (st : State) (all ignore_delay : Bool) :
    (∀ g : Globals,
      write_attributes env { attributes := [], g := g } all ignore_delay
        = { attributes := [], g := g }) ∧
    (∀ (g : Globals) (a : attribute_t) (rest : List attribute_t) (r : attribute_t × Globals),
      r = (if all = true ∨ a.changed = true ∨ a.unknown_peer_uuids = true ∨
              a.force_write = true
           then
             write_attribute env g
               { a with changed :=
                   if (!all ∧ a.unknown_peer_uuids) ∨ a.force_write then true else a.changed }
               (if a.force_write then true else ignore_delay)
           else (a, g)) →
      write_attributes env { attributes := a :: rest, g := g } all ignore_delay
        = { attributes :=
              r.1 :: (write_attributes env { attributes := rest, g := r.2 } all
                ignore_delay).attributes,
            g := (write_attributes env { attributes := rest, g := r.2 } all ignore_delay).g }) ∧
    List.Forall₂
      (fun a a' =>
        ((all = true ∨ a.changed = true ∨ a.unknown_peer_uuids = true ∨
            a.force_write = true) →
          ∃ g1, a' = (write_attribute env g1
            { a with changed :=
                if (!all ∧ a.unknown_peer_uuids) ∨ a.force_write then true else a.changed }
            (if a.force_write then true else ignore_delay)).1) ∧
        (¬ (all = true ∨ a.changed = true ∨ a.unknown_peer_uuids = true ∨
            a.force_write = true) → a' = a))
      st.attributes (write_attributes env st all ignore_delay).attributes := by
  refine ⟨fun g => rfl, ?_, write_attributes_loop_selected env all ignore_delay st.attributes st.g⟩
  intro g a rest r hr
  rw [hr, ← write_attributes_step_eq env all ignore_delay g a]
  rfl

/-! ## C27: the dampening change -/

theorem attrd_peer_update_delay (env : Env) (st : State) (xml : xmlNode) (x dv : String)
    (host : Option String) (filter : Bool) (a : attribute_t)
    (hop : safe_str_eq xml.task (some ATTRD_OP_UPDATE_DELAY) = true)
    (hattr : xml.attr = some x) (hl : lookup_attribute st.attributes x = some a)
    (hdv : xml.dampen = some dv) (hd : 0 ≤ env.crm_get_msec dv) :
    attrd_peer_update env st xml host filter
      = update_dampening env st x (env.crm_get_msec dv) := by
  have hboth : safe_str_eq xml.task (some ATTRD_OP_UPDATE_BOTH) = false :=
    safe_str_eq_task_distinct hop (by decide)
  have hsome : xml.task.isNone = false := by
    cases ht : xml.task with
    | none => rw [ht] at hop; simp [safe_str_eq] at hop
    | some _ => rfl
  have hneg : ¬ env.crm_get_msec dv < 0 := by omega
  have hst1 : lookup_or_create_attribute env st xml x = st := by
    simp [lookup_or_create_attribute, hl]
  have hbegin : attrd_peer_update_begin env st xml
      = (update_dampening env st x (env.crm_get_msec dv), none) := by
    unfold attrd_peer_update_begin
    simp only [hattr, hl, hsome, hboth, hop, hst1, hdv, hneg, Option.isNone_some,
      Bool.false_eq_true, false_and, if_false, Bool.or_self, false_or, or_true, if_true]
  cases host with
  | some h => simp only [attrd_peer_update, attrd_peer_update_host, hbegin]
  | none => simp only [attrd_peer_update, hbegin]

theorem timer_of_period_map {t : Option mainloop_timer_t} {d : Int}
    (h : t.map (fun t => t.period_ms) = if 0 < d then some d else none) :
    t.isSome = true ↔ 0 < d := by
  cases t with
  | none =>
    by_cases hpos : 0 < d
    · simp [hpos] at h
    · simp [hpos]
  | some t =>
    by_cases hpos : 0 < d
    · simp [hpos]
    · simp [hpos] at h

/-- C27. Dampening change: for an `UPDATE_DELAY` message with a valid
dampening `d` that names an attribute `a` of the table. If `d` is the
dampening `a` has, `attrd_peer_update` leaves the state as it is. Otherwise
`a` gets the dampening `d` and a new timer of that period if `d` is positive,
no timer if not, `write_or_elect_attribute` is called once on that attribute,
its result replaces `a`, and nothing else is modified. In both cases the
values of `a` have the node names and current values they had. -/
theorem dampening_change (env : Env) (st : State) (xml : xmlNode) (x dv : String)
    (host : Option String) (filter : Bool) (a : attribute_t)
    (hop : safe_str_eq xml.task (some ATTRD_OP_UPDATE_DELAY) = true)
    (hattr : xml.attr = some x) (hl : lookup_attribute st.attributes x = some a)
    (hdv : xml.dampen = some dv) (hd : 0 ≤ env.crm_get_msec dv) :
    (a.timeout_ms = env.crm_get_msec dv → attrd_peer_update env st xml host filter = st) ∧
    (a.timeout_ms ≠ env.crm_get_msec dv →
      ∃ (a1 : attribute_t) (r : attribute_t × Globals),
        a1 = { a with timeout_ms := env.crm_get_msec dv,
                      timer := if env.crm_get_msec dv > 0
                               then some (mainloop_timer_add (env.crm_get_msec dv)) else none } ∧
        r = write_or_elect_attribute env st.g a1 ∧
        attrd_peer_update env st xml host filter
          = { attributes := update_attribute (fun _ => r.1) x st.attributes, g := r.2 } ∧
        r.1.timeout_ms = env.crm_get_msec dv ∧
        (r.1.timer.isSome = true ↔ 0 < env.crm_get_msec dv) ∧
        r.1.timer.map (fun t => t.period_ms)
          = if 0 < env.crm_get_msec dv then some (env.crm_get_msec dv) else none) ∧
    ∃ a', lookup_attribute (attrd_peer_update env st xml host filter).attributes x = some a' ∧
      a'.timeout_ms = env.crm_get_msec dv ∧
      a'.values.map (fun v => (v.nodename, v.current))
        = a.values.map (fun v => (v.nodename, v.current)) := by
  rw [attrd_peer_update_delay env st xml x dv host filter a hop hattr hl hdv hd]
  have hid := (lookup_attribute_some hl).2
  refine ⟨?_, ?_, ?_⟩
  · intro heq
    simp [update_dampening, hl, heq]
  · intro hne
    have hf := write_or_elect_attribute_aframe env st.g
      { a with timeout_ms := env.crm_get_msec dv,
               timer := if env.crm_get_msec dv > 0
                        then some (mainloop_timer_add (env.crm_get_msec dv)) else none }
    have hp : (write_or_elect_attribute env st.g
        { a with timeout_ms := env.crm_get_msec dv,
                 timer := if env.crm_get_msec dv > 0
                          then some (mainloop_timer_add (env.crm_get_msec dv))
                          else none }).1.timer.map (fun t => t.period_ms)
        = if 0 < env.crm_get_msec dv then some (env.crm_get_msec dv) else none := by
      rw [hf.2.2.2.2.2.2.1]
      by_cases hpos : env.crm_get_msec dv > 0
      · simp [hpos, mainloop_timer_add]
      · simp [hpos]
    refine ⟨_, _, rfl, rfl, ?_, hf.2.2.2.2.2.1, timer_of_period_map hp, hp⟩
    simp [update_dampening, hl, hne]
  · by_cases heq : a.timeout_ms = env.crm_get_msec dv
    · exact ⟨a, by simp [update_dampening, hl, heq], heq, rfl⟩
    · have hf := write_or_elect_attribute_aframe env st.g
        { a with timeout_ms := env.crm_get_msec dv,
                 timer := if env.crm_get_msec dv > 0
                          then some (mainloop_timer_add (env.crm_get_msec dv)) else none }
      refine ⟨_, ?_, hf.2.2.2.2.2.1, value_summary_of_vframe hf.2.2.2.2.2.2.2⟩
      simp only [update_dampening, hl, heq, ne_eq, not_false_eq_true, if_true]
      rw [lookup_attribute_update_attribute (hf.1.trans hid), if_pos rfl, hl]
      rfl

/-- Witness for C27: the writer gives `shoe-size` one second of dampening;
the value of `n1` stays. -/
theorem dampening_change_witness :
    lookup_attribute st_n1_value.attributes "shoe-size" = some attr_n1_value ∧
    env_writer.crm_get_msec "1" = 1000 ∧
    ∃ a', lookup_attribute
        (attrd_peer_update env_writer st_n1_value update_delay_one none false).attributes
        "shoe-size" = some a' ∧
      a'.timeout_ms = env_writer.crm_get_msec "1" ∧
      a'.values.map (fun v => (v.nodename, v.current))
        = attr_n1_value.values.map (fun v => (v.nodename, v.current)) :=
  ⟨by decide, by decide,
   (dampening_change env_writer st_n1_value update_delay_one "shoe-size" "1" none false
      attr_n1_value (by decide) rfl (by decide) rfl (by decide)).2.2⟩

/-! ## C28: updates without a host -/

theorem update_value_congr_lookup (f f' : attribute_value_t → attribute_value_t) (h : String)
    (values : List attribute_value_t) (v : attribute_value_t)
    (hl : lookup_value values h = some v) (hf : f v = f' v) :
    update_value f h values = update_value f' h values := by
  induction values with
  | nil => rfl
  | cons w rest ih =>
    simp only [lookup_value, List.find?_cons] at hl
    simp only [update_value]
    cases hq : strcase_eq w.nodename h with
    | true =>
      simp only [hq, Option.some.injEq] at hl
      simp [hl, hf]
    | false =>
      simp only [hq] at hl
      simp [ih hl]

theorem update_one_value_summary (env : Env) (g : Globals) (a : attribute_t)
    (v : attribute_value_t) (xml : xmlNode) (attr host : String)
    (hl : lookup_value a.values host = some v) :
    (update_one_value env g a v xml attr host false).1.id = a.id ∧
    (update_one_value env g a v xml attr host false).1.values.map
        (fun w => (w.nodename, w.current))
      = (update_value (set_current xml.value) host a.values).map
          (fun w => (w.nodename, w.current)) := by
  unfold update_one_value
  simp only [Bool.false_eq_true, false_and, ↓reduceIte]
  split
  · rename_i hne
    have hupd : update_value (set_current xml.value) host a.values
        = update_value (fun w => { w with current := xml.value }) host a.values :=
      update_value_congr_lookup _ _ host a.values v hl (by simp [set_current, hne])
    rw [hupd]
    split
    · exact ⟨rfl, rfl⟩
    · have hf := write_or_elect_attribute_aframe env g
        { a with
          values := update_value (fun w => { w with current := xml.value }) host a.values,
          changed := true }
      exact ⟨hf.1, value_summary_of_vframe hf.2.2.2.2.2.2.2⟩
  · rename_i hne
    have hupd : update_value (set_current xml.value) host a.values = a.values :=
      update_value_of_fixed _ host a.values v hl (by simp [set_current, hne])
    rw [hupd]
    split
    · exact ⟨rfl, rfl⟩
    · exact ⟨rfl, rfl⟩

theorem lookup_update_attribute_self {attrs : List attribute_t} {name : String}
    {a : attribute_t} (y : attribute_t) (hl : lookup_attribute attrs name = some a)
    (hy : y.id = name) :
    lookup_attribute (update_attribute (fun _ => y) name attrs) name = some y := by
  rw [lookup_attribute_update_attribute hy, if_pos rfl, hl]
  rfl

theorem attrd_peer_update_value_summary (env : Env) (s : State) (xml : xmlNode)
    (x h : String) (b : attribute_t) (v : attribute_value_t)
    (hid : xml.host_id = none) (hl : lookup_attribute s.attributes x = some b)
    (hv : lookup_value b.values h = some v) :
    ∃ b', lookup_attribute (attrd_peer_update_value env s xml x h false).attributes x
        = some b' ∧
      b'.values.map (fun w => (w.nodename, w.current))
        = (update_value (set_current xml.value) h b.values).map
            (fun w => (w.nodename, w.current)) := by
  have hbid := (lookup_attribute_some hl).2
  unfold attrd_peer_update_value
  simp only [hl]
  have hlc : attrd_lookup_or_create_value b.values h xml
      = (v, b.values, if xml.is_remote.getD 0 ≠ 0 then [peer_cache_op.remote_peer_get h]
                      else []) := by
    simp [attrd_lookup_or_create_value, hv]
  rw [hlc]
  simp only
  have hb : ({ b with values := b.values } : attribute_t) = b := rfl
  rw [hb]
  obtain ⟨hrid, hrsum⟩ := update_one_value_summary env
    { s.g with peer_cache_ops := s.g.peer_cache_ops ++
        if xml.is_remote.getD 0 ≠ 0 then [peer_cache_op.remote_peer_get h] else [] }
    b v xml x h hv
  generalize update_one_value env _ b v xml x h false = r at hrid hrsum ⊢
  unfold learn_node_id
  have hlearn : (match lookup_value
      (update_value (fun w => { w with seen := true }) h r.1.values) h with
    | none => (none : Option Int)
    | some v => if v.nodeid = 0 ∧ v.is_remote = 0 then xml.host_id else none) = none := by
    rw [hid]
    split
    · rfl
    · split <;> rfl
  simp only [hlearn]
  refine ⟨_, lookup_update_attribute_self _ hl (hrid.trans hbid), ?_⟩
  simp only
  exact (update_value_summary (fun w => { w with seen := true }) h r.1.values
    (fun _ => rfl)).trans hrsum

theorem update_value_set_current_congr (value : Option String) (h : String) :
    ∀ (l1 l2 : List attribute_value_t),
      l1.map (fun w => (w.nodename, w.current)) = l2.map (fun w => (w.nodename, w.current)) →
      (update_value (set_current value) h l1).map (fun w => (w.nodename, w.current))
        = (update_value (set_current value) h l2).map (fun w => (w.nodename, w.current)) := by
  intro l1
  induction l1 with
  | nil =>
    intro l2 hsum
    cases l2 with
    | nil => rfl
    | cons _ _ => simp at hsum
  | cons v rest ih =>
    intro l2 hsum
    cases l2 with
    | nil => simp at hsum
    | cons w rest2 =>
      simp only [List.map_cons, List.cons.injEq, Prod.mk.injEq] at hsum
      obtain ⟨⟨hn, hc⟩, hrest⟩ := hsum
      simp only [update_value, hn]
      split
      · simp [set_current, hn, hc, hrest]
      · simp [hn, hc, ih rest2 hrest]

theorem foldl_update_value_congr (value : Option String) :
    ∀ (hs : List String) (l1 l2 : List attribute_value_t),
      l1.map (fun w => (w.nodename, w.current)) = l2.map (fun w => (w.nodename, w.current)) →
      (hs.foldl (fun l h => update_value (set_current value) h l) l1).map
          (fun w => (w.nodename, w.current))
        = (hs.foldl (fun l h => update_value (set_current value) h l) l2).map
          (fun w => (w.nodename, w.current)) := by
  intro hs
  induction hs with
  | nil =>
    intro l1 l2 h
    exact h
  | cons h rest ih =>
    intro l1 l2 hsum
    simp only [List.foldl_cons]
    exact ih _ _ (update_value_set_current_congr value h l1 l2 hsum)

theorem foldl_update_value_cons (g : attribute_value_t → attribute_value_t) :
    ∀ (hs : List String) (u : attribute_value_t) (l : List attribute_value_t),
      (∀ h ∈ hs, strcase_eq u.nodename h = false) →
      hs.foldl (fun l h => update_value g h l) (u :: l)
        = u :: hs.foldl (fun l h => update_value g h l) l := by
  intro hs
  induction hs with
  | nil =>
    intro u l _
    rfl
  | cons h rest ih =>
    intro u l hu
    simp only [List.foldl_cons]
    have h1 : update_value g h (u :: l) = u :: update_value g h l := by
      simp [update_value, hu h (List.mem_cons_self _ _)]
    rw [h1]
    exact ih u _ (fun h' hh' => hu h' (List.mem_cons_of_mem _ hh'))

theorem foldl_update_value_all (g : attribute_value_t → attribute_value_t)
    (hg : ∀ w, (g w).nodename = w.nodename) :
    ∀ l : List attribute_value_t,
      l.Pairwise (fun v w => strcase_eq v.nodename w.nodename = false) →
      (l.map (fun v => v.nodename)).foldl (fun l h => update_value g h l) l = l.map g := by
  intro l
  induction l with
  | nil =>
    intro _
    rfl
  | cons v rest ih =>
    intro hpw
    obtain ⟨hv, hrest⟩ := List.pairwise_cons.1 hpw
    simp only [List.map_cons, List.foldl_cons]
    have h1 : update_value g v.nodename (v :: rest) = g v :: rest := by
      simp [update_value, strcase_eq_refl]
    rw [h1, foldl_update_value_cons g _ (g v) rest, ih hrest]
    intro h hh
    rw [List.mem_map] at hh
    obtain ⟨w, hw, rfl⟩ := hh
    rw [hg]
    exact hv w hw

theorem names_of_summary {l1 l2 : List attribute_value_t}
    (h : l1.map (fun w => (w.nodename, w.current)) = l2.map (fun w => (w.nodename, w.current))) :
    l1.map (fun w => w.nodename) = l2.map (fun w => w.nodename) := by
  have h1 := congrArg (List.map Prod.fst) h
  simpa [List.map_map, Function.comp] using h1

theorem update_value_names (f : attribute_value_t → attribute_value_t)
    (hf : ∀ v, (f v).nodename = v.nodename) (h : String) (l : List attribute_value_t) :
    (update_value f h l).map (fun w => w.nodename) = l.map (fun w => w.nodename) := by
  induction l with
  | nil => rfl
  | cons v rest ih =>
    unfold update_value
    split
    · simp [hf v]
    · simp [ih]

theorem foldl_update_hosts_summary (env : Env) (xml : xmlNode) (x : String)
    (hop : xml.task = some ATTRD_OP_UPDATE) (hattr : xml.attr = some x)
    (hid : xml.host_id = none) :
    ∀ (hs : List String) (s : State) (b : attribute_t),
      lookup_attribute s.attributes x = some b →
      (∀ h ∈ hs, lookup_value b.values h ≠ none) →
      ∃ b', lookup_attribute
          (hs.foldl (fun s h => attrd_peer_update_host env s xml h false) s).attributes x
          = some b' ∧
        b'.values.map (fun w => (w.nodename, w.current))
          = (hs.foldl (fun l h => update_value (set_current xml.value) h l) b.values).map
              (fun w => (w.nodename, w.current)) := by
  intro hs
  induction hs with
  | nil =>
    intro s b hl _
    exact ⟨b, hl, rfl⟩
  | cons h rest ih =>
    intro s b hl hhosts
    have hbegin : attrd_peer_update_begin env s xml = (s, some x) := by
      rw [attrd_peer_update_begin_update env s xml x hop hattr]
      simp [lookup_or_create_attribute, hl]
    have hstep : attrd_peer_update_host env s xml h false
        = attrd_peer_update_value env s xml x h false := by
      simp only [attrd_peer_update_host, hbegin]
    cases hv : lookup_value b.values h with
    | none => exact absurd hv (hhosts h (List.mem_cons_self _ _))
    | some v =>
      obtain ⟨b1, hl1, hsum1⟩ := attrd_peer_update_value_summary env s xml x h b v hid hl hv
      have hnames : b1.values.map (fun w => w.nodename) = b.values.map (fun w => w.nodename) :=
        (names_of_summary hsum1).trans
          (update_value_names (set_current xml.value) (fun _ => rfl) h b.values)
      have hhosts1 : ∀ h' ∈ rest, lookup_value b1.values h' ≠ none := by
        intro h' hh' hnone
        rw [lookup_value_eq_none_iff, hnames, ← lookup_value_eq_none_iff] at hnone
        exact hhosts h' (List.mem_cons_of_mem _ hh') hnone
      obtain ⟨b2, hl2, hsum2⟩ := ih _ b1 hl1 hhosts1
      refine ⟨b2, ?_, ?_⟩
      · rw [List.foldl_cons, hstep]
        exact hl2
      · rw [hsum2, List.foldl_cons]
        exact foldl_update_value_congr xml.value rest _ _ hsum1

/-- C28, amended. Update without a target node: for an `UPDATE` message without host
that names an attribute `a` of the table (whose values are a hash table: no
node name twice), `attrd_peer_update` without filter leaves `a` with the same
entries in the same order, and each entry's current value is the incoming
value, or still the stored one when `safe_str_neq` finds them no different.
No entry is created: without entries `a` has none afterwards. -/
theorem update_without_host (env : Env) (st : State) (xml : xmlNode) (x : String)
    (a : attribute_t) (hop : xml.task = some ATTRD_OP_UPDATE) (hattr : xml.attr = some x)
    (hl : lookup_attribute st.attributes x = some a)
    (hkeys : a.values.Pairwise (fun v w => strcase_eq v.nodename w.nodename = false)) :
    ∃ a', lookup_attribute (attrd_peer_update env st xml none false).attributes x = some a' ∧
      a'.values.map (fun v => (v.nodename, v.current))
        = a.values.map (fun v =>
            (v.nodename, if safe_str_neq v.current xml.value then xml.value else v.current)) := by
  have hbegin : attrd_peer_update_begin env st xml = (st, some x) := by
    rw [attrd_peer_update_begin_update env st xml x hop hattr]
    simp [lookup_or_create_attribute, hl]
  have hhosts : ∀ h ∈ a.values.map (fun v => v.nodename), lookup_value a.values h ≠ none := by
    intro h hh hnone
    rw [lookup_value_eq_none_iff] at hnone
    have := hnone h hh
    rw [strcase_eq_refl] at this
    cases this
  obtain ⟨a', hl', hsum⟩ := foldl_update_hosts_summary env { xml with host_id := none } x
    hop hattr rfl (a.values.map (fun v => v.nodename)) st a hl hhosts
  refine ⟨a', ?_, ?_⟩
  · simp only [attrd_peer_update, hbegin, hl]
    exact hl'
  · rw [hsum, foldl_update_value_all (set_current xml.value) (fun _ => rfl) a.values hkeys]
    simp [List.map_map, Function.comp, set_current]

/-- Witness for C28: a non-writer holds the failure attribute
`fail-count-web#start_0` with the value `1` for `n2`; an `UPDATE` without host
and without value clears it. -/
theorem update_without_host_witness :
    (lookup_attribute st_failures.attributes "fail-count-web#start_0").map
        (fun a => a.values.map (fun v => (v.nodename, v.current)))
      = some [("n2", some "1")] ∧
    (lookup_attribute
        (attrd_peer_update env_peer st_failures
          { task := some ATTRD_OP_UPDATE, attr := some "fail-count-web#start_0" }
          none false).attributes
        "fail-count-web#start_0").map
        (fun a => a.values.map (fun v => (v.nodename, v.current)))
      = some [("n2", none)] ∧
    ∃ a', lookup_attribute
        (attrd_peer_update env_peer st_failures
          { task := some ATTRD_OP_UPDATE, attr := some "fail-count-web#start_0" }
          none false).attributes
        "fail-count-web#start_0" = some a' ∧
      a'.values.map (fun v => (v.nodename, v.current))
        = [("n2", none)] :=
  ⟨by decide, by decide,
   update_without_host env_peer st_failures
    { task := some ATTRD_OP_UPDATE, attr := some "fail-count-web#start_0" }
    "fail-count-web#start_0"
    { uuid := none, id := "fail-count-web#start_0", set := none,
      values := [{ nodeid := 0, is_remote := 0, nodename := "n2", current := some "1",
                   requested := none, seen := true }],
      update := 0, timeout_ms := 0, changed := true, unknown_peer_uuids := false,
      is_private := 0, timer := none, user := none, force_write := false }
    rfl rfl (by decide) (by decide)⟩

/-! ## C29: forced writes -/

theorem learn_node_id_quiet (env : Env) (st : State) (g : Globals) (y : attribute_t)
    (xml : xmlNode) (attr host : String)
    (hno : env.election_won = false ∨ xml.host_id = none ∨
      ∃ v, lookup_value y.values host = some v ∧ (v.nodeid ≠ 0 ∨ v.is_remote ≠ 0)) :
    ∃ (y2 : attribute_t) (g2 : Globals),
      learn_node_id env st g y xml attr host
        = { attributes := update_attribute (fun _ => y2) attr st.attributes, g := g2 } ∧
      y2.id = y.id ∧ y2.changed = y.changed ∧ y2.force_write = y.force_write ∧
      y2.values.map (fun v => (v.nodename, v.current))
        = y.values.map (fun v => (v.nodename, v.current)) ∧
      g2.cib_requests = g.cib_requests ∧ g2.sent = g.sent := by
  unfold learn_node_id
  simp only
  split
  · exact ⟨y, g, rfl, rfl, rfl, rfl, rfl, rfl, rfl⟩
  · rename_i id hlearn
    have hwon : env.election_won = false := by
      rcases hno with h | h | ⟨v, hv, hv'⟩
      · exact h
      · cases hq : lookup_value y.values host <;> simp [hq, h] at hlearn
      · simp only [hv] at hlearn
        split at hlearn
        · rename_i hc
          rcases hv' with h | h
          · exact absurd hc.1 h
          · exact absurd hc.2 h
        · cases hlearn
    simp only [hwon, Bool.false_eq_true, if_false]
    exact ⟨_, _, rfl, rfl, rfl, rfl,
      update_value_summary (fun w => { w with nodeid := (id % 4294967296).toNat }) host
        y.values (fun _ => rfl), rfl, rfl⟩

theorem lookup_current_of_summary :
    ∀ (l1 l2 : List attribute_value_t),
      l1.map (fun v => (v.nodename, v.current)) = l2.map (fun v => (v.nodename, v.current)) →
      ∀ q, (lookup_value l1 q).bind (fun v => v.current)
        = (lookup_value l2 q).bind (fun v => v.current) := by
  intro l1
  induction l1 with
  | nil =>
    intro l2 h q
    cases l2 with
    | nil => rfl
    | cons _ _ => simp at h
  | cons v rest ih =>
    intro l2 h q
    cases l2 with
    | nil => simp at h
    | cons w rest2 =>
      simp only [List.map_cons, List.cons.injEq, Prod.mk.injEq] at h
      obtain ⟨⟨hn, hc⟩, hrest⟩ := h
      simp only [lookup_value, List.find?_cons, hn]
      cases hq : strcase_eq w.nodename q
      · exact ih rest2 hrest q
      · simp [hc]

theorem lookup_or_create_value_current (values : List attribute_value_t) (host : String)
    (xml : xmlNode) (q : String) :
    (lookup_value (attrd_lookup_or_create_value values host xml).2.1 q).bind
        (fun v => v.current)
      = (lookup_value values q).bind (fun v => v.current) := by
  unfold attrd_lookup_or_create_value
  cases hl : lookup_value values host with
  | some v => rfl
  | none =>
    simp only
    rw [lookup_value_append_singleton]
    cases lookup_value values q with
    | some w => rfl
    | none =>
      simp only
      cases strcase_eq host q <;> rfl

theorem update_one_value_unchanged (env : Env) (g : Globals) (a : attribute_t)
    (v : attribute_value_t) (xml : xmlNode) (attr host : String) (filter : Bool)
    (heq : safe_str_neq v.current xml.value = false) :
    update_one_value env g a v xml attr host filter
      = ({ a with force_write :=
            if xml.is_force_write.getD 0 ≠ 0 ∧ a.timeout_ms ≠ 0 ∧ a.timer.isSome then true
            else a.force_write }, g) := by
  unfold update_one_value
  simp only [heq, Bool.false_eq_true, false_and, and_false, if_false]
  split
  · rfl
  · rfl

/-- C29, amended. `force_write` is additive: `attrd_peer_update` is called for
a host and an attribute `a` of the table (with a dampening that is not
negative), with a message that leaves the dampening alone and whose value
`safe_str_neq` finds no different from the current value of the host's entry;
and the daemon is not the writer or does not learn the node id of the entry
from the message. Then only `a` is replaced, by an attribute with the same
`changed`, the same current value under every node name, and with
`force_write` set if the message asks for a forced write and `a` has a timer
and a positive dampening, and as it was otherwise; nothing is sent and no
request is submitted. -/
theorem force_write_additive (env : Env) (st : State) (xml : xmlNode) (x host : String)
    (filter : Bool) (a : attribute_t) (hattr : xml.attr = some x)
    (hl : lookup_attribute st.attributes x = some a)
    (hd : xml.task = some ATTRD_OP_UPDATE ∨
      ((xml.task = none ∨ xml.task = some ATTRD_OP_UPDATE_BOTH) ∧
        ∃ d, xml.dampen = some d ∧ env.crm_get_msec d = a.timeout_ms ∧ 0 ≤ a.timeout_ms))
    (htm : 0 ≤ a.timeout_ms)
    (heq : safe_str_neq ((lookup_value a.values host).bind (fun v => v.current)) xml.value
      = false)
    (hno : env.election_won = false ∨ xml.host_id = none ∨
      ∃ v, lookup_value a.values host = some v ∧ (v.nodeid ≠ 0 ∨ v.is_remote ≠ 0)) :
    ∃ a',
      (attrd_peer_update env st xml (some host) filter).attributes
        = update_attribute (fun _ => a') x st.attributes ∧
      lookup_attribute (attrd_peer_update env st xml (some host) filter).attributes x
        = some a' ∧
      a'.changed = a.changed ∧
      a'.force_write
        = (if xml.is_force_write.getD 0 ≠ 0 ∧ 0 < a.timeout_ms ∧ a.timer.isSome then true
           else a.force_write) ∧
      (∀ q, (lookup_value a'.values q).bind (fun v => v.current)
        = (lookup_value a.values q).bind (fun v => v.current)) ∧
      (attrd_peer_update env st xml (some host) filter).g.cib_requests = st.g.cib_requests ∧
      (attrd_peer_update env st xml (some host) filter).g.sent = st.g.sent := by
  simp only [attrd_peer_update, attrd_peer_update_host,
    attrd_peer_update_begin_keep env st xml x a hattr hl hd]
  unfold attrd_peer_update_value
  simp only [hl]
  obtain ⟨hlc1, hlc2, hlc3⟩ := attrd_lookup_or_create_value_lookup a.values host xml
  have hold : (attrd_lookup_or_create_value a.values host xml).1.current
      = (lookup_value a.values host).bind (fun v => v.current) := by
    cases hq : lookup_value a.values host with
    | none => simpa using (hlc3 hq).1
    | some v => simp [hlc2 v hq]
  have hcur := lookup_or_create_value_current a.values host xml
  generalize attrd_lookup_or_create_value a.values host xml = lc at hlc1 hlc2 hold hcur ⊢
  rw [update_one_value_unchanged env _ _ lc.1 xml x host filter (by rw [hold]; exact heq)]
  have hseen : lookup_value
      (update_value (fun w => { w with seen := true }) host lc.2.1) host
      = some { lc.1 with seen := true } := by
    rw [lookup_value_update_value (fun w => { w with seen := true }) (fun _ => rfl),
      strcase_eq_refl]
    simp [hlc1]
  have hid : a.id = x := (lookup_attribute_some hl).2
  obtain ⟨y2, g2, hres, hy1, hy2, hy3, hy4, hg1, hg2⟩ := learn_node_id_quiet env st
    { st.g with peer_cache_ops := st.g.peer_cache_ops ++ lc.2.2 }
    { a with
      values := update_value (fun w => { w with seen := true }) host lc.2.1,
      force_write :=
        if xml.is_force_write.getD 0 ≠ 0 ∧ a.timeout_ms ≠ 0 ∧ a.timer.isSome then true
        else a.force_write }
    xml x host
    (by
      rcases hno with h | h | ⟨v, hv, hv2⟩
      · exact Or.inl h
      · exact Or.inr (Or.inl h)
      · refine Or.inr (Or.inr ⟨{ lc.1 with seen := true }, hseen, ?_⟩)
        rw [hlc2 v hv]
        exact hv2)
  refine ⟨y2, ?_, ?_, hy2, ?_, ?_, ?_, ?_⟩
  · rw [hres]
  · rw [hres]
    exact lookup_update_attribute_self y2 hl (hy1.trans hid)
  · rw [hy3]
    have hc : (a.timeout_ms ≠ 0 ∧ a.timer.isSome = true) ↔
        (0 < a.timeout_ms ∧ a.timer.isSome = true) := by
      constructor
      · rintro ⟨h1, h2⟩
        exact ⟨by omega, h2⟩
      · rintro ⟨h1, h2⟩
        exact ⟨by omega, h2⟩
    simp only [hc]
  · intro q
    rw [lookup_current_of_summary _ _ hy4 q]
    simp only
    rw [lookup_current_of_summary _ lc.2.1
      (update_value_summary (fun w => { w with seen := true }) host lc.2.1 (fun _ => rfl)) q]
    exact hcur q
  · rw [hres]
    exact hg1
  · rw [hres]
    exact hg2

/-- Witness for C29: the writer holds the dampened `shoe-size[n1] = alive`,
changed and not yet written; the same value with a request for a forced write
sets `force_write` and leaves `changed`. -/
theorem force_write_additive_witness :
    lookup_attribute st_dampened.attributes "shoe-size" = some attr_dampened ∧
    (lookup_attribute
        (attrd_peer_update env_writer st_dampened update_same_forced (some "n1")
          false).attributes "shoe-size").map
        (fun a => (a.changed, a.force_write, a.values.map (fun v => v.current)))
      = some (true, true, [some "alive"]) ∧
    ∃ a',
      (attrd_peer_update env_writer st_dampened update_same_forced (some "n1")
          false).attributes
        = update_attribute (fun _ => a') "shoe-size" st_dampened.attributes ∧
      lookup_attribute
          (attrd_peer_update env_writer st_dampened update_same_forced (some "n1")
            false).attributes "shoe-size"
        = some a' ∧
      a'.changed = attr_dampened.changed ∧
      a'.force_write
        = (if update_same_forced.is_force_write.getD 0 ≠ 0 ∧ 0 < attr_dampened.timeout_ms ∧
              attr_dampened.timer.isSome then true
           else attr_dampened.force_write) ∧
      (∀ q, (lookup_value a'.values q).bind (fun v => v.current)
        = (lookup_value attr_dampened.values q).bind (fun v => v.current)) ∧
      (attrd_peer_update env_writer st_dampened update_same_forced (some "n1")
          false).g.cib_requests = st_dampened.g.cib_requests ∧
      (attrd_peer_update env_writer st_dampened update_same_forced (some "n1")
          false).g.sent = st_dampened.g.sent :=
  ⟨by decide, by decide,
   force_write_additive env_writer st_dampened update_same_forced "shoe-size" "n1" false
    attr_dampened rfl (by decide) (Or.inl rfl) (by decide) (by decide) (Or.inr (Or.inl rfl))⟩

/-- Counterexample for C29: in `st_forced_once` the writer holds the dampened
`shoe-size[n1] = 43`, changed, without the node id of `n1`. The message
`update_forced` repeats the value, asks for a forced write and carries the node
id 0: the forced write is noted, and as the node id counts as learned the
writer writes out at once. Afterwards `changed` is false and `force_write` is
not set, and a request has been submitted. -/
theorem force_write_written_at_once :
    (lookup_attribute st_forced_once.attributes "shoe-size").map
        (fun a => (a.changed, a.force_write, a.values.map (fun v => v.current)))
      = some (true, false, [some "43"]) ∧
    (lookup_attribute st_forced_once.attributes "shoe-size").map
        (fun a => (a.timeout_ms, a.timer.isSome)) = some (1000, true) ∧
    update_forced.value = some "43" ∧ update_forced.is_force_write = some 1 ∧
    st_forced_once.g.cib_requests.length = 0 ∧
    (lookup_attribute
        (attrd_peer_update env_writer st_forced_once update_forced (some "n1")
          false).attributes "shoe-size").map
        (fun a => (a.changed, a.force_write, a.values.map (fun v => v.current)))
      = some (false, false, [some "43"]) ∧
    (attrd_peer_update env_writer st_forced_once update_forced (some "n1")
        false).g.cib_requests.length = 1 := by
  decide

/-! ## C30: the dampening on the wire -/

theorem build_attribute_xml_dampen (name : String) (set uuid : Option String) (t : Int)
    (user : Option String) (is_private : Int) (peer : String) (peerid : Nat)
    (value : Option String) (fw : Bool) (h0 : 0 ≤ t) (h1 : t < 2147483648) :
    (build_attribute_xml name set uuid t user is_private peer peerid value fw).dampen
      = some (toString (t.toNat / 1000)) := by
  have h : (t % 4294967296).toNat = t.toNat := by
    rw [Int.emod_eq_of_lt h0 (by omega)]
  simp [build_attribute_xml, h]

/-- C30. Dampening on the wire is whole seconds: for an attribute whose
dampening is a non-negative `int`, every record that `attrd_peer_sync`, the
veto reply and `attrd_current_only_attribute_update` build for it carries as
dampening the decimal text of `timeout_ms / 1000`, rounded down. So a dampening
below one second is sent as `0`, and for a dampening that is not a multiple of
1000 the number sent, times 1000, is smaller than the dampening. -/
theorem dampen_whole_seconds (env : Env) (a : attribute_t) (h0 : 0 ≤ a.timeout_ms)
    (h1 : a.timeout_ms < 2147483648) :
    (∀ r ∈ sync_records a, r.dampen = some (toString (a.timeout_ms.toNat / 1000))) ∧
    (∀ r ∈ current_only_records env a,
      r.dampen = some (toString (a.timeout_ms.toNat / 1000))) ∧
    (∀ (attr nodename : String) (nodeid : Nat) (current : Option String),
      ∀ r ∈ (veto_message env a attr nodename nodeid current).children,
        r.dampen = some (toString (a.timeout_ms.toNat / 1000))) ∧
    (0 < a.timeout_ms → a.timeout_ms < 1000 →
      a.timeout_ms.toNat / 1000 = 0 ∧ ∀ r ∈ sync_records a, r.dampen = some "0") ∧
    (a.timeout_ms % 1000 ≠ 0 →
      ((a.timeout_ms.toNat / 1000 : Nat) : Int) * 1000 < a.timeout_ms) := by
  have hsync : ∀ r ∈ sync_records a,
      r.dampen = some (toString (a.timeout_ms.toNat / 1000)) := by
    intro r hr
    simp only [sync_records, List.mem_map] at hr
    obtain ⟨v, _, rfl⟩ := hr
    exact build_attribute_xml_dampen _ _ _ _ _ _ _ _ _ _ h0 h1
  refine ⟨hsync, ?_, ?_, ?_, ?_⟩
  · intro r hr
    simp only [current_only_records, List.mem_map] at hr
    obtain ⟨v, _, rfl⟩ := hr
    exact build_attribute_xml_dampen _ _ _ _ _ _ _ _ _ _ h0 h1
  · intro attr nodename nodeid current r hr
    simp only [veto_message, List.mem_singleton] at hr
    subst hr
    exact build_attribute_xml_dampen _ _ _ _ _ _ _ _ _ _ h0 h1
  · intro hpos hlt
    have hz : a.timeout_ms.toNat / 1000 = 0 := by omega
    refine ⟨hz, ?_⟩
    intro r hr
    rw [hsync r hr, hz]
    rfl
  · intro hmod
    omega

/-- Witness for C30: a dampening of 1500 ms is sent as `1`. -/
theorem dampen_whole_seconds_witness :
    (sync_records attr_dampened_1500).map (fun r => r.dampen) = [some "1"] ∧
    (attr_dampened_1500.timeout_ms % 1000 ≠ 0 →
      ((attr_dampened_1500.timeout_ms.toNat / 1000 : Nat) : Int) * 1000
        < attr_dampened_1500.timeout_ms) :=
  ⟨by decide,
   (dampen_whole_seconds env_writer attr_dampened_1500 (by decide) (by decide)).2.2.2.2⟩

/-! ## C26: the current-only update -/

theorem seen_flags_of_vframe {l l' : List attribute_value_t} (h : List.Forall₂ vframe l l') :
    l'.map (fun v => (v.nodename, v.seen)) = l.map (fun v => (v.nodename, v.seen)) := by
  induction h with
  | nil => rfl
  | cons hab _ ih =>
    simp only [List.map_cons, ih]
    rw [hab.1, hab.2.2.2.1]

theorem seen_flags_of_aframe {a a' : attribute_t} (h : aframe a a') :
    seen_flags a' = seen_flags a :=
  seen_flags_of_vframe h.2.2.2.2.2.2.2

theorem table_seen_of_aframe {l l' : List attribute_t} (h : List.Forall₂ aframe l l') :
    table_seen l' = table_seen l := by
  induction h with
  | nil => rfl
  | cons hab _ ih =>
    unfold table_seen at ih ⊢
    simp only [List.map_cons, ih]
    rw [hab.1, seen_flags_of_aframe hab]

theorem table_seen_update_attribute (f : List (String × Bool) → List (String × Bool))
    {attrs : List attribute_t} {x : String} {b : attribute_t} (y : attribute_t)
    (hl : lookup_attribute attrs x = some b) (hy : y.id = x)
    (hf : seen_flags y = f (seen_flags b)) :
    table_seen (update_attribute (fun _ => y) x attrs) = mark_attribute x f (table_seen attrs) := by
  induction attrs with
  | nil => simp [lookup_attribute] at hl
  | cons a rest ih =>
    simp only [lookup_attribute, List.find?_cons] at hl
    cases ha : (a.id == x) with
    | true =>
      rw [ha] at hl
      have hab : a = b := by simpa using hl
      have hax : a.id = x := by simpa using ha
      simp only [update_attribute, ha, ↓reduceIte, table_seen, List.map_cons, mark_attribute]
      rw [hy, hf, hab, ← hax, hab]
    | false =>
      rw [ha] at hl
      have ih2 := ih hl
      simp only [update_attribute, ha, Bool.false_eq_true, ↓reduceIte, table_seen, List.map_cons,
        mark_attribute]
      unfold table_seen at ih2
      rw [ih2]

theorem mark_attribute_new (f : List (String × Bool) → List (String × Bool)) (x : String)
    (l : List (String × Bool)) :
    ∀ O : List (String × List (String × Bool)), (∀ e ∈ O, e.1 ≠ x) →
      mark_attribute x f (O ++ [(x, l)]) = O ++ [(x, f l)] ∧
      mark_attribute x f O = O ++ [(x, f [])] := by
  intro O
  induction O with
  | nil =>
    intro _
    simp [mark_attribute]
  | cons e rest ih =>
    intro h
    have he : (e.1 == x) = false := by simpa using h e (by simp)
    have ih2 := ih (fun c hc => h c (by simp [hc]))
    refine ⟨?_, ?_⟩
    · show mark_attribute x f (e :: (rest ++ [(x, l)])) = e :: (rest ++ [(x, f l)])
      simp only [mark_attribute, he, Bool.false_eq_true, ↓reduceIte, ih2.1]
    · show mark_attribute x f (e :: rest) = e :: (rest ++ [(x, f [])])
      simp only [mark_attribute, he, Bool.false_eq_true, ↓reduceIte, ih2.2]

theorem update_value_map_congr {β : Type} (g : attribute_value_t → β)
    (f : attribute_value_t → attribute_value_t) (hf : ∀ v, g (f v) = g v) (h : String)
    (l : List attribute_value_t) : (update_value f h l).map g = l.map g := by
  induction l with
  | nil => rfl
  | cons v rest ih =>
    unfold update_value
    split
    · simp [hf v]
    · simp [ih]

theorem update_one_value_seen_flags (env : Env) (g : Globals) (a : attribute_t)
    (v : attribute_value_t) (xml : xmlNode) (attr host : String) (filter : Bool) :
    (update_one_value env g a v xml attr host filter).1.id = a.id ∧
    seen_flags (update_one_value env g a v xml attr host filter).1 = seen_flags a := by
  have h2 : ∀ a2 : attribute_t, a2.id = a.id → seen_flags a2 = seen_flags a →
      (write_or_elect_attribute env g a2).1.id = a.id ∧
      seen_flags (write_or_elect_attribute env g a2).1 = seen_flags a := by
    intro a2 h1 h2
    have hf := write_or_elect_attribute_aframe env g a2
    exact ⟨hf.1.trans h1, (seen_flags_of_aframe hf).trans h2⟩
  have hupd : seen_flags { a with
      values := update_value (fun w => { w with current := xml.value }) host a.values,
      changed := true } = seen_flags a :=
    update_value_map_congr (fun v => (v.nodename, v.seen))
      (fun w => { w with current := xml.value }) (fun _ => rfl) host a.values
  unfold update_one_value
  simp only
  split
  · exact ⟨rfl, rfl⟩
  · split
    · split
      · exact ⟨rfl, hupd⟩
      · exact h2 _ rfl hupd
    · split
      · exact ⟨rfl, rfl⟩
      · exact ⟨rfl, rfl⟩

theorem attrd_lookup_or_create_value_cons (u : attribute_value_t)
    (rest : List attribute_value_t) (h : String) (xml : xmlNode)
    (hu : strcase_eq u.nodename h = false) :
    (attrd_lookup_or_create_value (u :: rest) h xml).2.1
      = u :: (attrd_lookup_or_create_value rest h xml).2.1 := by
  unfold attrd_lookup_or_create_value
  simp only [lookup_value, List.find?_cons, hu]
  cases List.find? (fun v => strcase_eq v.nodename h) rest <;> rfl

theorem seen_flags_mark (h : String) (xml : xmlNode) :
    ∀ (vals l : List attribute_value_t),
      l.map (fun v => (v.nodename, v.seen))
        = (attrd_lookup_or_create_value vals h xml).2.1.map (fun v => (v.nodename, v.seen)) →
      (update_value (fun w => { w with seen := true }) h l).map (fun v => (v.nodename, v.seen))
        = mark_host h (vals.map (fun v => (v.nodename, v.seen))) := by
  intro vals
  induction vals with
  | nil =>
    intro l hl
    rw [attrd_lookup_or_create_value_new [] h xml rfl] at hl
    cases l with
    | nil => simp at hl
    | cons w l2 =>
      simp only [List.nil_append, List.map_cons, List.map_nil, List.cons.injEq, Prod.mk.injEq,
        List.map_eq_nil_iff] at hl
      obtain ⟨⟨hn, _⟩, rfl⟩ := hl
      have hw : strcase_eq w.nodename h = true := by rw [hn]; exact strcase_eq_refl h
      simp [update_value, mark_host, hn, strcase_eq_refl]
  | cons u rest ih =>
    intro l hl
    cases hu : strcase_eq u.nodename h with
    | true =>
      have hlc : (attrd_lookup_or_create_value (u :: rest) h xml).2.1 = u :: rest := by
        unfold attrd_lookup_or_create_value
        simp [lookup_value, List.find?_cons, hu]
      rw [hlc] at hl
      cases l with
      | nil => simp at hl
      | cons w l2 =>
        simp only [List.map_cons, List.cons.injEq, Prod.mk.injEq] at hl
        obtain ⟨⟨hn, _⟩, hrest⟩ := hl
        have hw : strcase_eq w.nodename h = true := by rw [hn]; exact hu
        simp [update_value, hw, mark_host, hu, hn, hrest]
    | false =>
      rw [attrd_lookup_or_create_value_cons u rest h xml hu] at hl
      cases l with
      | nil => simp at hl
      | cons w l2 =>
        simp only [List.map_cons, List.cons.injEq, Prod.mk.injEq] at hl
        obtain ⟨⟨hn, hs⟩, hrest⟩ := hl
        have hw : strcase_eq w.nodename h = false := by rw [hn]; exact hu
        have ih2 := ih l2 hrest
        simp [update_value, hw, mark_host, hu, hn, hs, ih2]

theorem table_seen_learn_aux (env : Env) (st : State) (g : Globals) (y : attribute_t)
    (x h : String) (n : Nat) (f : List (String × Bool) → List (String × Bool))
    {b : attribute_t} (hl : lookup_attribute st.attributes x = some b) (hy : y.id = x)
    (hf : seen_flags y = f (seen_flags b)) :
    table_seen (update_attribute (fun _ => { y with
        values := update_value (fun w => { w with nodeid := n }) h y.values }) x st.attributes)
      = mark_attribute x f (table_seen st.attributes) ∧
    table_seen (write_attributes env
        { attributes := update_attribute (fun _ => { y with
            values := update_value (fun w => { w with nodeid := n }) h y.values }) x st.attributes,
          g := g } false false).attributes
      = mark_attribute x f (table_seen st.attributes) := by
  have h4 : seen_flags { y with
      values := update_value (fun w => { w with nodeid := n }) h y.values } = seen_flags y :=
    update_value_map_congr (fun v => (v.nodename, v.seen))
      (fun w => { w with nodeid := n }) (fun _ => rfl) h y.values
  have hupd := table_seen_update_attribute f { y with
      values := update_value (fun w => { w with nodeid := n }) h y.values } hl hy (h4.trans hf)
  refine ⟨hupd, ?_⟩
  rw [← hupd]
  exact table_seen_of_aframe (write_attributes_loop_aframe env false false _ _)

theorem table_seen_learn_node_id (env : Env) (st : State) (g : Globals) (y : attribute_t)
    (xml : xmlNode) (x h : String) (f : List (String × Bool) → List (String × Bool))
    {b : attribute_t} (hl : lookup_attribute st.attributes x = some b) (hy : y.id = x)
    (hf : seen_flags y = f (seen_flags b)) :
    table_seen (learn_node_id env st g y xml x h).attributes
      = mark_attribute x f (table_seen st.attributes) := by
  unfold learn_node_id
  simp only
  split
  · exact table_seen_update_attribute f y hl hy hf
  · split
    · exact (table_seen_learn_aux env st _ y x h _ f hl hy hf).2
    · exact (table_seen_learn_aux env st g y x h _ f hl hy hf).1

theorem table_seen_update_value (env : Env) (s : State) (xml : xmlNode) (x h : String)
    (filter : Bool) {b : attribute_t} (hl : lookup_attribute s.attributes x = some b)
    (hb : b.id = x) :
    table_seen (attrd_peer_update_value env s xml x h filter).attributes
      = mark_attribute x (mark_host h) (table_seen s.attributes) := by
  unfold attrd_peer_update_value
  simp only [hl]
  have hu := update_one_value_seen_flags env
    { s.g with peer_cache_ops := s.g.peer_cache_ops ++ (attrd_lookup_or_create_value b.values h xml).2.2 }
    { b with values := (attrd_lookup_or_create_value b.values h xml).2.1 }
    (attrd_lookup_or_create_value b.values h xml).1 xml x h filter
  refine table_seen_learn_node_id env s _ _ xml x h (mark_host h) hl (hu.1.trans hb) ?_
  exact seen_flags_mark h xml b.values _ hu.2

theorem lookup_attribute_some_id {attrs : List attribute_t} {x : String} {a : attribute_t}
    (hl : lookup_attribute attrs x = some a) : a.id = x := by
  unfold lookup_attribute at hl
  have := List.find?_some hl
  simpa using this

theorem table_seen_update_attribute_same {attrs : List attribute_t} {x : String}
    {b : attribute_t} (y : attribute_t)
    (hl : lookup_attribute attrs x = some b) (hy : y.id = x)
    (hf : seen_flags y = seen_flags b) :
    table_seen (update_attribute (fun _ => y) x attrs) = table_seen attrs := by
  induction attrs with
  | nil => simp [lookup_attribute] at hl
  | cons a rest ih =>
    simp only [lookup_attribute, List.find?_cons] at hl
    cases ha : (a.id == x) with
    | true =>
      rw [ha] at hl
      have hab : a = b := by simpa using hl
      have hax : a.id = x := by simpa using ha
      simp only [update_attribute, ha, ↓reduceIte, table_seen, List.map_cons]
      rw [hy, hf, hab, ← hax, hab]
    | false =>
      rw [ha] at hl
      have ih2 := ih hl
      simp only [update_attribute, ha, Bool.false_eq_true, ↓reduceIte, table_seen, List.map_cons]
      unfold table_seen at ih2
      rw [ih2]

theorem table_seen_update_dampening (env : Env) (s : State) (x : String) (d : Int)
    {a : attribute_t} (hl : lookup_attribute s.attributes x = some a) :
    table_seen (update_dampening env s x d).attributes = table_seen s.attributes ∧
    ∃ b, lookup_attribute (update_dampening env s x d).attributes x = some b := by
  have hax := lookup_attribute_some_id hl
  unfold update_dampening
  simp only [hl]
  split
  · have hf := write_or_elect_attribute_aframe env s.g { a with
      timeout_ms := d, timer := if d > 0 then some (mainloop_timer_add d) else none }
    have hsf : seen_flags (write_or_elect_attribute env s.g { a with
        timeout_ms := d, timer := if d > 0 then some (mainloop_timer_add d) else none }).1
        = seen_flags a := (seen_flags_of_aframe hf).trans rfl
    exact ⟨table_seen_update_attribute_same _ hl (hf.1.trans hax) hsf,
      _, lookup_update_attribute_self _ hl (hf.1.trans hax)⟩
  · exact ⟨rfl, a, hl⟩

theorem attrd_peer_update_begin_dampen (env : Env) (s : State) (xml : xmlNode) (x d : String)
    (a : attribute_t)
    (htask : xml.task = none) (hattr : xml.attr = some x) (hdamp : xml.dampen = some d)
    (hd : 0 ≤ env.crm_get_msec d) (hl : lookup_attribute s.attributes x = some a) :
    attrd_peer_update_begin env s xml
      = (update_dampening env s x (env.crm_get_msec d), some x) := by
  have hst1 : lookup_or_create_attribute env s xml x = s := by
    simp [lookup_or_create_attribute, hl]
  unfold attrd_peer_update_begin
  have hneg : ¬ env.crm_get_msec d < 0 := by omega
  simp only [hattr, htask, hl, hst1, hdamp, hneg, Option.isNone_none, Bool.true_or,
    Option.isNone_some, true_or, not_true_eq_false, and_false, if_false, if_true,
    Bool.false_eq_true, false_and]

theorem table_seen_update_host (env : Env) (s : State) (xml : xmlNode) (x h d : String)
    (filter : Bool)
    (htask : xml.task = none) (hattr : xml.attr = some x) (hdamp : xml.dampen = some d)
    (hd : 0 ≤ env.crm_get_msec d) :
    table_seen (attrd_peer_update_host env s xml h filter).attributes
      = mark_attribute x (mark_host h) (table_seen s.attributes) := by
  unfold attrd_peer_update_host
  cases hl : lookup_attribute s.attributes x with
  | none =>
    obtain ⟨nb, hb, hid, hvals, _⟩ :=
      attrd_peer_update_begin_create env s xml x d htask hattr hdamp hd hl
    rw [hb]
    simp only
    have hpre : ∀ c ∈ s.attributes, c.id ≠ x := (lookup_attribute_eq_none_iff _ _).1 hl
    have hl1 : lookup_attribute (s.attributes ++ [nb]) x = some nb :=
      lookup_attribute_append_last hpre hid
    have hv := table_seen_update_value env { s with attributes := s.attributes ++ [nb] }
      xml x h filter hl1 hid
    rw [hv]
    have hts : table_seen (s.attributes ++ [nb]) = table_seen s.attributes ++ [(x, [])] := by
      simp [table_seen, seen_flags, hid, hvals]
    have hpre2 : ∀ e ∈ table_seen s.attributes, e.1 ≠ x := by
      intro e he
      simp only [table_seen, List.mem_map] at he
      obtain ⟨c, hc, rfl⟩ := he
      exact hpre c hc
    have hm := mark_attribute_new (mark_host h) x [] (table_seen s.attributes) hpre2
    show mark_attribute x (mark_host h) (table_seen (s.attributes ++ [nb])) = _
    rw [hts, hm.1, hm.2]
  | some a =>
    rw [attrd_peer_update_begin_dampen env s xml x d a htask hattr hdamp hd hl]
    simp only
    obtain ⟨hts, b, hb⟩ := table_seen_update_dampening env s x (env.crm_get_msec d) hl
    rw [table_seen_update_value env _ xml x h filter hb (lookup_attribute_some_id hb), hts]

theorem mark_host_mem (h : String) :
    ∀ l : List (String × Bool), l.Pairwise (fun p q => strcase_eq p.1 q.1 = false) →
      ∀ p ∈ mark_host h l,
        (strcase_eq p.1 h = true ∧ p.2 = true) ∨ (strcase_eq p.1 h = false ∧ p ∈ l) := by
  intro l
  induction l with
  | nil =>
    intro _ p hp
    simp only [mark_host, List.mem_singleton] at hp
    subst hp
    exact Or.inl ⟨strcase_eq_refl h, rfl⟩
  | cons u rest ih =>
    intro hpw p hp
    rw [List.pairwise_cons] at hpw
    cases hu : strcase_eq u.1 h with
    | true =>
      simp only [mark_host, hu, ↓reduceIte, List.mem_cons] at hp
      rcases hp with rfl | hp
      · exact Or.inl ⟨hu, rfl⟩
      · right
        refine ⟨?_, List.mem_cons_of_mem _ hp⟩
        have h1 := hpw.1 p hp
        cases hph : strcase_eq p.1 h with
        | false => rfl
        | true =>
          have h2 : strcase_eq u.1 p.1 = true :=
            strcase_eq_trans hu (by rw [strcase_eq_comm]; exact hph)
          rw [h1] at h2
          cases h2
    | false =>
      simp only [mark_host, hu, Bool.false_eq_true, ↓reduceIte, List.mem_cons] at hp
      rcases hp with rfl | hp
      · exact Or.inr ⟨hu, List.mem_cons_self _ _⟩
      · rcases ih hpw.2 p hp with h1 | h1
        · exact Or.inl h1
        · exact Or.inr ⟨h1.1, List.mem_cons_of_mem _ h1.2⟩

theorem mark_host_pairwise (h : String) :
    ∀ l : List (String × Bool), l.Pairwise (fun p q => strcase_eq p.1 q.1 = false) →
      (mark_host h l).Pairwise (fun p q => strcase_eq p.1 q.1 = false) := by
  intro l
  induction l with
  | nil =>
    intro _
    simp [mark_host]
  | cons u rest ih =>
    intro hpw
    have hpw2 := List.pairwise_cons.1 hpw
    cases hu : strcase_eq u.1 h with
    | true =>
      simp only [mark_host, hu, ↓reduceIte]
      exact List.pairwise_cons.2 ⟨hpw2.1, hpw2.2⟩
    | false =>
      simp only [mark_host, hu, Bool.false_eq_true, ↓reduceIte]
      refine List.pairwise_cons.2 ⟨?_, ih hpw2.2⟩
      intro q hq
      rcases mark_host_mem h rest hpw2.2 q hq with h1 | h1
      · cases huq : strcase_eq u.1 q.1 with
        | false => rfl
        | true =>
          have h2 := strcase_eq_trans huq h1.1
          rw [hu] at h2
          cases h2
      · exact hpw2.1 q h1.2

theorem mark_attribute_mem (x : String) (f : List (String × Bool) → List (String × Bool)) :
    ∀ t : List (String × List (String × Bool)), (t.map Prod.fst).Nodup →
      ∀ e ∈ mark_attribute x f t,
        (e.1 = x ∧ ∃ l, e.2 = f l ∧ ((x, l) ∈ t ∨ l = [])) ∨ (e.1 ≠ x ∧ e ∈ t) := by
  intro t
  induction t with
  | nil =>
    intro _ e he
    simp only [mark_attribute, List.mem_singleton] at he
    subst he
    exact Or.inl ⟨rfl, [], rfl, Or.inr rfl⟩
  | cons u rest ih =>
    intro hnd e he
    simp only [List.map_cons] at hnd
    have hnd2 := List.nodup_cons.1 hnd
    cases hu : (u.1 == x) with
    | true =>
      have hux : u.1 = x := by simpa using hu
      simp only [mark_attribute, hu, ↓reduceIte, List.mem_cons] at he
      rcases he with rfl | he
      · refine Or.inl ⟨hux, u.2, rfl, Or.inl ?_⟩
        rw [← hux]
        exact List.mem_cons_self _ _
      · right
        refine ⟨?_, List.mem_cons_of_mem _ he⟩
        intro hex
        apply hnd2.1
        rw [hux, ← hex]
        exact List.mem_map_of_mem _ he
    | false =>
      have hux : u.1 ≠ x := by simpa using hu
      simp only [mark_attribute, hu, Bool.false_eq_true, ↓reduceIte, List.mem_cons] at he
      rcases he with rfl | he
      · exact Or.inr ⟨hux, List.mem_cons_self _ _⟩
      · rcases ih hnd2.2 e he with ⟨h1, l, h2, h3⟩ | h1
        · refine Or.inl ⟨h1, l, h2, ?_⟩
          rcases h3 with h3 | h3
          · exact Or.inl (List.mem_cons_of_mem _ h3)
          · exact Or.inr h3
        · exact Or.inr ⟨h1.1, List.mem_cons_of_mem _ h1.2⟩

theorem mark_attribute_nodup (x : String) (f : List (String × Bool) → List (String × Bool)) :
    ∀ t : List (String × List (String × Bool)), (t.map Prod.fst).Nodup →
      ((mark_attribute x f t).map Prod.fst).Nodup ∧
      ∀ k ∈ (mark_attribute x f t).map Prod.fst, k = x ∨ k ∈ t.map Prod.fst := by
  intro t
  induction t with
  | nil =>
    intro _
    simp [mark_attribute]
  | cons u rest ih =>
    intro hnd
    simp only [List.map_cons] at hnd
    have hnd2 := List.nodup_cons.1 hnd
    cases hu : (u.1 == x) with
    | true =>
      simp only [mark_attribute, hu, ↓reduceIte, List.map_cons]
      refine ⟨hnd, ?_⟩
      intro k hk
      exact Or.inr hk
    | false =>
      have hux : u.1 ≠ x := by simpa using hu
      have ih2 := ih hnd2.2
      simp only [mark_attribute, hu, Bool.false_eq_true, ↓reduceIte, List.map_cons]
      refine ⟨List.nodup_cons.2 ⟨?_, ih2.1⟩, ?_⟩
      · intro hmem
        rcases ih2.2 _ hmem with h1 | h1
        · exact hux h1
        · exact hnd2.1 h1
      · intro k hk
        rcases List.mem_cons.1 hk with rfl | hk
        · exact Or.inr (List.mem_cons_self _ _)
        · rcases ih2.2 k hk with h1 | h1
          · exact Or.inl h1
          · exact Or.inr (List.mem_cons_of_mem _ h1)

theorem referred_by_append (cs : List xmlNode) (c : xmlNode) (y n : String) :
    referred_by (cs ++ [c]) y n
      = (referred_by cs y n ||
          (c.attr == some y &&
            match c.host with
            | some h => strcase_eq n h
            | none => false)) := by
  simp [referred_by, List.any_append]

theorem mark_flags_step (cs : List xmlNode) (c : xmlNode) (x h : String)
    (t : List (String × List (String × Bool)))
    (hattr : c.attr = some x) (hhost : c.host = some h)
    (hk : flags_keys_ok t) (hr : flags_as_referred cs t) :
    flags_keys_ok (mark_attribute x (mark_host h) t) ∧
    flags_as_referred (cs ++ [c]) (mark_attribute x (mark_host h) t) := by
  refine ⟨⟨(mark_attribute_nodup x _ t hk.1).1, ?_⟩, ?_⟩
  · intro e he
    rcases mark_attribute_mem x _ t hk.1 e he with ⟨_, l, h2, h3⟩ | h1
    · rw [h2]
      apply mark_host_pairwise
      rcases h3 with h3 | h3
      · exact hk.2 _ h3
      · rw [h3]
        exact List.Pairwise.nil
    · exact hk.2 e h1.2
  · intro e he p hp
    rw [referred_by_append, hattr, hhost]
    rcases mark_attribute_mem x _ t hk.1 e he with ⟨h1, l, h2, h3⟩ | h1
    · rw [h2] at hp
      have hl : l.Pairwise (fun p q => strcase_eq p.1 q.1 = false) := by
        rcases h3 with h3 | h3
        · exact hk.2 _ h3
        · rw [h3]
          exact List.Pairwise.nil
      rcases mark_host_mem h l hl p hp with h4 | h4
      · simp [h4.1, h4.2, h1]
      · rcases h3 with h3 | h3
        · have := hr _ h3 p h4.2
          simp only at this
          simp [h4.1, h1, this]
        · rw [h3] at h4
          simp at h4
    · have := hr e h1.2 p hp
      have hne : (some x == some e.1) = false := by
        simp only [beq_eq_false_iff_ne, ne_eq, Option.some.injEq]
        exact fun hxe => h1.1 hxe.symm
      simp [this, hne]

theorem attrd_peer_update_no_name (env : Env) (s : State) (c : xmlNode) (h : String)
    (filter : Bool) (hattr : c.attr = none) :
    attrd_peer_update env s c (some h) filter = s := by
  simp [attrd_peer_update, attrd_peer_update_host, attrd_peer_update_begin, hattr]

theorem referred_by_no_name (cs : List xmlNode) (c : xmlNode) (hattr : c.attr = none)
    (y n : String) : referred_by (cs ++ [c]) y n = referred_by cs y n := by
  rw [referred_by_append, hattr]
  simp

theorem sync_response_record_flags (env : Env) (s : State) (cs : List xmlNode) (c : xmlNode)
    (hc : c.task = none ∧ c.host.isSome ∧ c.dampen.isSome ∧
      ∀ d ∈ c.dampen, 0 ≤ env.crm_get_msec d)
    (hk : flags_keys_ok (table_seen s.attributes))
    (hr : flags_as_referred cs (table_seen s.attributes)) :
    flags_keys_ok (table_seen (attrd_peer_update env s c c.host true).attributes) ∧
    flags_as_referred (cs ++ [c])
      (table_seen (attrd_peer_update env s c c.host true).attributes) := by
  obtain ⟨htask, hhost, hdamp, hd⟩ := hc
  obtain ⟨h, hh⟩ := Option.isSome_iff_exists.1 hhost
  obtain ⟨d, hdd⟩ := Option.isSome_iff_exists.1 hdamp
  rw [hh]
  cases hattr : c.attr with
  | none =>
    rw [attrd_peer_update_no_name env s c h true hattr]
    refine ⟨hk, ?_⟩
    intro e he p hp
    rw [referred_by_no_name cs c hattr]
    exact hr e he p hp
  | some x =>
    have hstep : table_seen (attrd_peer_update env s c (some h) true).attributes
        = mark_attribute x (mark_host h) (table_seen s.attributes) :=
      table_seen_update_host env s c x h d true htask hattr hdd (hd d (by rw [hdd]; rfl))
    rw [hstep]
    exact mark_flags_step cs c x h _ hattr hh hk hr

theorem sync_response_records_flags (env : Env) :
    ∀ (children cs : List xmlNode) (s : State),
      (∀ c ∈ children, c.task = none ∧ c.host.isSome ∧ c.dampen.isSome ∧
        ∀ d ∈ c.dampen, 0 ≤ env.crm_get_msec d) →
      flags_keys_ok (table_seen s.attributes) →
      flags_as_referred cs (table_seen s.attributes) →
      flags_keys_ok (table_seen (sync_response_records env s children).attributes) ∧
      flags_as_referred (cs ++ children)
        (table_seen (sync_response_records env s children).attributes) := by
  intro children
  induction children with
  | nil =>
    intro cs s _ hk hr
    rw [List.append_nil]
    exact ⟨hk, hr⟩
  | cons c rest ih =>
    intro cs s hc hk hr
    have h1 := sync_response_record_flags env s cs c (hc c (List.mem_cons_self _ _)) hk hr
    have h2 := ih (cs ++ [c]) (attrd_peer_update env s c c.host true)
      (fun c2 hc2 => hc c2 (List.mem_cons_of_mem _ hc2)) h1.1 h1.2
    rw [List.append_assoc] at h2
    exact h2

theorem flags_of_cleared (st : State) (hkeys : table_keys_ok st.attributes) :
    flags_keys_ok (table_seen (clear_attribute_value_seen st).attributes) ∧
    flags_as_referred [] (table_seen (clear_attribute_value_seen st).attributes) := by
  refine ⟨⟨?_, ?_⟩, ?_⟩
  · have : (table_seen (clear_attribute_value_seen st).attributes).map Prod.fst
        = st.attributes.map (fun a => a.id) := by
      simp [table_seen, clear_attribute_value_seen, List.map_map, Function.comp]
    rw [this]
    exact hkeys.1
  · intro e he
    simp only [table_seen, clear_attribute_value_seen, List.map_map, List.mem_map,
      Function.comp] at he
    obtain ⟨a, ha, rfl⟩ := he
    have hp := hkeys.2 a ha
    simp only [seen_flags, List.map_map, Function.comp]
    rw [List.pairwise_map]
    exact hp
  · intro e he p hp
    simp only [table_seen, clear_attribute_value_seen, List.map_map, List.mem_map,
      Function.comp] at he
    obtain ⟨a, ha, rfl⟩ := he
    simp only [seen_flags, List.map_map, Function.comp, List.mem_map] at hp
    obtain ⟨v, _, rfl⟩ := hp
    rfl

theorem current_only_records_of_flags (env : Env) (cs : List xmlNode) :
    ∀ attrs : List attribute_t, flags_as_referred cs (table_seen attrs) →
      attrs.flatMap (current_only_records env) = attrs.flatMap (unreferred_records env cs) := by
  intro attrs
  induction attrs with
  | nil =>
    intro _
    rfl
  | cons a rest ih =>
    intro h
    have hrest : flags_as_referred cs (table_seen rest) := by
      intro e he
      exact h e (List.mem_cons_of_mem _ he)
    have ha : current_only_records env a = unreferred_records env cs a := by
      unfold current_only_records unreferred_records
      congr 1
      apply List.filter_congr
      intro v hv
      have := h (a.id, seen_flags a) (List.mem_cons_self _ _) (v.nodename, v.seen)
        (List.mem_map_of_mem (fun v => (v.nodename, v.seen)) hv)
      simp only at this
      rw [this]
      cases referred_by cs a.id v.nodename <;> rfl
    simp only [List.flatMap_cons, ha, ih hrest]

/-- Counterexample to C26 as stated: `n2` holds `shoe-size[n2]` and `load[n2]`
and receives from the new writer `n1` a `SYNC_RESPONSE` whose only record names
`shoe-size[n2]` and carries no dampening. The record is dropped at lines
794-805, before line 894 flags the value, and the broadcast holds a record for
`shoe-size[n2]` although a record of the `SYNC_RESPONSE` referred to it. -/
theorem current_only_update_repeats_referred :
    referred_by [{ attr := some "shoe-size", host := some "n2", value := some "42" }]
        "shoe-size" "n2" = true ∧
    ((attrd_peer_message env_n2_new_writer st_n2_local peer_n1
        { task := some ATTRD_OP_SYNC_RESPONSE }
        [{ attr := some "shoe-size", host := some "n2", value := some "42" }]).g.sent.map
      (fun m => (m.data.task, m.children.map (fun c => (c.attr, c.host, c.value)))))
      = [(some "sync-response",
          [(some "shoe-size", some "n2", some "42"), (some "load", some "n2", some "7")])] := by
  decide

/-- C26, amended. Current-only update after a new writer's sync: a daemon that
is not shutting down receives a `SYNC_RESPONSE` from another node that it takes
for a new writer; its table is a hash table (no key twice), and every record of
the message is as peers build them: no operation of its own, a host, and a
dampening that the receiver reads as a time that is not negative. After
`attrd_peer_message` has processed all records, the table is the one the
records have left, and `attrd_current_only_attribute_update` has sent one
broadcast `SYNC_RESPONSE` that holds, in table order, exactly one record for
each value whose node name is the local node's name and to which no record of
the message referred (same attribute name, same host letter case aside), and no
record for any other value; when there is no such value, nothing is sent after
the records have been processed. -/
theorem current_only_update (env : Env) (st : State) (peer : crm_node_t) (xml : xmlNode)
    (children : List xmlNode)
    (htask : safe_str_eq xml.task (some ATTRD_OP_SYNC_RESPONSE) = true)
    (hcrm : xml.crm_task = none) (hup : env.shutting_down = false)
    (hpeer : safe_str_neq peer.uname (some env.uname) = true)
    (hwon : env.attrd_check_for_new_writer peer xml = true)
    (hkeys : table_keys_ok st.attributes)
    (hrec : ∀ c ∈ children, c.task = none ∧ c.host.isSome ∧ c.dampen.isSome ∧
      ∀ d ∈ c.dampen, 0 ≤ env.crm_get_msec d) :
    (attrd_peer_message env st peer xml children).attributes
      = (sync_response_records env (clear_attribute_value_seen st) children).attributes ∧
    (attrd_peer_message env st peer xml children).g.sent
      = (sync_response_records env (clear_attribute_value_seen st) children).g.sent ++
        (if ((sync_response_records env (clear_attribute_value_seen st)
              children).attributes.flatMap (unreferred_records env children)).isEmpty then []
         else
          [{ node := none,
             data := { task := some ATTRD_OP_SYNC_RESPONSE, f_type := some T_ATTRD,
                       version := some ATTRD_PROTOCOL_VERSION, writer := env.peer_writer },
             children :=
               (sync_response_records env (clear_attribute_value_seen st)
                 children).attributes.flatMap (unreferred_records env children) }]) := by
  have h1 : safe_str_eq xml.task (some ATTRD_OP_UPDATE) = false :=
    safe_str_eq_task_distinct htask (by decide)
  have h2 : safe_str_eq xml.task (some ATTRD_OP_UPDATE_BOTH) = false :=
    safe_str_eq_task_distinct htask (by decide)
  have h3 : safe_str_eq xml.task (some ATTRD_OP_UPDATE_DELAY) = false :=
    safe_str_eq_task_distinct htask (by decide)
  have h4 : safe_str_eq xml.task (some ATTRD_OP_SYNC) = false :=
    safe_str_eq_task_distinct htask (by decide)
  have h5 : safe_str_eq xml.task (some ATTRD_OP_PEER_REMOVE) = false :=
    safe_str_eq_task_distinct htask (by decide)
  have h6 : safe_str_eq xml.task (some ATTRD_OP_CLEAR_FAILURE) = false :=
    safe_str_eq_task_distinct htask (by decide)
  have h0 := flags_of_cleared st hkeys
  have hfl := (sync_response_records_flags env children [] (clear_attribute_value_seen st)
    hrec h0.1 h0.2).2
  rw [List.nil_append] at hfl
  have hrecs := current_only_records_of_flags env children _ hfl
  have hmsg : attrd_peer_message env st peer xml children
      = attrd_current_only_attribute_update env
          (sync_response_records env (clear_attribute_value_seen st) children) := by
    unfold attrd_peer_message sync_response_records
    simp only [hcrm, htask, hup, hwon, h1, h2, h3, h4, h5, h6, hpeer, Option.isSome_none,
      Bool.false_eq_true, if_false, Bool.or_self, Bool.and_self, if_true]
  rw [hmsg]
  unfold attrd_current_only_attribute_update
  simp only [hrecs]
  split
  · exact ⟨rfl, by simp⟩
  · exact ⟨rfl, rfl⟩

/-- Witness for C26: `n2` holds `shoe-size[n2]` and `load[n2]`; the new writer
`n1` sends a record for `shoe-size[n2]`, and `n2` broadcasts `load[n2]` only. -/
theorem current_only_update_witness :
    (attrd_peer_message env_n2_new_writer st_n2_local peer_n1
        { task := some ATTRD_OP_SYNC_RESPONSE }
        [sync_record "shoe-size" "n2" (some "42") "0"]).g.sent.map
      (fun m => m.children.map (fun c => (c.attr, c.host, c.value)))
      = [[(some "load", some "n2", some "7")]] := by
  have h := (current_only_update env_n2_new_writer st_n2_local peer_n1
    { task := some ATTRD_OP_SYNC_RESPONSE } [sync_record "shoe-size" "n2" (some "42") "0"]
    (by decide) rfl rfl (by decide) rfl (by unfold table_keys_ok; decide) (by decide)).2
  rw [h]
  decide

/-! ## C20: the value change step -/

theorem value_change_update (env : Env) (st st1 : State) (xml : xmlNode) (x h : String)
    (filter : Bool) (a : attribute_t)
    (hb : attrd_peer_update_begin env st xml = (st1, some x))
    (hl : lookup_attribute st1.attributes x = some a)
    (hneq : safe_str_neq ((lookup_value a.values h).bind (fun v => v.current)) xml.value
      = true)
    (hveto : filter = false ∨ safe_str_eq (some h) (some env.uname) = false)
    (htm : 0 ≤ a.timeout_ms) :
    ∃ (a2 : attribute_t) (r : attribute_t × Globals),
      a2 = { a with
             values := update_value (fun w => { w with current := xml.value }) h
               (attrd_lookup_or_create_value a.values h xml).2.1,
             changed := true } ∧
      (lookup_value a2.values h).map (fun v => v.current) = some xml.value ∧
      (∀ q, strcase_eq q h = false → lookup_value a2.values q = lookup_value a.values q) ∧
      r = (if 0 < a.timeout_ms ∧ a.timer.isSome then
             ({ a2 with timer := mainloop_timer_start a.timer },
              { st1.g with peer_cache_ops := st1.g.peer_cache_ops ++
                  (attrd_lookup_or_create_value a.values h xml).2.2 })
           else
             write_or_elect_attribute env
               { st1.g with peer_cache_ops := st1.g.peer_cache_ops ++
                   (attrd_lookup_or_create_value a.values h xml).2.2 }
               a2) ∧
      attrd_peer_update env st xml (some h) filter
        = learn_node_id env st1 r.2
            { r.1 with values := update_value (fun w => { w with seen := true }) h r.1.values }
            xml x h := by
  refine ⟨_, _, rfl, ?_, ?_, rfl, ?_⟩
  · simp only
    rw [lookup_value_update_value (fun w => { w with current := xml.value }) (fun _ => rfl),
      strcase_eq_refl, if_pos rfl, (attrd_lookup_or_create_value_lookup a.values h xml).1]
    rfl
  · intro q hq
    simp only
    rw [lookup_value_update_value (fun w => { w with current := xml.value }) (fun _ => rfl),
      hq]
    simp only [Bool.false_eq_true, if_false]
    exact lookup_or_create_value_other a.values h q xml hq
  · simp only [attrd_peer_update, attrd_peer_update_host, hb]
    unfold attrd_peer_update_value
    simp only [hl]
    obtain ⟨_, hlc2, hlc3⟩ := attrd_lookup_or_create_value_lookup a.values h xml
    have hold : (attrd_lookup_or_create_value a.values h xml).1.current
        = (lookup_value a.values h).bind (fun v => v.current) := by
      cases hq : lookup_value a.values h with
      | none => simpa using (hlc3 hq).1
      | some v => simp [hlc2 v hq]
    generalize attrd_lookup_or_create_value a.values h xml = lc at hold ⊢
    have hstep : update_one_value env
        { st1.g with peer_cache_ops := st1.g.peer_cache_ops ++ lc.2.2 }
        { a with values := lc.2.1 } lc.1 xml x h filter
        = (if 0 < a.timeout_ms ∧ a.timer.isSome then
             ({ a with
                values := update_value (fun w => { w with current := xml.value }) h lc.2.1,
                changed := true,
                timer := mainloop_timer_start a.timer },
              { st1.g with peer_cache_ops := st1.g.peer_cache_ops ++ lc.2.2 })
           else
             write_or_elect_attribute env
               { st1.g with peer_cache_ops := st1.g.peer_cache_ops ++ lc.2.2 }
               { a with
                 values := update_value (fun w => { w with current := xml.value }) h lc.2.1,
                 changed := true }) := by
      have hnv : ¬ (filter = true ∧ safe_str_neq lc.1.current xml.value = true ∧
          safe_str_eq (some h) (some env.uname) = true) := by
        rintro ⟨h1, _, h3⟩
        rcases hveto with hv | hv
        · rw [hv] at h1; cases h1
        · rw [hv] at h3; cases h3
      have hne : safe_str_neq lc.1.current xml.value = true := by rw [hold]; exact hneq
      have hcond : (a.timeout_ms ≠ 0 ∧ a.timer.isSome = true) ↔
          (0 < a.timeout_ms ∧ a.timer.isSome = true) := by
        constructor
        · rintro ⟨h1, h2⟩
          exact ⟨by omega, h2⟩
        · rintro ⟨h1, h2⟩
          exact ⟨by omega, h2⟩
      have hnv2 : ¬ (filter = true ∧ True ∧ safe_str_eq (some h) (some env.uname) = true) :=
        fun ⟨h1, _, h3⟩ => hnv ⟨h1, hne, h3⟩
      unfold update_one_value
      simp only [hne, hnv2, if_false, if_true, hcond]
    rw [hstep]

theorem learn_node_id_summary_aux (env : Env) (st : State) (g : Globals) (y : attribute_t)
    (x h : String) (n : Nat) {b : attribute_t}
    (hl : lookup_attribute st.attributes x = some b) (hy : y.id = x) :
    (∃ a', lookup_attribute (update_attribute (fun _ => { y with
        values := update_value (fun w => { w with nodeid := n }) h y.values }) x
          st.attributes) x = some a' ∧
      a'.values.map (fun v => (v.nodename, v.current))
        = y.values.map (fun v => (v.nodename, v.current))) ∧
    (∃ a', lookup_attribute (write_attributes env
        { attributes := update_attribute (fun _ => { y with
            values := update_value (fun w => { w with nodeid := n }) h y.values }) x
              st.attributes,
          g := g } false false).attributes x = some a' ∧
      a'.values.map (fun v => (v.nodename, v.current))
        = y.values.map (fun v => (v.nodename, v.current))) := by
  have h4 : ({ y with
      values := update_value (fun w => { w with nodeid := n }) h y.values } : attribute_t).values.map
        (fun v => (v.nodename, v.current))
      = y.values.map (fun v => (v.nodename, v.current)) :=
    update_value_map_congr (fun v => (v.nodename, v.current))
      (fun w => { w with nodeid := n }) (fun _ => rfl) h y.values
  have hl4 := lookup_update_attribute_self { y with
      values := update_value (fun w => { w with nodeid := n }) h y.values } hl hy
  refine ⟨⟨_, hl4, h4⟩, ?_⟩
  obtain ⟨a', hl', hf⟩ := (lookup_attribute_forall₂
    (write_attributes_loop_aframe env false false _ g) x).2 _ hl4
  exact ⟨a', hl', (value_summary_of_vframe hf.2.2.2.2.2.2.2).trans h4⟩

theorem learn_node_id_summary (env : Env) (st : State) (g : Globals) (y : attribute_t)
    (xml : xmlNode) (x h : String) {b : attribute_t}
    (hl : lookup_attribute st.attributes x = some b) (hy : y.id = x) :
    ∃ a', lookup_attribute (learn_node_id env st g y xml x h).attributes x = some a' ∧
      a'.values.map (fun v => (v.nodename, v.current))
        = y.values.map (fun v => (v.nodename, v.current)) := by
  unfold learn_node_id
  simp only
  split
  · exact ⟨y, lookup_update_attribute_self y hl hy, rfl⟩
  · split
    · exact (learn_node_id_summary_aux env st _ y x h _ hl hy).2
    · exact (learn_node_id_summary_aux env st g y x h _ hl hy).1

theorem lookup_entry_of_summary :
    ∀ (l1 l2 : List attribute_value_t),
      l1.map (fun v => (v.nodename, v.current)) = l2.map (fun v => (v.nodename, v.current)) →
      ∀ q, (lookup_value l1 q).map (fun v => v.current)
        = (lookup_value l2 q).map (fun v => v.current) := by
  intro l1
  induction l1 with
  | nil =>
    intro l2 h q
    cases l2 with
    | nil => rfl
    | cons _ _ => simp at h
  | cons v rest ih =>
    intro l2 h q
    cases l2 with
    | nil => simp at h
    | cons w rest2 =>
      simp only [List.map_cons, List.cons.injEq, Prod.mk.injEq] at h
      obtain ⟨⟨hn, hc⟩, hrest⟩ := h
      simp only [lookup_value, List.find?_cons, hn]
      cases strcase_eq w.nodename q with
      | true => simp [hc]
      | false => exact ih rest2 hrest q

/-- Counterexample to C20 as stated: the writer holds `shoe-size[n1] = ABC`,
written out, and gets an `UPDATE` with the value `abc` for `n1` (no filter, so
no veto). The two texts are different, but `safe_str_neq` compares without
regard to letter case and finds no change (line 867): the entry keeps `ABC`,
`changed` stays clear, and nothing is written or elected. -/
theorem value_change_letter_case_only :
    safe_str_neq (some "ABC") (some "abc") = false ∧
    (attrd_peer_update env_writer st_n1_text (update_msg "shoe-size" "n1" (some "abc"))
        (some "n1") false).attributes.map
        (fun a => (a.changed, a.values.map (fun v => (v.nodename, v.current))))
      = [(false, [("n1", some "ABC")])] ∧
    (attrd_peer_update env_writer st_n1_text (update_msg "shoe-size" "n1" (some "abc"))
        (some "n1") false).g.cib_requests = st_n1_text.g.cib_requests ∧
    (attrd_peer_update env_writer st_n1_text (update_msg "shoe-size" "n1" (some "abc"))
        (some "n1") false).g.elections_started = st_n1_text.g.elections_started := by
  decide

/-- C20, amended. Value change step: `attrd_peer_update` has reached the value
of host `h` of the attribute `a` (named `x`, with a dampening that is not
negative), the incoming value differs from the current value of `a.values[h]`
as `safe_str_neq` compares them (in more than letter case), and the veto does
not apply (no filter, or `h` is not the local node). Then the entry of `h`
(created if there was none) gets the incoming value as its current value, also
when that is absent, the other entries are as before, and `changed` is set:
this is `a2`. Next, if `a` has a timer and a positive dampening, the timer is
started and nothing else is done; otherwise `write_or_elect_attribute` is
called on `a2`, whose timer is as it was: this gives `r`. The function then
marks the entry as seen and goes on to the node id (`learn_node_id`). In the
state the function returns, the attribute named `x` has the node names and
current values of `a2`: the entry of `h` is there with the incoming value as
its current value, and every other entry has the current value it had; on a
daemon that has not won the election `changed` is still set there. -/
theorem value_change_step (env : Env) (st st1 : State) (xml : xmlNode) (x h : String)
    (filter : Bool) (a : attribute_t)
    (hb : attrd_peer_update_begin env st xml = (st1, some x))
    (hl : lookup_attribute st1.attributes x = some a)
    (hneq : safe_str_neq ((lookup_value a.values h).bind (fun v => v.current)) xml.value
      = true)
    (hveto : filter = false ∨ safe_str_eq (some h) (some env.uname) = false)
    (htm : 0 ≤ a.timeout_ms) :
    ∃ (a2 : attribute_t) (r : attribute_t × Globals) (a' : attribute_t),
      a2 = { a with
             values := update_value (fun w => { w with current := xml.value }) h
               (attrd_lookup_or_create_value a.values h xml).2.1,
             changed := true } ∧
      (lookup_value a2.values h).map (fun v => v.current) = some xml.value ∧
      (∀ q, strcase_eq q h = false → lookup_value a2.values q = lookup_value a.values q) ∧
      r = (if 0 < a.timeout_ms ∧ a.timer.isSome then
             ({ a2 with timer := mainloop_timer_start a.timer },
              { st1.g with peer_cache_ops := st1.g.peer_cache_ops ++
                  (attrd_lookup_or_create_value a.values h xml).2.2 })
           else
             write_or_elect_attribute env
               { st1.g with peer_cache_ops := st1.g.peer_cache_ops ++
                   (attrd_lookup_or_create_value a.values h xml).2.2 }
               a2) ∧
      attrd_peer_update env st xml (some h) filter
        = learn_node_id env st1 r.2
            { r.1 with values := update_value (fun w => { w with seen := true }) h r.1.values }
            xml x h ∧
      lookup_attribute (attrd_peer_update env st xml (some h) filter).attributes x = some a' ∧
      a'.values.map (fun v => (v.nodename, v.current))
        = a2.values.map (fun v => (v.nodename, v.current)) ∧
      (lookup_value a'.values h).map (fun v => v.current) = some xml.value ∧
      (∀ q, strcase_eq q h = false →
        (lookup_value a'.values q).map (fun v => v.current)
          = (lookup_value a.values q).map (fun v => v.current)) ∧
      (env.election_won = false → a'.changed = true) := by
  obtain ⟨a2, r, ha2, hlk, hoth, hr, hfin⟩ :=
    value_change_update env st st1 xml x h filter a hb hl hneq hveto htm
  have hax : a.id = x := lookup_attribute_some_id hl
  have ha2id : a2.id = x := by rw [ha2]; exact hax
  have hr1 : r.1.id = x ∧
      r.1.values.map (fun v => (v.nodename, v.current))
        = a2.values.map (fun v => (v.nodename, v.current)) ∧
      (env.election_won = false → r.1.changed = true) := by
    rw [hr]
    split
    · refine ⟨ha2id, rfl, fun _ => ?_⟩
      rw [ha2]
    · have hf := write_or_elect_attribute_aframe env
        { st1.g with peer_cache_ops := st1.g.peer_cache_ops ++
            (attrd_lookup_or_create_value a.values h xml).2.2 } a2
      refine ⟨hf.1.trans ha2id, value_summary_of_vframe hf.2.2.2.2.2.2.2, fun hw => ?_⟩
      rw [write_or_elect_attribute_not_won env _ a2 hw, ha2]
  have hseen : ({ r.1 with
      values := update_value (fun w => { w with seen := true }) h r.1.values } :
        attribute_t).values.map (fun v => (v.nodename, v.current))
      = r.1.values.map (fun v => (v.nodename, v.current)) :=
    update_value_map_congr (fun v => (v.nodename, v.current))
      (fun w => { w with seen := true }) (fun _ => rfl) h r.1.values
  obtain ⟨a', hl', hsum⟩ := learn_node_id_summary env st1 r.2
    { r.1 with values := update_value (fun w => { w with seen := true }) h r.1.values }
    xml x h hl hr1.1
  have hsum2 : a'.values.map (fun v => (v.nodename, v.current))
      = a2.values.map (fun v => (v.nodename, v.current)) := hsum.trans (hseen.trans hr1.2.1)
  refine ⟨a2, r, a', ha2, hlk, hoth, hr, hfin, ?_, hsum2, ?_, ?_, ?_⟩
  · rw [hfin]
    exact hl'
  · rw [lookup_entry_of_summary _ _ hsum2 h]
    exact hlk
  · intro q hq
    rw [lookup_entry_of_summary _ _ hsum2 q, hoth q hq]
  · intro hw
    obtain ⟨a3, hl3, hch3⟩ := learn_node_id_changed env st1 r.2 a
      { r.1 with values := update_value (fun w => { w with seen := true }) h r.1.values }
      xml x h hl hr1.1 (Or.inl hw)
    rw [hl'] at hl3
    cases hl3
    rw [hch3]
    exact hr1.2.2 hw

/-- Witness for C20: a non-writer gets `shoe-size[n2] = 42` for an attribute
it holds without values; in the state returned the attribute has the one entry
`n2` with the value `42`, `changed` is set, and the election is asked for
once. -/
theorem value_change_step_witness :
    (attrd_peer_update env_peer State.init (update_msg "shoe-size" "n2" (some "42"))
        (some "n2") false).attributes.map
        (fun a => (a.changed, a.values.map (fun v => (v.nodename, v.current))))
      = [(true, [("n2", some "42")])] ∧
    (attrd_peer_update env_peer State.init (update_msg "shoe-size" "n2" (some "42"))
        (some "n2") false).g.elections_started = 1 ∧
    ∃ a', lookup_attribute
        (attrd_peer_update env_peer State.init (update_msg "shoe-size" "n2" (some "42"))
          (some "n2") false).attributes "shoe-size" = some a' ∧
      (lookup_value a'.values "n2").map (fun v => v.current) = some (some "42") ∧
      a'.changed = true := by
  refine ⟨by decide, by decide, ?_⟩
  obtain ⟨_, _, a', _, _, _, _, _, h1, _, h2, _, h3⟩ :=
    value_change_step env_peer State.init st_fresh (update_msg "shoe-size" "n2" (some "42"))
      "shoe-size" "n2" false attr_fresh (by decide) (by decide) (by decide) (Or.inl rfl)
      (by decide)
  exact ⟨a', h1, h2, h3 rfl⟩

/-! ## C28: values that differ in letter case only -/

/-- Counterexample to C28 as stated: the writer holds `shoe-size[n1] = ABC`
and gets an `UPDATE` without host with the value `abc`. The call for `n1`
(lines 832-842) finds no change at line 867, where the comparison is without
regard to letter case, and the entry keeps `ABC`: its current value is not the
incoming value. -/
theorem update_without_host_letter_case :
    (attrd_peer_update env_writer st_n1_text
        { task := some ATTRD_OP_UPDATE, attr := some "shoe-size", value := some "abc" }
        none false).attributes.map
        (fun a => (a.id, a.values.map (fun v => (v.nodename, v.current))))
      = [("shoe-size", [("n1", some "ABC")])] := by
  decide

end Attrd
